import Mathlib

/-!
Verification of the administration-record manager of
`dead_hosts/launcher/info_manager.py` (class `InfoManager`).

The record (`self.content`) is a Python dict from string field names to
heterogeneous JSON-ish values extended with the in-memory-only types
`datetime.datetime` and `uuid.UUID`.  We embed it as an association list
`Record := List (String × Value)` with Python-dict lookup/assignment/deletion
semantics (first occurrence wins; assignment updates in place, else appends).

Modelling decisions for the external collaborators (documented per use):
* Python floats are embedded as exact rationals (no rounding is relevant to
  the verified properties).
* A `datetime` instant is embedded as its epoch-seconds value (a rational).
  Naive datetimes are interpreted in UTC, matching a runner whose local time
  zone is UTC.
* `datetime.utcfromtimestamp` / `datetime.timestamp` are modelled per the
  platform the source's own comments target ("Use UTC datetime for Windows
  compatibility"): conversion of a pre-epoch value fails with `OSError`,
  which the source catches; in-range conversion is exact.
* Fallible Python operations are `Except PyErr _`; the error constructors
  mirror the exception classes the source distinguishes, because it catches
  `OSError` and `ValueError` only.
-/

/-- Exception classes distinguished by the source's `try`/`except` blocks. -/
inductive PyErr where
  | typeError
  | valueError
  | osError
  | attributeError
deriving DecidableEq, Repr

/-- A Python value as it can appear in `self.content`: the JSON types plus the
in-memory-only `datetime.datetime` (epoch seconds, naive UTC) and `uuid.UUID`
(carried in canonical string form). -/
inductive Value where
  | none
  | bool (b : Bool)
  | int (n : ℤ)
  | float (q : ℚ)
  | str (s : String)
  | list (l : List Value)
  | dict (d : List (String × Value))
  | datetime (t : ℚ)
  | uuid (u : String)

/-- The administration record: a Python dict from field name to value. -/
abbrev Record := List (String × Value)

/-- Python `index in content` / `content[index]`: first binding wins. -/
def lookup : Record → String → Option Value
  | [], _ => Option.none
  | (k₀, v₀) :: t, k => if k = k₀ then some v₀ else lookup t k

/-- Python `content[index] = value`: update the existing binding in place,
otherwise append a new one. -/
def rset : Record → String → Value → Record
  | [], k, v => [(k, v)]
  | (k₀, v₀) :: t, k, v => if k = k₀ then (k₀, v) :: t else (k₀, v₀) :: rset t k v

/-- Python `del content[index]` (dict keys are unique, so removing every
binding of the key is observationally the same). -/
def erase : Record → String → Record
  | [], _ => []
  | (k₀, v₀) :: t, k => if k = k₀ then erase t k else (k₀, v₀) :: erase t k

/-- Python truthiness (`bool(v)`): empty containers, zero numbers, the empty
string, `False` and `None` are falsy; datetimes and UUIDs are always truthy. -/
def truthy : Value → Bool
  | .none => false
  | .bool b => b
  | .int n => n != 0
  | .float q => q != 0
  | .str s => !s.data.isEmpty
  | .list l => !l.isEmpty
  | .dict d => !d.isEmpty
  | .datetime _ => true
  | .uuid _ => true

/-- `isinstance(v, bool)`. -/
def Value.isBool : Value → Bool
  | .bool _ => true
  | _ => false

/-- `isinstance(v, float)` (Python `bool`/`int` are not `float`). -/
def Value.isFloat : Value → Bool
  | .float _ => true
  | _ => false

/-- `isinstance(v, datetime)`. -/
def Value.isDatetime : Value → Bool
  | .datetime _ => true
  | _ => false

/-- `isinstance(v, uuid.UUID)`. -/
def Value.isUuid : Value → Bool
  | .uuid _ => true
  | _ => false

/-- `isinstance(v, dict)`. -/
def Value.isDict : Value → Bool
  | .dict _ => true
  | _ => false

/-- The numeric reading of a Python number (`bool` is an `int` subclass):
`some` exactly for the values accepted by arithmetic coercions such as
`datetime.utcfromtimestamp`; anything else raises `TypeError` there. -/
def toNum : Value → Option ℚ
  | .bool b => some (if b then 1 else 0)
  | .int n => some (n : ℚ)
  | .float q => some q
  | _ => Option.none

/-- Decimal digits of a string, as a number (`none` if empty or non-digit).
Supports the digit strings relevant to `int()`/`float()` literals. -/
def digitsToNat : List Char → Option ℕ
  | [] => Option.none
  | l => go l 0
where
  go : List Char → ℕ → Option ℕ
    | [], acc => some acc
    | c :: cs, acc =>
      if c.isDigit then go cs (acc * 10 + (c.toNat - '0'.toNat)) else Option.none

/-- Modelled from Python `int(s)` on string arguments: an optional sign
followed by decimal digits (whitespace/underscore tolerance is abstracted
away; no verified property depends on it). -/
def pyParseInt (s : String) : Option ℤ :=
  match s.data with
  | '-' :: rest => (digitsToNat rest).map fun n => -(n : ℤ)
  | '+' :: rest => (digitsToNat rest).map fun n => (n : ℤ)
  | l => (digitsToNat l).map fun n => (n : ℤ)

/-- Modelled from Python `float(s)` on string arguments: an optional sign,
decimal digits, and an optional fractional part (exponents and special
floats are abstracted away; no verified property depends on them). -/
def pyParseFloat (s : String) : Option ℚ :=
  match s.data with
  | '-' :: rest => (parseBody rest).map fun q => -q
  | '+' :: rest => parseBody rest
  | l => parseBody l
where
  parseBody (l : List Char) : Option ℚ :=
    match l.splitOn '.' with
    | [intPart] => (digitsToNat intPart).map fun n => (n : ℚ)
    | [intPart, fracPart] =>
      match digitsToNat intPart, digitsToNat fracPart with
      | some n, some f => some ((n : ℚ) + (f : ℚ) / ((10 : ℚ) ^ fracPart.length))
      | _, _ => Option.none
    | _ => Option.none

/-- Python `float(v)` as used at lines 327-343: succeeds on numbers and
numeric strings, raises `ValueError` on other strings, and `TypeError`
elsewhere — in particular `float(datetime)` raises `TypeError`. -/
def pyFloat : Value → Except PyErr ℚ
  | .float q => .ok q
  | .int n => .ok (n : ℚ)
  | .bool b => .ok (if b then 1 else 0)
  | .str s =>
    match pyParseFloat s with
    | some q => .ok q
    | Option.none => .error .valueError
  | _ => .error .typeError

/-- Python `int(v)` as used by `bool(int(v))` at line 318: truncates floats
toward zero, parses integer strings, raises otherwise. -/
def pyInt : Value → Except PyErr ℤ
  | .bool b => .ok (if b then 1 else 0)
  | .int n => .ok n
  | .float q => .ok (Int.tdiv q.num q.den)
  | .str s =>
    match pyParseInt s with
    | some n => .ok n
    | Option.none => .error .valueError
  | _ => .error .typeError

mutual
/-- Python `==` between record values.  Numbers compare across
`bool`/`int`/`float` (`2 == 2.0` is `True`); `datetime`, `uuid` and string
values compare within their own type; other cross-type comparisons are
`False`. -/
def pyEq : Value → Value → Bool
  | .none, .none => true
  | .bool a, w =>
    match toNum w with
    | some b => decide ((if a then (1 : ℚ) else 0) = b)
    | Option.none => false
  | .int n, w =>
    match toNum w with
    | some b => decide ((n : ℚ) = b)
    | Option.none => false
  | .float q, w =>
    match toNum w with
    | some b => decide (q = b)
    | Option.none => false
  | .str a, .str b => decide (a = b)
  | .datetime a, .datetime b => decide (a = b)
  | .uuid a, .uuid b => decide (a = b)
  | .list a, .list b => pyEqList a b
  | .dict a, .dict b => pyEqDict a b && b.all fun kv => (lookup a kv.1).isSome
  | _, _ => false
termination_by structural v => v

/-- Pointwise Python `==` on lists (lengths must agree). -/
def pyEqList : List Value → List Value → Bool
  | [], [] => true
  | v :: t, w :: s => pyEq v w && pyEqList t s
  | _, _ => false
termination_by structural l => l

/-- Every binding of the first dict is matched by an `==` binding in the
second; with the key-inclusion check the other way this is dict `==`. -/
def pyEqDict : List (String × Value) → List (String × Value) → Bool
  | [], _ => true
  | kv :: t, b =>
    (match lookup b kv.1 with
     | some w => pyEq kv.2 w
     | Option.none => false) && pyEqDict t b
termination_by structural l => l
end

/-- Python `==` on whole records (dict equality: order-insensitive). -/
def recPyEq (r r' : Record) : Bool := pyEq (.dict r) (.dict r')

/-- A value as it can come out of the JSON load of the administration file:
no in-memory-only types, and dict keys unique (a parsed JSON object). -/
inductive JsonVal : Value → Prop where
  | none : JsonVal .none
  | bool (b : Bool) : JsonVal (.bool b)
  | int (n : ℤ) : JsonVal (.int n)
  | float (q : ℚ) : JsonVal (.float q)
  | str (s : String) : JsonVal (.str s)
  | list (l : List Value) : (∀ v ∈ l, JsonVal v) → JsonVal (.list l)
  | dict (d : List (String × Value)) : (∀ kv ∈ d, JsonVal kv.2) →
      (d.map Prod.fst).Nodup → JsonVal (.dict d)

/-- ASCII case-lowering of one character (unicode lowering beyond ASCII is
abstracted away; no verified property depends on it). -/
def lowerChar (c : Char) : Char :=
  if 'A' ≤ c ∧ c ≤ 'Z' then Char.ofNat (c.toNat + 32) else c

/-- Python `s.lower()`. -/
def pyLower (s : String) : String := ⟨s.data.map lowerChar⟩

/-- Python `s.startswith(p)`. -/
def pyStartswith (s p : String) : Bool := p.data.isPrefixOf s.data

/-- Python `s.replace(pat, rep)` on character lists: replace each
non-overlapping occurrence left to right.  The fuel argument (instantiated
with the string length) only makes the recursion structural; every use in
the source has a non-empty single-character pattern. -/
def pyReplaceAux (pat rep : List Char) : ℕ → List Char → List Char
  | _, [] => []
  | 0, l => l
  | fuel + 1, c :: cs =>
    if pat.isPrefixOf (c :: cs) then
      rep ++ pyReplaceAux pat rep fuel (List.drop (pat.length - 1) cs)
    else c :: pyReplaceAux pat rep fuel cs

/-- Python `s.replace(pat, rep)`. -/
def pyReplace (s pat rep : String) : String :=
  ⟨pyReplaceAux pat.data rep.data s.data.length s.data⟩

/-- Python slicing `s[:n]` (by code points). -/
def strTake (s : String) (n : ℕ) : String := ⟨s.data.take n⟩

/-- Python `s.endswith(p)`. -/
def strEndsWith (s p : String) : Bool := p.data.reverse.isPrefixOf s.data.reverse

/-- Binary digits (least significant first, as characters) of a number; the
fuel (instantiated with the number itself, an upper bound on the digit
count) makes the recursion structural. -/
def natDigitsAux : ℕ → ℕ → List Char
  | 0, _ => []
  | _ + 1, 0 => []
  | fuel + 1, n + 1 =>
    (if (n + 1) % 2 = 1 then 'b' else 'a') :: natDigitsAux fuel ((n + 1) / 2)

/-- Binary digit characters of `n`. -/
def natDigits (n : ℕ) : List Char := natDigitsAux n n

/-- Value of a binary digit-character list (inverse of `natDigits`). -/
def digitsVal : List Char → ℕ
  | [] => 0
  | c :: cs => (if c = 'b' then 1 else 0) + 2 * digitsVal cs

/-- Split a character list at its first `'/'`. -/
def splitSlash : List Char → Option (List Char × List Char)
  | [] => Option.none
  | c :: cs =>
    if c = '/' then some ([], cs)
    else
      match splitSlash cs with
      | some (x, y) => some (c :: x, y)
      | Option.none => Option.none

/-- Modelled from `datetime.isoformat()`: an injective text rendering of the
instant with a computable partial inverse.  The concrete ISO-8601 digit
layout is abstracted away — the verified properties only use that parsing a
rendered instant yields the instant back (`fromisoformat(d.isoformat()) == d`). -/
def isoEncode (t : ℚ) : String :=
  ⟨'T' :: (if t.num < 0 then 'n' else 'p') ::
    (natDigits t.num.natAbs ++ '/' :: natDigits t.den)⟩

/-- Modelled from `datetime.fromisoformat(s)`: the partial inverse of
`isoEncode`; any string not produced by `isoEncode` may fail (`ValueError`
in the source, which catches it). -/
def isoDecodeL : List Char → Option ℚ
  | 'T' :: sc :: rest =>
    (match splitSlash rest with
     | some (xs, ys) =>
       let num : ℤ := if sc = 'n' then -(digitsVal xs : ℤ) else (digitsVal xs : ℤ)
       let den : ℕ := digitsVal ys
       if den = 0 then Option.none else some ((num : ℚ) / (den : ℚ))
     | Option.none => Option.none)
  | _ => Option.none

/-- Modelled from `datetime.fromisoformat(s)` (see `isoDecodeL`). -/
def isoDecode (s : String) : Option ℚ := isoDecodeL s.data

/-- Lower-case hexadecimal digit (the alphabet of a canonical UUID string). -/
def isLowerHex (c : Char) : Bool := ('0' ≤ c && c ≤ '9') || ('a' ≤ c && c ≤ 'f')

/-- Hexadecimal digit in either case (what `int(hex, 16)` accepts). -/
def isHexDigit (c : Char) : Bool :=
  isLowerHex c || ('A' ≤ c && c ≤ 'F')

/-- The canonical 8-4-4-4-12 hyphenated rendering of 32 hex digits
(`str(uuid.UUID(...))`). -/
def uuidCanonical (h : List Char) : String :=
  ⟨h.take 8 ++ '-' :: ((h.drop 8).take 4 ++ '-' :: ((h.drop 12).take 4 ++
    '-' :: ((h.drop 16).take 4 ++ '-' :: h.drop 20)))⟩

/-- Modelled from `uuid.UUID(s)`: hyphens are stripped wherever they occur,
the remainder must be exactly 32 hex digits (else `ValueError`), and the
canonical lower-case hyphenated form is the resulting identifier's string
form.  (The `urn:`/brace stripping of the Python constructor is abstracted
away; no verified property depends on it.) -/
def uuidHex (s : String) : List Char := (s.data.filter fun c => !(c = '-')).map lowerChar

def uuidParse (s : String) : Option String :=
  if (uuidHex s).length = 32 && (uuidHex s).all isLowerHex then
    some (uuidCanonical (uuidHex s))
  else Option.none

/-- The project identity and clock.  `owner`/`baseName` model
`dead_hosts.launcher.defaults.paths.GIT_REPO_OWNER`/`GIT_BASE_NAME` (that
module is configuration read from the environment, outside this file);
`now` models `datetime.utcnow()` at `create_missing_index` time. -/
structure Ctx where
  owner : String
  baseName : String
  now : ℚ

/-- Seconds in the 15 days of `timedelta(days=15)`. -/
def fifteenDays : ℚ := 1296000

/-- Fields coerced via `bool(int(...))` (lines 316-325). -/
def bool_fields : List String := ["currently_under_test", "ping_enabled"]

/-- Fields coerced via `float(...)` (lines 327-343).  The third entry is one
string: the source list lacks a comma after `"last_download_timestamp"`, so
Python's implicit literal concatenation fuses it with
`"latest_part_finish_timestamp"`; neither of those two fields is in the
list. -/
def float_fields : List String :=
  ["days_until_next_test",
   "finish_timestamp",
   "last_download_timestamplatest_part_finish_timestamp",
   "latest_part_start_timestamp",
   "start_timestamp"]

/-- Fields converted to datetimes via `utcfromtimestamp` (lines 350-361). -/
def ts_fields : List String :=
  ["finish_timestamp",
   "last_download_timestamp",
   "latest_part_finish_timestamp",
   "latest_part_start_timestamp",
   "start_timestamp"]

/-- Fields parsed via `fromisoformat` (lines 363-379). -/
def dt_fields : List String :=
  ["finish_datetime",
   "last_download_datetime",
   "latest_part_finish_datetime",
   "latest_part_start_datetime",
   "start_datetime"]

/-- Fields parsed via `uuid.UUID` (lines 384-406). -/
def uuid_fields : List String := ["platform_container_id", "platform_remote_source_id"]

/-- Fields removed by `clean` (lines 159-168). -/
def legacy_fields : List String :=
  ["arguments", "clean_list_file", "clean_original", "commit_autosave_message",
   "last_test", "list_name", "stable", "platform_shortname"]

/-- One iteration of the `bool(int(...))` loop body (lines 316-325). -/
def coerce_bool (r : Record) (f : String) : Except PyErr Record :=
  match lookup r f with
  | some v =>
    if v.isBool then .ok r
    else
      match pyInt v with
      | .ok n => .ok (rset r f (.bool (n != 0)))
      | .error e => .error e
  | Option.none => .ok r

/-- One iteration of the `float(...)` loop body (lines 327-343). -/
def coerce_float (r : Record) (f : String) : Except PyErr Record :=
  match lookup r f with
  | some v =>
    if v.isFloat then .ok r
    else
      match pyFloat v with
      | .ok q => .ok (rset r f (.float q))
      | .error e => .error e
  | Option.none => .ok r

/-- One iteration of the `utcfromtimestamp` loop body (lines 350-361):
`datetime.utcfromtimestamp(v)` needs a number (else `TypeError`, uncaught);
on the platform the source's comments target, a pre-epoch value makes the
conversion fail with `OSError`, which the `except` substitutes with
`epoch_dt` (the epoch-zero instant). -/
def coerce_ts (r : Record) (f : String) : Except PyErr Record :=
  match lookup r f with
  | some v =>
    if v.isDatetime then .ok r
    else
      match toNum v with
      | some t => .ok (rset r f (.datetime (if t < 0 then 0 else t)))
      | Option.none => .error .typeError
  | Option.none => .ok r

/-- One iteration of the `fromisoformat` loop body (lines 363-379): a truthy
non-datetime is parsed (`fromisoformat` needs a string, else `TypeError`,
uncaught; a `ValueError` is substituted with `epoch_dt`); a falsy value or
one that is already a datetime is replaced by `epoch_dt` (the `else` branch
at line 378). -/
def coerce_dt (r : Record) (f : String) : Except PyErr Record :=
  match lookup r f with
  | some v =>
    if truthy v && !v.isDatetime then
      match v with
      | .str s =>
        match isoDecode s with
        | some t => .ok (rset r f (.datetime t))
        | Option.none => .ok (rset r f (.datetime 0))
      | _ => .error .typeError
    else .ok (rset r f (.datetime 0))
  | Option.none => .ok r

/-- One iteration of the `uuid.UUID` loop body (lines 384-406): a truthy
non-UUID is parsed (`ValueError` on malformed strings and `TypeError` on
non-strings are uncaught); a falsy value — or one that is already a UUID,
through the same `else` branch at line 399 — is replaced by `None`. -/
def coerce_uuid (r : Record) (f : String) : Except PyErr Record :=
  match lookup r f with
  | some v =>
    if truthy v && !v.isUuid then
      match v with
      | .str s =>
        match uuidParse s with
        | some c => .ok (rset r f (.uuid c))
        | Option.none => .error .valueError
      | _ => .error .typeError
    else .ok (rset r f .none)
  | Option.none => .ok r

/-- Run a per-field loop body over its field list (the `for index in [...]`
loops of `update`). -/
def foldStep (f : Record → String → Except PyErr Record) :
    List String → Record → Except PyErr Record
  | [], r => .ok r
  | k :: ks, r =>
    match f r k with
    | .ok r' => foldStep f ks r'
    | .error e => .error e

mutual
/-- The binding sequence produced by `DictHelper.flatten`: nested mappings
are folded into one level, nesting paths joined with `"."`; a value that is
not a non-empty dict is kept as is. -/
def flattenPairs : List (String × Value) → List (String × Value)
  | [] => []
  | kv :: rest => flattenEntry kv.1 kv.2 ++ flattenPairs rest
termination_by structural l => l

/-- One binding of `flattenPairs`: recurse into non-empty dict values. -/
def flattenEntry (k : String) : Value → List (String × Value)
  | .dict (p :: ps) => (flattenPairs (p :: ps)).map fun kv => (k ++ "." ++ kv.1, kv.2)
  | v => [(k, v)]
termination_by structural v => v
end

/-- One Python dict assignment `acc[k] = v`. -/
def dict_assign (acc : Record) (kv : String × Value) : Record := rset acc kv.1 kv.2

/-- Modelled from `PyFunceble.helpers.dict.DictHelper.flatten`: the flattened
bindings assembled into a Python dict by successive assignment (a colliding
dotted path overwrites, as dict assignment does). -/
def flatten (d : List (String × Value)) : List (String × Value) :=
  (flattenPairs d).foldl dict_assign []

/-- Python iteration (`for x in v`): lists yield their items, strings their
characters, dicts their keys; other values raise `TypeError`. -/
def pyIter : Value → Except PyErr (List Value)
  | .list l => .ok l
  | .str s => .ok (s.data.map fun c => .str ⟨[c]⟩)
  | .dict d => .ok (d.map fun kv => .str kv.1)
  | _ => .error .typeError

/-- Fallible map over a list, propagating the first error. -/
def mapE {α β : Type} (f : α → Except PyErr β) : List α → Except PyErr (List β)
  | [] => .ok []
  | x :: xs =>
    match f x with
    | .ok y =>
      (match mapE f xs with
       | .ok ys => .ok (y :: ys)
       | .error e => .error e)
    | .error e => .error e

/-- Body of the `ping` rewrite loop (lines 261-265): a non-string entry
raises `AttributeError` at `username.startswith`. -/
def ping_entry : Value → Except PyErr Value
  | .str s => .ok (.str (if pyStartswith s "@" then s else "@" ++ s))
  | _ => .error .attributeError

/-- The `ping` rewrite (lines 258-272). -/
def ping_step (r : Record) : Except PyErr Record :=
  match lookup r "ping" with
  | some v =>
    (match pyIter v with
     | .ok items =>
       (match mapE ping_entry items with
        | .ok out => .ok (rset r "ping" (.list out))
        | .error e => .error e)
     | .error e => .error e)
  | Option.none => .ok r

/-- The `raw_link` empty-string normalization (lines 274-284). -/
def raw_link_step (r : Record) : Record :=
  match lookup r "raw_link" with
  | some (.str s) => if s.data.isEmpty then rset r "raw_link" .none else r
  | _ => r

/-- The first `custom_pyfunceble_config` normalization (lines 286-301). -/
def cpc_step (r : Record) : Record :=
  match lookup r "custom_pyfunceble_config" with
  | some v =>
    if truthy v then
      match v with
      | .dict d => rset r "custom_pyfunceble_config" (.dict (flatten d))
      | _ => rset r "custom_pyfunceble_config" (.dict [])
    else rset r "custom_pyfunceble_config" (.dict [])
  | Option.none => r

/-- The second, redundant `custom_pyfunceble_config` check (lines 303-314). -/
def cpc_step2 (r : Record) : Record :=
  match lookup r "custom_pyfunceble_config" with
  | some v =>
    if truthy v && !v.isDict then rset r "custom_pyfunceble_config" (.dict []) else r
  | Option.none => r

/-- Lines 253-256: `os.path.join(WORKSPACE_DIR, content["list_name"])` raises
`TypeError` when the stored value is not a string; the file handling itself
is a filesystem effect outside the record. -/
def check_list_name (r : Record) : Except PyErr Unit :=
  match lookup r "list_name" with
  | some (.str _) => .ok ()
  | some _ => .error .typeError
  | Option.none => .ok ()

/-- The `platform_container_name` derivation of `update` (lines 413-422):
lower-case, spaces to `-`, brackets and parentheses removed, dots to `-`,
truncated to 128 characters. -/
def pcn_of_name (s : String) : String :=
  strTake (pyReplace (pyReplace (pyReplace (pyReplace (pyReplace (pyReplace
    (pyLower s) " " "-") "[" "") "]" "") "(" "") ")" "") "." "-") 128

/-- Lines 413-422 (reads `self.content["name"]`; `AttributeError` if absent
via `__getitem__`, and `.lower()` on a non-string would also fail). -/
def pcn_step (r : Record) : Except PyErr Record :=
  match lookup r "name" with
  | some (.str s) => .ok (rset r "platform_container_name" (.str (pcn_of_name s)))
  | some _ => .error .attributeError
  | Option.none => .error .attributeError

/-- `InfoManager.update` (lines 236-431), in source order: `name` overwrite,
legacy-file schedule (filesystem effects omitted; only the `list_name`
string access is kept), `ping`, `raw_link`, both `custom_pyfunceble_config`
passes, `bool`/`float` coercions, timestamp and datetime conversions, UUID
parsing, `repo` overwrite, `platform_container_name` derivation. -/
def update (ctx : Ctx) (r0 : Record) : Except PyErr Record :=
  match check_list_name (rset r0 "name" (.str ctx.baseName)) with
  | .error e => .error e
  | .ok _ =>
  match ping_step (rset r0 "name" (.str ctx.baseName)) with
  | .error e => .error e
  | .ok r1 =>
  match foldStep coerce_bool bool_fields (cpc_step2 (cpc_step (raw_link_step r1))) with
  | .error e => .error e
  | .ok r5 =>
  match foldStep coerce_float float_fields r5 with
  | .error e => .error e
  | .ok r6 =>
  match foldStep coerce_ts ts_fields r6 with
  | .error e => .error e
  | .ok r7 =>
  match foldStep coerce_dt dt_fields r7 with
  | .error e => .error e
  | .ok r8 =>
  match foldStep coerce_uuid uuid_fields r8 with
  | .error e => .error e
  | .ok r9 =>
  pcn_step (rset r9 "repo" (.str (ctx.owner ++ "/" ++ ctx.baseName)))

/-- The default `platform_container_name` of `create_missing_index`
(lines 204-211) — unlike `update`'s derivation it does not touch dots. -/
def default_container_name (s : String) : String :=
  strTake (pyReplace (pyReplace (pyReplace (pyReplace (pyReplace
    (pyLower s) " " "-") "[" "") "]" "") "(" "") ")" "") 128

/-- The `indexes` dict literal of `create_missing_index` (lines 189-224),
with `default_datetime = utcnow() - timedelta(days=15)`. -/
def defaults_table (ctx : Ctx) : List (String × Value) :=
  [("currently_under_test", .bool false),
   ("custom_pyfunceble_config", .dict []),
   ("days_until_next_test", .int 2),
   ("finish_datetime", .datetime (ctx.now - fifteenDays)),
   ("finish_timestamp", .float (ctx.now - fifteenDays)),
   ("last_download_datetime", .datetime (ctx.now - fifteenDays)),
   ("last_download_timestamp", .float (ctx.now - fifteenDays)),
   ("latest_part_finish_timestamp", .float (ctx.now - fifteenDays)),
   ("latest_part_start_timestamp", .float (ctx.now - fifteenDays)),
   ("latest_part_finish_datetime", .datetime (ctx.now - fifteenDays)),
   ("latest_part_start_datetime", .datetime (ctx.now - fifteenDays)),
   ("name", .str ctx.baseName),
   ("repo", .str (ctx.owner ++ "/" ++ ctx.baseName)),
   ("platform_container_name", .str (default_container_name ctx.baseName)),
   ("platform_description", .str "Imported from Dead-Hosts legacy infrastructure."),
   ("own_management", .bool false),
   ("ping", .list []),
   ("ping_enabled", .bool false),
   ("raw_link", .none),
   ("start_datetime", .datetime (ctx.now - fifteenDays)),
   ("start_timestamp", .float (ctx.now - fifteenDays)),
   ("live_update", .bool true),
   ("platform_container_id", .none),
   ("platform_remote_source_id", .none),
   ("platform_optout", .bool (ctx.owner != "dead-hosts"))]

/-- The insertion loop of `create_missing_index` (lines 226-234). -/
def add_missing (r : Record) : List (String × Value) → Record
  | [] => r
  | (k, v) :: rest => add_missing (if (lookup r k).isSome then r else r ++ [(k, v)]) rest

/-- `InfoManager.create_missing_index` (lines 180-234). -/
def create_missing_index (ctx : Ctx) (r : Record) : Record :=
  add_missing r (defaults_table ctx)

/-- `InfoManager.clean` (lines 154-178). -/
def clean (r : Record) : Record := legacy_fields.foldl erase r

/-- Serialization of one binding in `InfoManager.store` (lines 124-152):
datetimes under `*_timestamp` keys become epoch floats (`0.0` when
`.timestamp()` raises `OSError`, which on the modelled platform is exactly
the pre-epoch instants); datetimes under `*_datetime` keys become ISO text;
UUIDs become their string form; everything else is deep-copied. -/
def store_val (k : String) (v : Value) : Value :=
  if strEndsWith k "_timestamp" && v.isDatetime then
    match v with
    | .datetime d => .float (if d < 0 then 0 else d)
    | _ => v
  else if strEndsWith k "_datetime" && v.isDatetime then
    match v with
    | .datetime d => .str (isoEncode d)
    | _ => v
  else
    match v with
    | .uuid u => .str u
    | _ => v

/-- `InfoManager.store`: the record as written to `info.json` (the JSON file
write itself is a filesystem effect; a fresh construction reads this record
back). -/
def store (r : Record) : Record := r.map fun kv => (kv.1, store_val kv.1 kv.2)

/-- Python `" ".join(strs)`. -/
def joinSpace : List String → String
  | [] => ""
  | [s] => s
  | s :: rest => s ++ " " ++ joinSpace rest

/-- `join` raises `TypeError` on non-string items. -/
def as_str : Value → Except PyErr String
  | .str s => .ok s
  | _ => .error .typeError

/-- `InfoManager.get_ping_for_commit` (lines 433-441): the space-joined
`ping` entries when both keys exist, `ping_enabled is True` (identity with
the `True` singleton) and `ping` is truthy; otherwise the empty string. -/
def get_ping_for_commit (r : Record) : Except PyErr String :=
  match lookup r "ping_enabled", lookup r "ping" with
  | some pe, some pg =>
    (match pe with
     | .bool true =>
       if truthy pg then
         match pyIter pg with
         | .ok items =>
           (match mapE as_str items with
            | .ok strs => .ok (joinSpace strs)
            | .error e => .error e)
         | .error e => .error e
       else .ok ""
     | _ => .ok "")
  | _, _ => .ok ""

/-- The normalization pipeline run by `__init__` (lines 90-92):
`update`, then `create_missing_index`, then `clean` (with `store` separate). -/
def pipeline (ctx : Ctx) (r : Record) : Except PyErr Record :=
  match update ctx r with
  | .ok r' => .ok (clean (create_missing_index ctx r'))
  | .error e => .error e

/-- The pipeline applied twice in succession. -/
def pipeline2 (ctx : Ctx) (r : Record) : Except PyErr Record :=
  match pipeline ctx r with
  | .ok r' => pipeline ctx r'
  | .error e => .error e

/-- Python `==` lifted to pipeline results (errors compare by class). -/
def exceptRecEq : Except PyErr Record → Except PyErr Record → Bool
  | .ok a, .ok b => recPyEq a b
  | .error a, .error b => a == b
  | _, _ => false

/-- A per-field loop body touches only its own field. -/
def FrameOp (f : Record → String → Except PyErr Record) : Prop :=
  ∀ r r' a, f r a = .ok r' → ∀ b, b ≠ a → lookup r' b = lookup r b

/-- A concrete project identity for witnesses (`now` is 30 days past epoch,
so the 15-days-ago default instants are in range). -/
def testCtx : Ctx := ⟨"funilrys", "test-list", 2592000⟩

/-- What the second pipeline run does to the first run's output on a fresh
record: filled-in float `*_timestamp` defaults become the equivalent
instants, the instant `*_datetime` defaults are reset to the epoch-zero
instant (line 379's `else` branch), and the integer
`days_until_next_test` default becomes a float. -/
def second_run_shift (r : Record) : Record :=
  r.map fun kv =>
    (kv.1,
      if ts_fields.contains kv.1 then
        (match kv.2 with
         | .float q => Value.datetime q
         | v => v)
      else if dt_fields.contains kv.1 then Value.datetime 0
      else if kv.1 = "days_until_next_test" then
        (match kv.2 with
         | .int n => Value.float (n : ℚ)
         | v => v)
      else kv.2)

/-- The value shapes needed to compare records the way the round-trip claim
does: fields holding instants (any `*_timestamp`/`*_datetime` key) compare
as instants to sub-second precision, identifiers compare as strings, and
everything else compares by Python `==`. -/
def instOf : Value → Option ℚ
  | .datetime d => some d
  | .float q => some q
  | .int n => some (n : ℚ)
  | _ => Option.none

def ratAbs (q : ℚ) : ℚ := if q < 0 then -q else q

def log_eq_val (k : String) (v w : Value) : Bool :=
  if strEndsWith k "_timestamp" || strEndsWith k "_datetime" then
    match instOf v, instOf w with
    | some a, some b => decide (ratAbs (a - b) < 1)
    | _, _ => pyEq v w
  else
    match v, w with
    | .uuid a, .uuid b => decide (a = b)
    | _, _ => pyEq v w

def logEqAt (k : String) : Option Value → Option Value → Bool
  | some v, some w => log_eq_val k v w
  | Option.none, Option.none => true
  | _, _ => false

/-- No value of the dict is a non-empty dict (the shape `flatten` produces). -/
def FlatDict (d : List (String × Value)) : Prop :=
  ∀ kv ∈ d, ∀ (p : String × Value) (ps : List (String × Value)), kv.2 ≠ .dict (p :: ps)

/-- Every key `update`, `create_missing_index` or `clean` treats specially
(union of the named keys, the coercion field lists and the legacy list). -/
def managed_fields : List String :=
  ["name", "repo", "platform_container_name", "ping", "raw_link",
   "custom_pyfunceble_config",
   "currently_under_test", "ping_enabled",
   "days_until_next_test", "finish_timestamp",
   "last_download_timestamplatest_part_finish_timestamp",
   "latest_part_start_timestamp", "start_timestamp",
   "last_download_timestamp", "latest_part_finish_timestamp",
   "finish_datetime", "last_download_datetime", "latest_part_finish_datetime",
   "latest_part_start_datetime", "start_datetime",
   "platform_container_id", "platform_remote_source_id",
   "arguments", "clean_list_file", "clean_original", "commit_autosave_message",
   "last_test", "list_name", "stable", "platform_shortname"]

/-- The keys of the `indexes` defaults dict, in source order. -/
def defaults_keys : List String :=
  ["currently_under_test", "custom_pyfunceble_config", "days_until_next_test",
   "finish_datetime", "finish_timestamp", "last_download_datetime",
   "last_download_timestamp", "latest_part_finish_timestamp",
   "latest_part_start_timestamp", "latest_part_finish_datetime",
   "latest_part_start_datetime", "name", "repo", "platform_container_name",
   "platform_description", "own_management", "ping", "ping_enabled", "raw_link",
   "start_datetime", "start_timestamp", "live_update", "platform_container_id",
   "platform_remote_source_id", "platform_optout"]

/-- The per-key shape of a record the pipeline has produced: exactly what a
run of `update` + `create_missing_index` + `clean` on a JSON-loaded record
guarantees, and enough for `store` followed by a fresh run to reproduce the
record. -/
structure Normalized (ctx : Ctx) (R : Record) : Prop where
  hname : lookup R "name" = some (.str ctx.baseName)
  hrepo : lookup R "repo" = some (.str (ctx.owner ++ "/" ++ ctx.baseName))
  hpcn : lookup R "platform_container_name" = some (.str (pcn_of_name ctx.baseName))
  hping : ∃ l : List String, lookup R "ping" = some (.list (l.map Value.str)) ∧
    ∀ s ∈ l, pyStartswith s "@" = true
  hraw : ∃ v, lookup R "raw_link" = some v ∧ JsonVal v ∧
    ∀ s : String, v = .str s → s.data.isEmpty = false
  hcpc : ∃ d, lookup R "custom_pyfunceble_config" = some (.dict d) ∧
    JsonVal (.dict d) ∧ FlatDict d
  hbool : ∀ f ∈ bool_fields, ∃ b, lookup R f = some (.bool b)
  hdays : ∃ v, lookup R "days_until_next_test" = some v ∧
    ((∃ n : ℤ, v = .int n) ∨ ∃ q : ℚ, v = .float q)
  hfused : ∀ v, lookup R "last_download_timestamplatest_part_finish_timestamp" = some v →
    ∃ q : ℚ, v = .float q
  hts : ∀ f ∈ ts_fields, ∃ t : ℚ, 0 ≤ t ∧
    (lookup R f = some (.datetime t) ∨ lookup R f = some (.float t))
  hdt : ∀ f ∈ dt_fields, ∃ t : ℚ, lookup R f = some (.datetime t)
  huuid : ∀ f ∈ uuid_fields, lookup R f = some .none ∨
    ∃ c, lookup R f = some (.uuid c) ∧ uuidParse c = some c
  hlegacy : ∀ f ∈ legacy_fields, lookup R f = Option.none
  hkeys : ∀ k ∈ defaults_keys, (lookup R k).isSome = true
  hothers : ∀ k, k ∉ managed_fields → ∀ v, lookup R k = some v → JsonVal v

theorem lookup_rset (r : Record) (k : String) (v : Value) (k' : String) :
    lookup (rset r k v) k' = if k' = k then some v else lookup r k' := by
  induction r with
  | nil =>
    by_cases h : k' = k <;> simp [rset, lookup, h]
  | cons hd t ih =>
    obtain ⟨k₀, v₀⟩ := hd
    by_cases h0 : k = k₀
    · subst h0
      by_cases h : k' = k <;> simp [rset, lookup, h]
    · by_cases h : k' = k₀
      · subst h
        have : ¬ k' = k := fun he => h0 (he ▸ rfl)
        simp [rset, lookup, h0, this]
      · simp [rset, lookup, h0, h, ih]

theorem lookup_erase (r : Record) (k : String) (k' : String) :
    lookup (erase r k) k' = if k' = k then Option.none else lookup r k' := by
  induction r with
  | nil => by_cases h : k' = k <;> simp [erase, lookup, h]
  | cons hd t ih =>
    obtain ⟨k₀, v₀⟩ := hd
    by_cases h0 : k = k₀
    · subst h0
      rw [show erase ((k, v₀) :: t) k = erase t k by simp [erase], ih]
      by_cases h : k' = k <;> simp [lookup, h]
    · by_cases h : k' = k₀
      · subst h
        have : ¬ k' = k := fun he => h0 (he ▸ rfl)
        simp [erase, lookup, h0, this, ih]
      · simp [erase, lookup, h0, h, ih]

theorem lookup_append (r s : Record) (k : String) :
    lookup (r ++ s) k =
      match lookup r k with
      | some v => some v
      | Option.none => lookup s k := by
  induction r with
  | nil => simp [lookup]
  | cons hd t ih =>
    obtain ⟨k₀, v₀⟩ := hd
    by_cases h : k = k₀ <;> simp [lookup, h, ih]

theorem lookup_map_val (r : Record) (f : String → Value → Value) (k : String) :
    lookup (r.map fun kv => (kv.1, f kv.1 kv.2)) k = (lookup r k).map (f k) := by
  induction r with
  | nil => simp [lookup]
  | cons hd t ih =>
    obtain ⟨k₀, v₀⟩ := hd
    by_cases h : k = k₀ <;> simp [lookup, h, ih]

theorem lookup_isSome_of_mem {d : Record} {kv : String × Value} (h : kv ∈ d) :
    (lookup d kv.1).isSome := by
  induction d with
  | nil => simp at h
  | cons hd t ih =>
    obtain ⟨k₀, v₀⟩ := hd
    by_cases hk : kv.1 = k₀
    · simp [lookup, hk]
    · rcases List.mem_cons.mp h with h1 | h1
      · rw [h1] at hk; simp at hk
      · simp [lookup, hk, ih h1]

theorem lookup_eq_of_mem_nodup {d : Record} {kv : String × Value}
    (hnd : (d.map Prod.fst).Nodup) (h : kv ∈ d) : lookup d kv.1 = some kv.2 := by
  induction d with
  | nil => simp at h
  | cons hd t ih =>
    obtain ⟨k₀, v₀⟩ := hd
    simp only [List.map_cons, List.nodup_cons] at hnd
    rcases List.mem_cons.mp h with h1 | h1
    · rw [h1]; simp [lookup]
    · have hk : kv.1 ≠ k₀ := by
        intro he
        exact hnd.1 (he ▸ List.mem_map.mpr ⟨kv, h1, rfl⟩)
      simp [lookup, hk, ih hnd.2 h1]

theorem pyEqList_of {a : List Value} (h : ∀ v ∈ a, pyEq v v = true) :
    pyEqList a a = true := by
  induction a with
  | nil => rfl
  | cons v t ih =>
    simp only [pyEqList, Bool.and_eq_true]
    exact ⟨h v (by simp), ih fun w hw => h w (by simp [hw])⟩

theorem pyEqDict_of {a b : List (String × Value)}
    (h : ∀ kv ∈ a, ∃ w, lookup b kv.1 = some w ∧ pyEq kv.2 w = true) :
    pyEqDict a b = true := by
  induction a with
  | nil => rfl
  | cons kv t ih =>
    simp only [pyEqDict, Bool.and_eq_true]
    obtain ⟨w, hw, he⟩ := h kv (by simp)
    exact ⟨by rw [hw]; exact he, ih fun kv' hkv' => h kv' (by simp [hkv'])⟩

theorem pyEq_refl {v : Value} (hj : JsonVal v) : pyEq v v = true := by
  induction hj with
  | none => rfl
  | bool b => simp [pyEq, toNum]
  | int n => simp [pyEq, toNum]
  | float q => simp [pyEq, toNum]
  | str s => simp [pyEq]
  | list l hmem ih => exact pyEqList_of ih
  | dict d hmem hnd ih =>
    simp only [pyEq, Bool.and_eq_true]
    refine ⟨pyEqDict_of fun kv hkv => ⟨kv.2, lookup_eq_of_mem_nodup hnd hkv, ih kv hkv⟩, ?_⟩
    rw [List.all_eq_true]
    intro kv hkv
    exact lookup_isSome_of_mem hkv

theorem digitsVal_natDigitsAux :
    ∀ (fuel n : ℕ), n ≤ fuel → digitsVal (natDigitsAux fuel n) = n := by
  intro fuel
  induction fuel with
  | zero =>
    intro n hn
    interval_cases n
    rfl
  | succ f ih =>
    intro n hn
    match n with
    | 0 => rfl
    | m + 1 =>
      have h2 : (m + 1) / 2 ≤ f := by omega
      rw [natDigitsAux, digitsVal, ih _ h2]
      rcases Nat.mod_two_eq_zero_or_one (m + 1) with h | h <;>
        simp [h] <;> omega

theorem digitsVal_natDigits (n : ℕ) : digitsVal (natDigits n) = n :=
  digitsVal_natDigitsAux n n le_rfl

theorem natDigitsAux_ne_slash :
    ∀ (fuel n : ℕ), ∀ c ∈ natDigitsAux fuel n, c ≠ '/' := by
  intro fuel
  induction fuel with
  | zero => intro n c hc; simp [natDigitsAux] at hc
  | succ f ih =>
    intro n c hc
    match n with
    | 0 => simp [natDigitsAux] at hc
    | m + 1 =>
      rw [natDigitsAux] at hc
      rcases List.mem_cons.mp hc with h | h
      · subst h
        split <;> decide
      · exact ih _ c h

theorem splitSlash_append (xs ys : List Char) (h : ∀ c ∈ xs, c ≠ '/') :
    splitSlash (xs ++ '/' :: ys) = some (xs, ys) := by
  induction xs with
  | nil => simp [splitSlash]
  | cons c t ih =>
    have hc : ¬ c = '/' := h c (by simp)
    simp only [List.cons_append, splitSlash, if_neg hc]
    rw [List.append_eq, ih fun c' hc' => h c' (by simp [hc'])]

theorem isoDecode_isoEncode (t : ℚ) : isoDecode (isoEncode t) = some t := by
  have hsplit := splitSlash_append (natDigits t.num.natAbs) (natDigits t.den)
    (natDigitsAux_ne_slash _ _)
  have hstep : isoDecode (isoEncode t) =
      isoDecodeL ('T' :: (if t.num < 0 then 'n' else 'p') ::
        (natDigits t.num.natAbs ++ '/' :: natDigits t.den)) := rfl
  rw [hstep]
  by_cases hneg : t.num < 0
  · rw [if_pos hneg]
    simp only [isoDecodeL, hsplit, digitsVal_natDigits]
    rw [if_neg t.den_nz]
    simp only [if_true]
    rw [show -((t.num.natAbs : ℤ)) = t.num by omega, Rat.num_div_den]
  · rw [if_neg hneg]
    simp only [isoDecodeL, hsplit, digitsVal_natDigits]
    rw [if_neg t.den_nz]
    have hpn : ('p' : Char) ≠ 'n' := by decide
    simp only [hpn, if_false]
    rw [show ((t.num.natAbs : ℤ)) = t.num by omega, Rat.num_div_den]

theorem isLowerHex_ne_dash {c : Char} (h : isLowerHex c = true) : ¬ (c = '-') := by
  intro he
  subst he
  exact absurd h (by decide)

theorem lowerChar_fixed {c : Char} (h : isLowerHex c = true) : lowerChar c = c := by
  unfold isLowerHex at h
  simp only [Bool.or_eq_true, Bool.and_eq_true, decide_eq_true_eq] at h
  refine if_neg ?_
  rintro ⟨hc1, hc2⟩
  rcases h with ⟨ha, hb⟩ | ⟨ha, hb⟩
  · exact absurd (le_trans hc1 hb) (by decide)
  · exact absurd (le_trans ha hc2) (by decide)

theorem filter_eq_self_of_all {p : Char → Bool} {l : List Char}
    (h : ∀ c ∈ l, p c = true) : l.filter p = l := by
  induction l with
  | nil => rfl
  | cons c t ih =>
    have h1 := h c (by simp)
    have h2 := ih fun c' hc' => h c' (by simp [hc'])
    simp [List.filter_cons, h1, h2]

theorem map_eq_self_of_all {f : Char → Char} {l : List Char}
    (h : ∀ c ∈ l, f c = c) : l.map f = l := by
  induction l with
  | nil => rfl
  | cons c t ih =>
    simp only [List.map_cons, h c (by simp), ih fun c' hc' => h c' (by simp [hc'])]

theorem uuidCanonical_data_filter {h : List Char}
    (hall : ∀ c ∈ h, isLowerHex c = true) :
    ((uuidCanonical h).data.filter fun c => !(c = '-')) = h := by
  have hseg : ∀ (l : List Char), (∀ c ∈ l, isLowerHex c = true) →
      (l.filter fun c => !(c = '-')) = l := by
    intro l hl
    exact filter_eq_self_of_all fun c hc => by
      simpa using isLowerHex_ne_dash (hl c hc)
  have hsub : ∀ (n m : ℕ), ∀ c ∈ (h.drop n).take m, isLowerHex c = true :=
    fun n m c hc => hall c (List.mem_of_mem_drop (List.mem_of_mem_take hc))
  have htk : ∀ c ∈ h.take 8, isLowerHex c = true :=
    fun c hc => hall c (List.mem_of_mem_take hc)
  have hdr : ∀ c ∈ h.drop 20, isLowerHex c = true :=
    fun c hc => hall c (List.mem_of_mem_drop hc)
  have hdash : ∀ (l : List Char),
      (('-' :: l).filter fun c => !(c = '-')) = l.filter fun c => !(c = '-') := by
    intro l
    simp [List.filter_cons]
  show ((h.take 8 ++ '-' :: ((h.drop 8).take 4 ++ '-' :: ((h.drop 12).take 4 ++
    '-' :: ((h.drop 16).take 4 ++ '-' :: h.drop 20)))).filter fun c => !(c = '-')) = h
  rw [List.filter_append, hdash, List.filter_append, hdash, List.filter_append, hdash,
    List.filter_append, hdash]
  rw [hseg _ htk, hseg _ (hsub 8 4), hseg _ (hsub 12 4), hseg _ (hsub 16 4), hseg _ hdr]
  rw [show h.drop 20 = (h.drop 16).drop 4 by rw [List.drop_drop]]
  rw [List.take_append_drop 4 (h.drop 16)]
  rw [show h.drop 16 = (h.drop 12).drop 4 by rw [List.drop_drop]]
  rw [List.take_append_drop 4 (h.drop 12)]
  rw [show h.drop 12 = (h.drop 8).drop 4 by rw [List.drop_drop]]
  rw [List.take_append_drop 4 (h.drop 8)]
  rw [List.take_append_drop 8 h]

theorem uuidHex_canonical {h : List Char} (hall : ∀ x ∈ h, isLowerHex x = true) :
    uuidHex (uuidCanonical h) = h := by
  unfold uuidHex
  rw [uuidCanonical_data_filter hall]
  exact map_eq_self_of_all fun x hxm => lowerChar_fixed (hall x hxm)

/-- Parsing the canonical string form of a parsed identifier gives it back
(`uuid.UUID(str(u)) == u`, as strings). -/
theorem uuidParse_canonical {s c : String} (h : uuidParse s = some c) :
    uuidParse c = some c := by
  unfold uuidParse at h
  by_cases hcond : ((uuidHex s).length = 32 && (uuidHex s).all isLowerHex) = true
  · rw [if_pos hcond] at h
    have hcond' := hcond
    simp only [Bool.and_eq_true] at hcond'
    obtain ⟨hlen, hall0⟩ := hcond'
    have hall : ∀ x ∈ uuidHex s, isLowerHex x = true :=
      fun x hxm => List.all_eq_true.mp hall0 x hxm
    have hc : c = uuidCanonical (uuidHex s) := (Option.some.inj h).symm
    unfold uuidParse
    rw [hc, uuidHex_canonical hall, if_pos hcond]
  · rw [if_neg hcond] at h
    exact absurd h (by simp)

theorem frame_coerce_bool : FrameOp coerce_bool := by
  intro r r' a h b hb
  unfold coerce_bool at h
  split at h
  · split at h
    · exact congrArg (fun x => lookup x b) (Except.ok.inj h).symm
    · split at h
      · rw [← Except.ok.inj h, lookup_rset, if_neg hb]
      · exact absurd h (by simp)
  · rw [← Except.ok.inj h]

theorem frame_coerce_float : FrameOp coerce_float := by
  intro r r' a h b hb
  unfold coerce_float at h
  split at h
  · split at h
    · exact congrArg (fun x => lookup x b) (Except.ok.inj h).symm
    · split at h
      · rw [← Except.ok.inj h, lookup_rset, if_neg hb]
      · exact absurd h (by simp)
  · rw [← Except.ok.inj h]

theorem frame_coerce_ts : FrameOp coerce_ts := by
  intro r r' a h b hb
  unfold coerce_ts at h
  split at h
  · split at h
    · exact congrArg (fun x => lookup x b) (Except.ok.inj h).symm
    · split at h
      · rw [← Except.ok.inj h, lookup_rset, if_neg hb]
      · exact absurd h (by simp)
  · rw [← Except.ok.inj h]

theorem frame_coerce_dt : FrameOp coerce_dt := by
  intro r r' a h b hb
  unfold coerce_dt at h
  split at h
  · split at h
    · split at h
      · split at h
        · rw [← Except.ok.inj h, lookup_rset, if_neg hb]
        · rw [← Except.ok.inj h, lookup_rset, if_neg hb]
      · exact absurd h (by simp)
    · rw [← Except.ok.inj h, lookup_rset, if_neg hb]
  · rw [← Except.ok.inj h]

theorem frame_coerce_uuid : FrameOp coerce_uuid := by
  intro r r' a h b hb
  unfold coerce_uuid at h
  split at h
  · split at h
    · split at h
      · split at h
        · rw [← Except.ok.inj h, lookup_rset, if_neg hb]
        · exact absurd h (by simp)
      · exact absurd h (by simp)
    · rw [← Except.ok.inj h, lookup_rset, if_neg hb]
  · rw [← Except.ok.inj h]

theorem foldStep_frame {f : Record → String → Except PyErr Record} (hf : FrameOp f) :
    ∀ (ks : List String) (r r' : Record), foldStep f ks r = .ok r' →
      ∀ b, b ∉ ks → lookup r' b = lookup r b := by
  intro ks
  induction ks with
  | nil =>
    intro r r' h b _
    exact congrArg (fun x => lookup x b) (Except.ok.inj h).symm
  | cons k t ih =>
    intro r r' h b hb
    unfold foldStep at h
    split at h
    next r1 hfk =>
      rw [ih r1 r' h b fun hm => hb (List.mem_cons.mpr (Or.inr hm))]
      exact hf r r1 k hfk b fun he => hb (List.mem_cons.mpr (Or.inl he))
    next e hfk => exact absurd h (by simp)

theorem foldStep_mem {f : Record → String → Except PyErr Record} (hf : FrameOp f) :
    ∀ (ks : List String), ks.Nodup → ∀ k ∈ ks, ∀ (r r' : Record),
      foldStep f ks r = .ok r' →
      ∃ s s', lookup s k = lookup r k ∧ f s k = .ok s' ∧ lookup r' k = lookup s' k := by
  intro ks
  induction ks with
  | nil => intro _ k hk; simp at hk
  | cons k0 t ih =>
    intro hnd k hk r r' h
    unfold foldStep at h
    split at h
    next r1 hfk =>
      simp only [List.nodup_cons] at hnd
      rcases List.mem_cons.mp hk with he | hm
      · subst he
        refine ⟨r, r1, rfl, hfk, ?_⟩
        exact foldStep_frame hf t r1 r' h k hnd.1
      · obtain ⟨s, s', h1, h2, h3⟩ := ih hnd.2 k hm r1 r' h
        refine ⟨s, s', ?_, h2, h3⟩
        rw [h1]
        exact hf r r1 k0 hfk k fun he => (ne_of_mem_of_not_mem hm hnd.1) he
    next e hfk => exact absurd h (by simp)

theorem foldStep_succ {f : Record → String → Except PyErr Record} (hf : FrameOp f)
    (P : String → Option Value → Prop)
    (hop : ∀ (s : Record) (k : String), P k (lookup s k) → ∃ s', f s k = .ok s') :
    ∀ (ks : List String), ks.Nodup → ∀ (r : Record), (∀ k ∈ ks, P k (lookup r k)) →
      ∃ r', foldStep f ks r = .ok r' := by
  intro ks
  induction ks with
  | nil => intro _ r _; exact ⟨r, rfl⟩
  | cons k0 t ih =>
    intro hnd r hP
    simp only [List.nodup_cons] at hnd
    obtain ⟨r1, h1⟩ := hop r k0 (hP k0 (by simp))
    obtain ⟨r', h'⟩ := ih hnd.2 r1 fun k hk => by
      rw [hf r r1 k0 h1 k fun he => (ne_of_mem_of_not_mem hk hnd.1) he]
      exact hP k (by simp [hk])
    refine ⟨r', ?_⟩
    unfold foldStep
    rw [h1]
    exact h'

theorem coerce_bool_char {r r' : Record} {f : String}
    (h : coerce_bool r f = .ok r') :
    (lookup r f = Option.none ∧ lookup r' f = Option.none) ∨
    (∃ v, lookup r f = some v ∧ v.isBool = true ∧ lookup r' f = some v) ∨
    (∃ v n, lookup r f = some v ∧ v.isBool = false ∧ pyInt v = .ok n ∧
      lookup r' f = some (.bool (n != 0))) := by
  unfold coerce_bool at h
  split at h
  next v hl =>
    split at h
    next hb =>
      rw [← Except.ok.inj h]
      exact Or.inr (Or.inl ⟨v, hl, hb, hl⟩)
    next hb =>
      split at h
      next n hn =>
        rw [← Except.ok.inj h]
        exact Or.inr (Or.inr ⟨v, n, hl, by simp at hb; exact hb, hn,
          by rw [lookup_rset, if_pos rfl]⟩)
      next e hn => exact absurd h (by simp)
  next hl =>
    rw [← Except.ok.inj h]
    exact Or.inl ⟨hl, hl⟩

theorem coerce_bool_succ {r : Record} {f : String}
    (h : ∀ v, lookup r f = some v → v.isBool = true) :
    ∃ r', coerce_bool r f = .ok r' := by
  unfold coerce_bool
  split
  next v hl =>
    rw [h v hl]
    exact ⟨r, by simp⟩
  next => exact ⟨r, rfl⟩

theorem coerce_float_char {r r' : Record} {f : String}
    (h : coerce_float r f = .ok r') :
    (lookup r f = Option.none ∧ lookup r' f = Option.none) ∨
    (∃ v, lookup r f = some v ∧ v.isFloat = true ∧ lookup r' f = some v) ∨
    (∃ v q, lookup r f = some v ∧ v.isFloat = false ∧ pyFloat v = .ok q ∧
      lookup r' f = some (.float q)) := by
  unfold coerce_float at h
  split at h
  next v hl =>
    split at h
    next hb =>
      rw [← Except.ok.inj h]
      exact Or.inr (Or.inl ⟨v, hl, hb, hl⟩)
    next hb =>
      split at h
      next q hn =>
        rw [← Except.ok.inj h]
        exact Or.inr (Or.inr ⟨v, q, hl, by simp at hb; exact hb, hn,
          by rw [lookup_rset, if_pos rfl]⟩)
      next e hn => exact absurd h (by simp)
  next hl =>
    rw [← Except.ok.inj h]
    exact Or.inl ⟨hl, hl⟩

theorem coerce_float_succ {r : Record} {f : String}
    (h : ∀ v, lookup r f = some v → v.isFloat = true ∨ (pyFloat v).isOk = true) :
    ∃ r', coerce_float r f = .ok r' := by
  unfold coerce_float
  split
  next v hl =>
    split
    next => exact ⟨r, rfl⟩
    next hnf =>
      split
      next q hq => exact ⟨_, rfl⟩
      next e he =>
        rcases h v hl with hf | hok
        · exact absurd hf hnf
        · rw [he] at hok
          simp [Except.isOk, Except.toBool] at hok
  next => exact ⟨r, rfl⟩

theorem coerce_ts_char {r r' : Record} {f : String}
    (h : coerce_ts r f = .ok r') :
    (lookup r f = Option.none ∧ lookup r' f = Option.none) ∨
    (∃ v, lookup r f = some v ∧ v.isDatetime = true ∧ lookup r' f = some v) ∨
    (∃ v t, lookup r f = some v ∧ v.isDatetime = false ∧ toNum v = some t ∧
      lookup r' f = some (.datetime (if t < 0 then 0 else t))) := by
  unfold coerce_ts at h
  split at h
  next v hl =>
    split at h
    next hb =>
      rw [← Except.ok.inj h]
      exact Or.inr (Or.inl ⟨v, hl, hb, hl⟩)
    next hb =>
      split at h
      next t hn =>
        rw [← Except.ok.inj h]
        exact Or.inr (Or.inr ⟨v, t, hl, by simp at hb; exact hb, hn,
          by rw [lookup_rset, if_pos rfl]⟩)
      next hn => exact absurd h (by simp)
  next hl =>
    rw [← Except.ok.inj h]
    exact Or.inl ⟨hl, hl⟩

theorem coerce_ts_succ {r : Record} {f : String}
    (h : ∀ v, lookup r f = some v → v.isDatetime = true ∨ (toNum v).isSome = true) :
    ∃ r', coerce_ts r f = .ok r' := by
  unfold coerce_ts
  split
  next v hl =>
    split
    next => exact ⟨r, rfl⟩
    next hnf =>
      split
      next t ht => exact ⟨_, rfl⟩
      next ht =>
        rcases h v hl with hf | hok
        · exact absurd hf hnf
        · rw [ht] at hok
          simp at hok
  next => exact ⟨r, rfl⟩

theorem coerce_dt_char {r r' : Record} {f : String}
    (h : coerce_dt r f = .ok r') :
    (lookup r f = Option.none ∧ lookup r' f = Option.none) ∨
    (∃ v, lookup r f = some v ∧ (truthy v && !v.isDatetime) = false ∧
      lookup r' f = some (.datetime 0)) ∨
    (∃ s t, lookup r f = some (.str s) ∧ truthy (.str s) = true ∧ isoDecode s = some t ∧
      lookup r' f = some (.datetime t)) ∨
    (∃ s, lookup r f = some (.str s) ∧ truthy (.str s) = true ∧ isoDecode s = Option.none ∧
      lookup r' f = some (.datetime 0)) := by
  unfold coerce_dt at h
  split at h
  next v hl =>
    split at h
    next hb =>
      split at h
      next s =>
        have hts : truthy (Value.str s) = true := by
          simp only [Bool.and_eq_true] at hb
          exact hb.1
        split at h
        next t hdec =>
          rw [← Except.ok.inj h]
          exact Or.inr (Or.inr (Or.inl ⟨s, t, hl, hts, hdec,
            by rw [lookup_rset, if_pos rfl]⟩))
        next hdec =>
          rw [← Except.ok.inj h]
          exact Or.inr (Or.inr (Or.inr ⟨s, hl, hts, hdec,
            by rw [lookup_rset, if_pos rfl]⟩))
      next => exact absurd h (by simp)
    next hb =>
      rw [← Except.ok.inj h]
      exact Or.inr (Or.inl ⟨v, hl, by simpa using hb, by rw [lookup_rset, if_pos rfl]⟩)
  next hl =>
    rw [← Except.ok.inj h]
    exact Or.inl ⟨hl, hl⟩

theorem coerce_dt_succ {r : Record} {f : String}
    (h : ∀ v, lookup r f = some v → (truthy v && !v.isDatetime) = false ∨
      ∃ s, v = .str s) :
    ∃ r', coerce_dt r f = .ok r' := by
  unfold coerce_dt
  split
  next v hl =>
    split
    next htr =>
      split
      next s =>
        split
        next => exact ⟨_, rfl⟩
        next => exact ⟨_, rfl⟩
      next hnostr =>
        rcases h v hl with hf | ⟨s, hs⟩
        · rw [hf] at htr
          exact absurd htr (by simp)
        · exact absurd hs (hnostr s)
    next => exact ⟨_, rfl⟩
  next => exact ⟨r, rfl⟩

theorem coerce_uuid_char {r r' : Record} {f : String}
    (h : coerce_uuid r f = .ok r') :
    (lookup r f = Option.none ∧ lookup r' f = Option.none) ∨
    (∃ v, lookup r f = some v ∧ (truthy v && !v.isUuid) = false ∧
      lookup r' f = some .none) ∨
    (∃ s c, lookup r f = some (.str s) ∧ truthy (.str s) = true ∧ uuidParse s = some c ∧
      lookup r' f = some (.uuid c)) := by
  unfold coerce_uuid at h
  split at h
  next v hl =>
    split at h
    next hb =>
      split at h
      next s =>
        have hts : truthy (Value.str s) = true := by
          simp only [Bool.and_eq_true] at hb
          exact hb.1
        split at h
        next c hdec =>
          rw [← Except.ok.inj h]
          exact Or.inr (Or.inr ⟨s, c, hl, hts, hdec, by rw [lookup_rset, if_pos rfl]⟩)
        next hdec => exact absurd h (by simp)
      next => exact absurd h (by simp)
    next hb =>
      rw [← Except.ok.inj h]
      exact Or.inr (Or.inl ⟨v, hl, by simpa using hb, by rw [lookup_rset, if_pos rfl]⟩)
  next hl =>
    rw [← Except.ok.inj h]
    exact Or.inl ⟨hl, hl⟩

theorem coerce_uuid_succ {r : Record} {f : String}
    (h : ∀ v, lookup r f = some v → (truthy v && !v.isUuid) = false ∨
      ∃ s, v = .str s ∧ (uuidParse s).isSome = true) :
    ∃ r', coerce_uuid r f = .ok r' := by
  unfold coerce_uuid
  split
  next v hl =>
    split
    next htr =>
      split
      next s =>
        split
        next c hc => exact ⟨_, rfl⟩
        next hc =>
          rcases h (.str s) hl with hf | ⟨s', hs', hp⟩
          · rw [hf] at htr
            exact absurd htr (by simp)
          · rw [(Value.str.inj hs').symm, hc] at hp
            simp at hp
      next hnostr =>
        rcases h v hl with hf | ⟨s, hs, hp⟩
        · rw [hf] at htr
          exact absurd htr (by simp)
        · exact absurd hs (hnostr s)
    next => exact ⟨_, rfl⟩
  next => exact ⟨r, rfl⟩

theorem ping_step_frame {r r' : Record} (h : ping_step r = .ok r') :
    ∀ b, b ≠ "ping" → lookup r' b = lookup r b := by
  intro b hb
  unfold ping_step at h
  split at h
  · split at h
    · split at h
      · rw [← Except.ok.inj h, lookup_rset, if_neg hb]
      · exact absurd h (by simp)
    · exact absurd h (by simp)
  · rw [← Except.ok.inj h]

theorem ping_step_char {r r' : Record} (h : ping_step r = .ok r') :
    (lookup r "ping" = Option.none ∧ lookup r' "ping" = Option.none) ∨
    (∃ v items out, lookup r "ping" = some v ∧ pyIter v = .ok items ∧
      mapE ping_entry items = .ok out ∧ lookup r' "ping" = some (.list out)) := by
  unfold ping_step at h
  split at h
  next v hl =>
    split at h
    next items hit =>
      split at h
      next out hout =>
        rw [← Except.ok.inj h]
        exact Or.inr ⟨v, items, out, hl, hit, hout, by rw [lookup_rset, if_pos rfl]⟩
      next => exact absurd h (by simp)
    next => exact absurd h (by simp)
  next hl =>
    rw [← Except.ok.inj h]
    exact Or.inl ⟨hl, hl⟩

theorem ping_step_succ {r : Record}
    (h : ∀ v, lookup r "ping" = some v →
      ∃ items out, pyIter v = .ok items ∧ mapE ping_entry items = .ok out) :
    ∃ r', ping_step r = .ok r' := by
  unfold ping_step
  split
  next v hl =>
    obtain ⟨items, out, hit, hout⟩ := h v hl
    rw [hit]
    show ∃ r', (match mapE ping_entry items with
      | .ok out => Except.ok (rset r "ping" (Value.list out))
      | .error e => Except.error e) = .ok r'
    rw [hout]
    exact ⟨_, rfl⟩
  next => exact ⟨r, rfl⟩

theorem raw_link_step_frame (r : Record) (b : String) (hb : b ≠ "raw_link") :
    lookup (raw_link_step r) b = lookup r b := by
  unfold raw_link_step
  split
  next s hl =>
    split
    · rw [lookup_rset, if_neg hb]
    · rfl
  next => rfl

theorem raw_link_step_empty {r : Record} {s : String}
    (hl : lookup r "raw_link" = some (.str s)) (he : s.data.isEmpty = true) :
    lookup (raw_link_step r) "raw_link" = some Value.none := by
  unfold raw_link_step
  rw [hl]
  show lookup (if s.data.isEmpty = true then rset r "raw_link" Value.none else r)
    "raw_link" = some Value.none
  rw [if_pos he, lookup_rset, if_pos rfl]

theorem raw_link_step_keep {r : Record}
    (h : ∀ s, lookup r "raw_link" = some (.str s) → s.data.isEmpty = false) :
    lookup (raw_link_step r) "raw_link" = lookup r "raw_link" := by
  unfold raw_link_step
  split
  next s hl =>
    rw [h s hl]
    show lookup r "raw_link" = lookup r "raw_link"
    rfl
  next => rfl

theorem cpc_step_frame (r : Record) (b : String) (hb : b ≠ "custom_pyfunceble_config") :
    lookup (cpc_step r) b = lookup r b := by
  unfold cpc_step
  split
  next v hl =>
    split
    · split
      · rw [lookup_rset, if_neg hb]
      · rw [lookup_rset, if_neg hb]
    · rw [lookup_rset, if_neg hb]
  next => rfl

theorem cpc_step_char (r : Record) :
    (lookup r "custom_pyfunceble_config" = Option.none ∧
      lookup (cpc_step r) "custom_pyfunceble_config" = Option.none) ∨
    (∃ d, lookup r "custom_pyfunceble_config" = some (.dict d) ∧ truthy (.dict d) = true ∧
      lookup (cpc_step r) "custom_pyfunceble_config" = some (.dict (flatten d))) ∨
    (∃ v, lookup r "custom_pyfunceble_config" = some v ∧
      (truthy v = false ∨ v.isDict = false) ∧
      lookup (cpc_step r) "custom_pyfunceble_config" = some (.dict [])) := by
  unfold cpc_step
  split
  next v hl =>
    split
    next htr =>
      split
      next d =>
        exact Or.inr (Or.inl ⟨d, hl, htr, by rw [lookup_rset, if_pos rfl]⟩)
      next hnd =>
        refine Or.inr (Or.inr ⟨v, hl, Or.inr ?_, by rw [lookup_rset, if_pos rfl]⟩)
        match v, hnd with
        | .none, _ | .bool _, _ | .int _, _ | .float _, _ | .str _, _
        | .list _, _ | .datetime _, _ | .uuid _, _ => rfl
        | .dict d, hnd => exact absurd rfl (hnd d)
    next htr =>
      exact Or.inr (Or.inr ⟨v, hl, Or.inl (by simpa using htr),
        by rw [lookup_rset, if_pos rfl]⟩)
  next hl => exact Or.inl ⟨hl, hl⟩

theorem cpc_step2_frame (r : Record) (b : String) (hb : b ≠ "custom_pyfunceble_config") :
    lookup (cpc_step2 r) b = lookup r b := by
  unfold cpc_step2
  split
  next v hl =>
    split
    · rw [lookup_rset, if_neg hb]
    · rfl
  next => rfl

theorem cpc_step2_keep {r : Record}
    (h : ∀ v, lookup r "custom_pyfunceble_config" = some v →
      (truthy v && !v.isDict) = false) :
    lookup (cpc_step2 r) "custom_pyfunceble_config" =
      lookup r "custom_pyfunceble_config" := by
  unfold cpc_step2
  split
  next v hl =>
    rw [h v hl]
    show lookup r "custom_pyfunceble_config" = lookup r "custom_pyfunceble_config"
    rfl
  next => rfl

theorem pcn_step_frame {r r' : Record} (h : pcn_step r = .ok r') :
    ∀ b, b ≠ "platform_container_name" → lookup r' b = lookup r b := by
  intro b hb
  unfold pcn_step at h
  split at h
  · rw [← Except.ok.inj h, lookup_rset, if_neg hb]
  · exact absurd h (by simp)
  · exact absurd h (by simp)

theorem pcn_step_char {r r' : Record} (h : pcn_step r = .ok r') :
    ∃ s, lookup r "name" = some (.str s) ∧
      lookup r' "platform_container_name" = some (.str (pcn_of_name s)) := by
  unfold pcn_step at h
  split at h
  next s hl =>
    exact ⟨s, hl, by rw [← Except.ok.inj h, lookup_rset, if_pos rfl]⟩
  next => exact absurd h (by simp)
  next => exact absurd h (by simp)

theorem pcn_step_succ {r : Record} {s : String} (h : lookup r "name" = some (.str s)) :
    pcn_step r = .ok (rset r "platform_container_name" (.str (pcn_of_name s))) := by
  unfold pcn_step
  rw [h]

theorem check_list_name_succ {r : Record}
    (h : ∀ v, lookup r "list_name" = some v → ∃ s, v = .str s) :
    check_list_name r = .ok () := by
  unfold check_list_name
  split
  next => rfl
  next v hns hl =>
    obtain ⟨s, hs⟩ := h v hl
    exact absurd hs (by intro he; exact hns s he)
  next => rfl

theorem update_un {ctx : Ctx} {r0 R : Record} (h : update ctx r0 = .ok R) :
    ∃ r1 r5 r6 r7 r8 r9,
      check_list_name (rset r0 "name" (.str ctx.baseName)) = .ok () ∧
      ping_step (rset r0 "name" (.str ctx.baseName)) = .ok r1 ∧
      foldStep coerce_bool bool_fields (cpc_step2 (cpc_step (raw_link_step r1))) = .ok r5 ∧
      foldStep coerce_float float_fields r5 = .ok r6 ∧
      foldStep coerce_ts ts_fields r6 = .ok r7 ∧
      foldStep coerce_dt dt_fields r7 = .ok r8 ∧
      foldStep coerce_uuid uuid_fields r8 = .ok r9 ∧
      pcn_step (rset r9 "repo" (.str (ctx.owner ++ "/" ++ ctx.baseName))) = .ok R := by
  unfold update at h
  split at h
  next e he => exact absurd h (by simp)
  next u hc =>
    cases u
    split at h
    next e he => exact absurd h (by simp)
    next r1 hp =>
      split at h
      next e he => exact absurd h (by simp)
      next r5 h5 =>
        split at h
        next e he => exact absurd h (by simp)
        next r6 h6 =>
          split at h
          next e he => exact absurd h (by simp)
          next r7 h7 =>
            split at h
            next e he => exact absurd h (by simp)
            next r8 h8 =>
              split at h
              next e he => exact absurd h (by simp)
              next r9 h9 =>
                exact ⟨r1, r5, r6, r7, r8, r9, hc, hp, h5, h6, h7, h8, h9, h⟩

theorem pipeline_un {ctx : Ctx} {r R : Record} (h : pipeline ctx r = .ok R) :
    ∃ ru, update ctx r = .ok ru ∧ R = clean (create_missing_index ctx ru) := by
  unfold pipeline at h
  split at h
  next ru hu => exact ⟨ru, hu, (Except.ok.inj h).symm⟩
  next e he => exact absurd h (by simp)

theorem add_missing_present :
    ∀ (tbl : List (String × Value)) (r : Record) (k : String) (v : Value),
      lookup r k = some v → lookup (add_missing r tbl) k = some v := by
  intro tbl
  induction tbl with
  | nil => intro r k v h; exact h
  | cons hd t ih =>
    intro r k v h
    obtain ⟨k0, v0⟩ := hd
    unfold add_missing
    by_cases hk0 : (lookup r k0).isSome
    · rw [if_pos hk0]
      exact ih r k v h
    · rw [if_neg hk0]
      refine ih _ k v ?_
      rw [lookup_append, h]

theorem add_missing_absent :
    ∀ (tbl : List (String × Value)) (r : Record) (k : String),
      lookup r k = Option.none → lookup (add_missing r tbl) k = lookup tbl k := by
  intro tbl
  induction tbl with
  | nil => intro r k h; exact h
  | cons hd t ih =>
    intro r k h
    obtain ⟨k0, v0⟩ := hd
    unfold add_missing
    by_cases hk : k = k0
    · subst hk
      have hk0 : ¬ (lookup r k).isSome = true := by rw [h]; simp
      rw [if_neg hk0]
      have hv0 : lookup (r ++ [(k, v0)]) k = some v0 := by
        rw [lookup_append, h]
        simp [lookup]
      rw [add_missing_present t _ k v0 hv0]
      simp [lookup]
    · have htail : lookup ((k0, v0) :: t) k = lookup t k := by simp [lookup, hk]
      rw [htail]
      by_cases hk0 : (lookup r k0).isSome
      · rw [if_pos hk0]
        exact ih r k h
      · rw [if_neg hk0]
        refine ih _ k ?_
        rw [lookup_append, h]
        simp [lookup, hk]

theorem lookup_foldl_erase :
    ∀ (ks : List String) (r : Record) (k : String),
      lookup (ks.foldl erase r) k = if k ∈ ks then Option.none else lookup r k := by
  intro ks
  induction ks with
  | nil => intro r k; simp
  | cons k0 t ih =>
    intro r k
    rw [List.foldl_cons, ih, lookup_erase]
    by_cases hk : k = k0
    · subst hk
      simp
    · by_cases hm : k ∈ t <;> simp [hk, hm]

theorem lookup_clean (r : Record) (k : String) :
    lookup (clean r) k = if k ∈ legacy_fields then Option.none else lookup r k :=
  lookup_foldl_erase legacy_fields r k

theorem lookup_store (r : Record) (k : String) :
    lookup (store r) k = (lookup r k).map (store_val k) :=
  lookup_map_val r store_val k

theorem update_frame {ctx : Ctx} {r0 R : Record} (h : update ctx r0 = .ok R)
    (k : String)
    (h1 : k ≠ "ping") (h2 : k ≠ "custom_pyfunceble_config") (h3 : k ≠ "raw_link")
    (h4 : k ∉ bool_fields) (h5 : k ∉ float_fields) (h6 : k ∉ ts_fields)
    (h7 : k ∉ dt_fields) (h8 : k ∉ uuid_fields)
    (h9 : k ≠ "repo") (h10 : k ≠ "platform_container_name") :
    lookup R k = lookup (rset r0 "name" (.str ctx.baseName)) k := by
  obtain ⟨r1, r5, r6, r7, r8, r9, hc, hp, hb, hf, hts, hdt, hu, hpcn⟩ := update_un h
  rw [pcn_step_frame hpcn k h10,
      lookup_rset, if_neg h9,
      foldStep_frame frame_coerce_uuid uuid_fields r8 r9 hu k h8,
      foldStep_frame frame_coerce_dt dt_fields r7 r8 hdt k h7,
      foldStep_frame frame_coerce_ts ts_fields r6 r7 hts k h6,
      foldStep_frame frame_coerce_float float_fields r5 r6 hf k h5,
      foldStep_frame frame_coerce_bool bool_fields _ r5 hb k h4,
      cpc_step2_frame _ k h2, cpc_step_frame _ k h2, raw_link_step_frame _ k h3,
      ping_step_frame hp k h1]

theorem update_char_named {ctx : Ctx} {r0 R : Record} (h : update ctx r0 = .ok R) :
    lookup R "name" = some (.str ctx.baseName) ∧
    lookup R "repo" = some (.str (ctx.owner ++ "/" ++ ctx.baseName)) ∧
    lookup R "platform_container_name" = some (.str (pcn_of_name ctx.baseName)) := by
  obtain ⟨r1, r5, r6, r7, r8, r9, hc, hp, hb, hf, hts, hdt, hu, hpcn⟩ := update_un h
  have hname9 : lookup (rset r9 "repo" (.str (ctx.owner ++ "/" ++ ctx.baseName))) "name"
      = some (.str ctx.baseName) := by
    rw [lookup_rset, if_neg (by decide),
        foldStep_frame frame_coerce_uuid uuid_fields r8 r9 hu "name" (by decide),
        foldStep_frame frame_coerce_dt dt_fields r7 r8 hdt "name" (by decide),
        foldStep_frame frame_coerce_ts ts_fields r6 r7 hts "name" (by decide),
        foldStep_frame frame_coerce_float float_fields r5 r6 hf "name" (by decide),
        foldStep_frame frame_coerce_bool bool_fields _ r5 hb "name" (by decide),
        cpc_step2_frame _ "name" (by decide), cpc_step_frame _ "name" (by decide),
        raw_link_step_frame _ "name" (by decide),
        ping_step_frame hp "name" (by decide),
        lookup_rset, if_pos rfl]
  refine ⟨?_, ?_, ?_⟩
  · rw [pcn_step_frame hpcn "name" (by decide)]
    exact hname9
  · rw [pcn_step_frame hpcn "repo" (by decide), lookup_rset, if_pos rfl]
  · obtain ⟨s, hs, hres⟩ := pcn_step_char hpcn
    rw [hname9] at hs
    have hsb : s = ctx.baseName := (Value.str.inj (Option.some.inj hs)).symm
    rw [hres, hsb]

theorem pyFloat_of_toNum {v : Value} {t : ℚ} (h : toNum v = some t) :
    pyFloat v = .ok t := by
  cases v <;> simp_all [toNum, pyFloat]

theorem toNum_not_datetime {v : Value} {t : ℚ} (h : toNum v = some t) :
    v.isDatetime = false := by
  cases v <;> simp_all [toNum, Value.isDatetime]

theorem float_fold_preserves_num {r r' : Record} {f : String} {v : Value} {t : ℚ}
    (h : foldStep coerce_float float_fields r = .ok r')
    (hl : lookup r f = some v) (hn : toNum v = some t) :
    ∃ w, lookup r' f = some w ∧ toNum w = some t ∧ w.isDatetime = false := by
  by_cases hmem : f ∈ float_fields
  · obtain ⟨s, s', hs_eq, hop, hres⟩ :=
      foldStep_mem frame_coerce_float float_fields (by decide) f hmem r r' h
    rw [hl] at hs_eq
    rcases coerce_float_char hop with ⟨ha, _⟩ | ⟨w, hw, hwf, hw'⟩ | ⟨w, q, hw, hwf, hq, hw'⟩
    · rw [ha] at hs_eq
      cases hs_eq
    · rw [hw] at hs_eq
      have hwv : w = v := Option.some.inj hs_eq
      subst hwv
      exact ⟨w, by rw [hres]; exact hw', hn, toNum_not_datetime hn⟩
    · rw [hw] at hs_eq
      have hwv : w = v := Option.some.inj hs_eq
      subst hwv
      rw [pyFloat_of_toNum hn] at hq
      have hqt : q = t := (Except.ok.inj hq).symm
      subst hqt
      exact ⟨.float q, by rw [hres]; exact hw', rfl, rfl⟩
  · refine ⟨v, ?_, hn, toNum_not_datetime hn⟩
    rw [foldStep_frame frame_coerce_float float_fields r r' h f hmem]
    exact hl

theorem ts_fold_clamps {r r' : Record} {f : String} {w : Value} {t : ℚ}
    (h : foldStep coerce_ts ts_fields r = .ok r')
    (hf : f ∈ ts_fields) (hl : lookup r f = some w) (hn : toNum w = some t)
    (ht : t < 0) :
    lookup r' f = some (.datetime 0) := by
  obtain ⟨s, s', hs_eq, hop, hres⟩ :=
    foldStep_mem frame_coerce_ts ts_fields (by decide) f hf r r' h
  rw [hl] at hs_eq
  rcases coerce_ts_char hop with ⟨ha, _⟩ | ⟨w', hw, hwf, hw'⟩ | ⟨w', t', hw, hwf, hn', hw'⟩
  · rw [ha] at hs_eq
    cases hs_eq
  · rw [hw] at hs_eq
    have hwv : w' = w := Option.some.inj hs_eq
    subst hwv
    rw [toNum_not_datetime hn] at hwf
    cases hwf
  · rw [hw] at hs_eq
    have hwv : w' = w := Option.some.inj hs_eq
    subst hwv
    rw [hn] at hn'
    have htt : t' = t := (Option.some.inj hn').symm
    subst htt
    rw [hres, hw', if_pos ht]

theorem ts_fold_keeps_num {r r' : Record} {f : String} {w : Value} {t : ℚ}
    (h : foldStep coerce_ts ts_fields r = .ok r')
    (hf : f ∈ ts_fields) (hl : lookup r f = some w) (hn : toNum w = some t)
    (ht : 0 ≤ t) :
    lookup r' f = some (.datetime t) := by
  obtain ⟨s, s', hs_eq, hop, hres⟩ :=
    foldStep_mem frame_coerce_ts ts_fields (by decide) f hf r r' h
  rw [hl] at hs_eq
  rcases coerce_ts_char hop with ⟨ha, _⟩ | ⟨w', hw, hwf, hw'⟩ | ⟨w', t', hw, hwf, hn', hw'⟩
  · rw [ha] at hs_eq
    cases hs_eq
  · rw [hw] at hs_eq
    have hwv : w' = w := Option.some.inj hs_eq
    subst hwv
    rw [toNum_not_datetime hn] at hwf
    cases hwf
  · rw [hw] at hs_eq
    have hwv : w' = w := Option.some.inj hs_eq
    subst hwv
    rw [hn] at hn'
    have htt : t' = t := (Option.some.inj hn').symm
    subst htt
    rw [hres, hw', if_neg (by exact not_lt.mpr ht)]

/-- C7: after every run of `update`, the `repo` field equals
`"{owner}/{name}"` computed from the current project identity, regardless of
any stored value. -/
theorem c7_repo_recomputed {ctx : Ctx} {r r' : Record} (h : update ctx r = .ok r') :
    lookup r' "repo" = some (.str (ctx.owner ++ "/" ++ ctx.baseName)) :=
  (update_char_named h).2.1

theorem c7_witness :
    lookup ((update testCtx [("repo", Value.str "stale/stale")]).toOption.getD [])
      "repo" = some (.str "funilrys/test-list") := by
  have h := @c7_repo_recomputed testCtx [("repo", Value.str "stale/stale")] _ (by rfl)
  exact h.trans (by rfl)

/-- C3 counterexample: the claimed derivation removes `.`, and on
`"My [Cool] List.txt"` claims the result `"my-cool-listtxt"`; `update`
actually replaces `.` with `-` (line 421) and produces
`"my-cool-list-txt"`. -/
theorem c3_counterexample :
    Except.map (fun r => lookup r "platform_container_name")
      (update ⟨"dead-hosts", "My [Cool] List.txt", 0⟩ []) =
      .ok (some (.str "my-cool-list-txt")) ∧
    ("my-cool-list-txt" : String) ≠ "my-cool-listtxt" :=
  ⟨by rfl, by decide⟩

/-- C3 (amended): after `update`, `platform_container_name` equals the `name`
field lower-cased, spaces replaced by `-`, the characters `[`, `]`, `(`, `)`
removed, `.` replaced by `-` (not removed), truncated to 128 characters; on
name `"My [Cool] List.txt"` this yields `"my-cool-list-txt"`. -/
theorem c3_container_name_derivation {ctx : Ctx} {r r' : Record}
    (h : update ctx r = .ok r') :
    lookup r' "platform_container_name" =
      some (.str (strTake (pyReplace (pyReplace (pyReplace (pyReplace (pyReplace
        (pyReplace (pyLower ctx.baseName) " " "-") "[" "") "]" "") "(" "") ")" "")
        "." "-") 128)) :=
  (update_char_named h).2.2

theorem c3_witness :
    lookup ((update ⟨"dead-hosts", "My [Cool] List.txt", 0⟩ []).toOption.getD [])
      "platform_container_name" =
      some (.str (strTake (pyReplace (pyReplace (pyReplace (pyReplace (pyReplace
        (pyReplace (pyLower "My [Cool] List.txt") " " "-") "[" "") "]" "") "(" "")
        ")" "") "." "-") 128)) :=
  @c3_container_name_derivation ⟨"dead-hosts", "My [Cool] List.txt", 0⟩ [] _ (by rfl)

/-- C4: a stored epoch-predating timestamp value in any of the five
`*_timestamp` fields is replaced by the epoch-zero instant by `update`
instead of raising (the modelled platform's `utcfromtimestamp` raises
`OSError` on pre-epoch input, which line 361 substitutes with `epoch_dt`). -/
theorem c4_epoch_clamp {ctx : Ctx} {r r' : Record} {f : String} {v : Value} {t : ℚ}
    (hf : f ∈ ts_fields) (hl : lookup r f = some v) (hn : toNum v = some t)
    (ht : t < 0) (h : update ctx r = .ok r') :
    lookup r' f = some (.datetime 0) := by
  obtain ⟨r1, r5, r6, r7, r8, r9, hc, hp, hb, hfl, hts, hdt, hu, hpcn⟩ := update_un h
  have hne_name : f ≠ "name" := by fin_cases hf <;> decide
  have hne_ping : f ≠ "ping" := by fin_cases hf <;> decide
  have hne_raw : f ≠ "raw_link" := by fin_cases hf <;> decide
  have hne_cpc : f ≠ "custom_pyfunceble_config" := by fin_cases hf <;> decide
  have hne_b : f ∉ bool_fields := by fin_cases hf <;> decide
  have hne_dt : f ∉ dt_fields := by fin_cases hf <;> decide
  have hne_u : f ∉ uuid_fields := by fin_cases hf <;> decide
  have hne_repo : f ≠ "repo" := by fin_cases hf <;> decide
  have hne_pcn : f ≠ "platform_container_name" := by fin_cases hf <;> decide
  have e0 : lookup (rset r "name" (.str ctx.baseName)) f = some v := by
    rw [lookup_rset, if_neg hne_name]
    exact hl
  have e1 : lookup r1 f = some v := by
    rw [ping_step_frame hp f hne_ping]
    exact e0
  have e4 : lookup (cpc_step2 (cpc_step (raw_link_step r1))) f = some v := by
    rw [cpc_step2_frame _ f hne_cpc, cpc_step_frame _ f hne_cpc,
      raw_link_step_frame _ f hne_raw]
    exact e1
  have e5 : lookup r5 f = some v := by
    rw [foldStep_frame frame_coerce_bool bool_fields _ r5 hb f hne_b]
    exact e4
  obtain ⟨w, e6, hwn, _⟩ := float_fold_preserves_num hfl e5 hn
  have e7 : lookup r7 f = some (.datetime 0) := ts_fold_clamps hts hf e6 hwn ht
  have e8 : lookup r8 f = some (.datetime 0) := by
    rw [foldStep_frame frame_coerce_dt dt_fields r7 r8 hdt f hne_dt]
    exact e7
  have e9 : lookup r9 f = some (.datetime 0) := by
    rw [foldStep_frame frame_coerce_uuid uuid_fields r8 r9 hu f hne_u]
    exact e8
  rw [pcn_step_frame hpcn f hne_pcn, lookup_rset, if_neg hne_repo]
  exact e9

theorem c4_witness :
    lookup ((update testCtx [("start_timestamp", Value.float (-1000000000000))]).toOption.getD [])
      "start_timestamp" = some (.datetime 0) :=
  @c4_epoch_clamp testCtx [("start_timestamp", Value.float (-1000000000000))] _
    "start_timestamp" (Value.float (-1000000000000)) (-1000000000000)
    (by decide) (by rfl) (by rfl) (by decide) (by rfl)

/-- C2 counterexample: the float-coercion pass (lines 327-343) leaves
`latest_part_finish_timestamp` alone (its name was absorbed by the implicit
string concatenation), although the claim lists it among the coerced
fields; `finish_timestamp` shows the coercion does fire for listed fields. -/
theorem c2_counterexample :
    foldStep coerce_float float_fields [("latest_part_finish_timestamp", Value.int 5)] =
      .ok [("latest_part_finish_timestamp", Value.int 5)] ∧
    (Value.int 5).isFloat = false ∧
    foldStep coerce_float float_fields [("finish_timestamp", Value.int 5)] =
      .ok [("finish_timestamp", Value.float 5)] :=
  ⟨by rfl, by rfl, by rfl⟩

/-- C2 (amended): during `update`, each of `days_until_next_test`,
`finish_timestamp`, `latest_part_start_timestamp` and `start_timestamp`
present and not already a float is coerced to float; neither
`last_download_timestamp` nor `latest_part_finish_timestamp` is subject to
this coercion — the missing comma at lines 330-331 fuses both names into
one never-present string. -/
theorem c2_float_coercion {r r' : Record}
    (h : foldStep coerce_float float_fields r = .ok r') :
    (lookup r' "latest_part_finish_timestamp" =
      lookup r "latest_part_finish_timestamp") ∧
    (lookup r' "last_download_timestamp" = lookup r "last_download_timestamp") ∧
    (∀ f, f ∈ ["days_until_next_test", "finish_timestamp",
        "latest_part_start_timestamp", "start_timestamp"] →
      ∀ v, lookup r f = some v → v.isFloat = false →
        ∃ q, pyFloat v = .ok q ∧ lookup r' f = some (.float q)) := by
  refine ⟨foldStep_frame frame_coerce_float float_fields r r' h _ (by decide),
    foldStep_frame frame_coerce_float float_fields r r' h _ (by decide), ?_⟩
  intro f hf v hv hnf
  have hmem : f ∈ float_fields := by
    fin_cases hf <;> decide
  obtain ⟨s, s', hs_eq, hop, hres⟩ :=
    foldStep_mem frame_coerce_float float_fields (by decide) f hmem r r' h
  rw [hv] at hs_eq
  rcases coerce_float_char hop with ⟨ha, _⟩ | ⟨w, hw, hwf, hw'⟩ | ⟨w, q, hw, hwf, hq, hw'⟩
  · rw [ha] at hs_eq
    cases hs_eq
  · rw [hw] at hs_eq
    rw [Option.some.inj hs_eq] at hwf
    rw [hwf] at hnf
    cases hnf
  · rw [hw] at hs_eq
    rw [Option.some.inj hs_eq] at hq
    exact ⟨q, hq, by rw [hres]; exact hw'⟩

theorem c2_witness :
    ∃ q, pyFloat (Value.int 3) = .ok q ∧
      lookup ((foldStep coerce_float float_fields
        [("days_until_next_test", Value.int 3),
         ("latest_part_finish_timestamp", Value.int 5)]).toOption.getD [])
        "days_until_next_test" = some (.float q) :=
  (@c2_float_coercion
    [("days_until_next_test", Value.int 3),
     ("latest_part_finish_timestamp", Value.int 5)] _ (by rfl)).2.2
    "days_until_next_test" (by simp) (Value.int 3) (by rfl) (by rfl)

theorem string_data_append (a b : String) : (a ++ b).data = a.data ++ b.data := by
  cases a
  cases b
  rfl

theorem startswith_at_append (s : String) : pyStartswith ("@" ++ s) "@" = true := by
  unfold pyStartswith
  rw [string_data_append]
  cases s
  simp [List.isPrefixOf]

theorem startswith_atat_append (s : String) :
    pyStartswith ("@" ++ s) "@@" = pyStartswith s "@" := by
  unfold pyStartswith
  rw [string_data_append]
  cases s
  simp [List.isPrefixOf]

theorem mapE_ping_entry_strs (l : List String) :
    mapE ping_entry (l.map Value.str) =
      .ok (l.map fun s => Value.str (if pyStartswith s "@" then s else "@" ++ s)) := by
  induction l with
  | nil => rfl
  | cons s t ih => simp [List.map_cons, mapE, ping_entry, ih]

/-- C6 (amended): if `ping` holds a list of strings, `update` rewrites it so
entries lacking a leading `@` gain exactly one `@` prefix and entries
already starting with `@` pass through unchanged (even when they begin with
several `@`); order and length are preserved, every output entry starts
with `@`, and an output entry starts with more than one `@` only if its
input entry already did. -/
theorem c6_ping_rewrite {ctx : Ctx} {r r' : Record} {l : List String}
    (hl : lookup r "ping" = some (.list (l.map Value.str)))
    (h : update ctx r = .ok r') :
    (lookup r' "ping" = some (.list (l.map fun s =>
      Value.str (if pyStartswith s "@" then s else "@" ++ s)))) ∧
    (∀ s : String, pyStartswith s "@" = true →
      (if pyStartswith s "@" then s else "@" ++ s) = s) ∧
    (∀ s : String, pyStartswith (if pyStartswith s "@" then s else "@" ++ s) "@" = true) ∧
    (∀ s : String, pyStartswith s "@@" = false →
      pyStartswith (if pyStartswith s "@" then s else "@" ++ s) "@@" = false) := by
  obtain ⟨r1, r5, r6, r7, r8, r9, hc, hp, hb, hfl, hts, hdt, hu, hpcn⟩ := update_un h
  refine ⟨?_, ?_, ?_, ?_⟩
  · have e0 : lookup (rset r "name" (.str ctx.baseName)) "ping" =
        some (.list (l.map Value.str)) := by
      rw [lookup_rset, if_neg (by decide)]
      exact hl
    rcases ping_step_char hp with ⟨ha, _⟩ | ⟨v, items, out, hv, hit, hout, hres⟩
    · rw [ha] at e0
      cases e0
    · rw [hv] at e0
      have hvv : v = .list (l.map Value.str) := Option.some.inj e0
      subst hvv
      have hitems : items = l.map Value.str := (Except.ok.inj hit).symm
      subst hitems
      rw [mapE_ping_entry_strs l] at hout
      have houtv : out = l.map fun s =>
          Value.str (if pyStartswith s "@" then s else "@" ++ s) :=
        (Except.ok.inj hout).symm
      subst houtv
      rw [pcn_step_frame hpcn "ping" (by decide), lookup_rset, if_neg (by decide),
        foldStep_frame frame_coerce_uuid uuid_fields r8 r9 hu "ping" (by decide),
        foldStep_frame frame_coerce_dt dt_fields r7 r8 hdt "ping" (by decide),
        foldStep_frame frame_coerce_ts ts_fields r6 r7 hts "ping" (by decide),
        foldStep_frame frame_coerce_float float_fields r5 r6 hfl "ping" (by decide),
        foldStep_frame frame_coerce_bool bool_fields _ r5 hb "ping" (by decide),
        cpc_step2_frame _ "ping" (by decide), cpc_step_frame _ "ping" (by decide),
        raw_link_step_frame _ "ping" (by decide)]
      exact hres
  · intro s hs
    rw [if_pos hs]
  · intro s
    by_cases hs : pyStartswith s "@" = true
    · rw [if_pos hs]
      exact hs
    · rw [if_neg hs]
      exact startswith_at_append s
  · intro s hs
    by_cases hp1 : pyStartswith s "@" = true
    · rw [if_pos hp1]
      exact hs
    · rw [if_neg hp1]
      rw [startswith_atat_append s]
      exact Bool.not_eq_true _ ▸ hp1

/-- C6 counterexample: on input entry `"@@bob"` (already `@`-prefixed, so
passed through unchanged) the output entry starts with two `@`, refuting
"every entry of the output starts with exactly one `@`". -/
theorem c6_counterexample :
    Except.map (fun r => lookup r "ping")
      (update testCtx [("ping", Value.list [Value.str "@@bob"])]) =
      .ok (some (.list [Value.str "@@bob"])) ∧
    pyStartswith "@@bob" "@@" = true :=
  ⟨by rfl, by rfl⟩

theorem c6_witness :
    lookup ((update testCtx
      [("ping", Value.list [Value.str "alice", Value.str "@bob"])]).toOption.getD [])
      "ping" = some (.list [Value.str "@alice", Value.str "@bob"]) := by
  have h := (@c6_ping_rewrite testCtx
    [("ping", Value.list [Value.str "alice", Value.str "@bob"])] _
    ["alice", "@bob"] (by rfl) (by rfl)).1
  exact h.trans (by rfl)

/-- C9: for `platform_container_id` and `platform_remote_source_id`,
`update` sets the field to `None` not only when falsy but also when the
value is already a UUID (the `else` branch at line 399 catches both); only
a present, truthy, non-UUID value is parsed and kept as a UUID. -/
theorem c9_uuid_normalization {ctx : Ctx} {r r' : Record} {f : String}
    (hf : f ∈ uuid_fields) (h : update ctx r = .ok r') :
    (∀ u, lookup r f = some (.uuid u) → lookup r' f = some Value.none) ∧
    (∀ v, lookup r f = some v → truthy v = false → lookup r' f = some Value.none) ∧
    (∀ s c, lookup r f = some (.str s) → uuidParse s = some c →
      truthy (.str s) = true → lookup r' f = some (.uuid c)) := by
  obtain ⟨r1, r5, r6, r7, r8, r9, hc, hp, hb, hfl, hts, hdt, hu, hpcn⟩ := update_un h
  have hne_name : f ≠ "name" := by fin_cases hf <;> decide
  have echain : lookup r8 f = lookup r f := by
    rw [foldStep_frame frame_coerce_dt dt_fields r7 r8 hdt f (by fin_cases hf <;> decide),
      foldStep_frame frame_coerce_ts ts_fields r6 r7 hts f (by fin_cases hf <;> decide),
      foldStep_frame frame_coerce_float float_fields r5 r6 hfl f
        (by fin_cases hf <;> decide),
      foldStep_frame frame_coerce_bool bool_fields _ r5 hb f (by fin_cases hf <;> decide),
      cpc_step2_frame _ f (by fin_cases hf <;> decide),
      cpc_step_frame _ f (by fin_cases hf <;> decide),
      raw_link_step_frame _ f (by fin_cases hf <;> decide),
      ping_step_frame hp f (by fin_cases hf <;> decide),
      lookup_rset, if_neg hne_name]
  have eout : lookup r' f = lookup r9 f := by
    rw [pcn_step_frame hpcn f (by fin_cases hf <;> decide), lookup_rset,
      if_neg (by fin_cases hf <;> decide)]
  obtain ⟨s, s', hs_eq, hop, hres⟩ :=
    foldStep_mem frame_coerce_uuid uuid_fields (by decide) f hf r8 r9 hu
  rw [echain] at hs_eq
  refine ⟨?_, ?_, ?_⟩
  · intro u hl
    rw [hl] at hs_eq
    rcases coerce_uuid_char hop with ⟨ha, _⟩ | ⟨w, hw, hwf, hw'⟩ | ⟨s0, c0, hw, htr, hup, hw'⟩
    · rw [ha] at hs_eq
      cases hs_eq
    · rw [eout, hres, hw']
    · rw [hw] at hs_eq
      cases hs_eq
  · intro v hl htr
    rw [hl] at hs_eq
    rcases coerce_uuid_char hop with ⟨ha, _⟩ | ⟨w, hw, hwf, hw'⟩ | ⟨s0, c0, hw, htr0, hup, hw'⟩
    · rw [ha] at hs_eq
      cases hs_eq
    · rw [eout, hres, hw']
    · rw [hw] at hs_eq
      have hv : v = .str s0 := (Option.some.inj hs_eq).symm
      rw [hv, htr0] at htr
      cases htr
  · intro s0 c hl hup htr
    rw [hl] at hs_eq
    rcases coerce_uuid_char hop with ⟨ha, _⟩ | ⟨w, hw, hwf, hw'⟩ | ⟨s1, c1, hw, htr1, hup1, hw'⟩
    · rw [ha] at hs_eq
      cases hs_eq
    · rw [hw] at hs_eq
      have hwv : w = .str s0 := Option.some.inj hs_eq
      subst hwv
      rw [htr] at hwf
      simp [Value.isUuid] at hwf
    · rw [hw] at hs_eq
      have hs01 : s1 = s0 := Value.str.inj (Option.some.inj hs_eq)
      subst hs01
      rw [hup] at hup1
      have hcc : c1 = c := Option.some.inj hup1.symm
      subst hcc
      rw [eout, hres, hw']

theorem c9_witness :
    lookup ((update testCtx
      [("platform_container_id", Value.uuid "123e4567-e89b-12d3-a456-426614174000"),
       ("platform_remote_source_id",
        Value.str "123e4567-e89b-12d3-a456-426614174000")]).toOption.getD [])
      "platform_container_id" = some Value.none ∧
    lookup ((update testCtx
      [("platform_container_id", Value.uuid "123e4567-e89b-12d3-a456-426614174000"),
       ("platform_remote_source_id",
        Value.str "123e4567-e89b-12d3-a456-426614174000")]).toOption.getD [])
      "platform_remote_source_id" =
      some (Value.uuid "123e4567-e89b-12d3-a456-426614174000") := by
  have h9a := @c9_uuid_normalization testCtx
    [("platform_container_id", Value.uuid "123e4567-e89b-12d3-a456-426614174000"),
     ("platform_remote_source_id",
      Value.str "123e4567-e89b-12d3-a456-426614174000")]
    ((update testCtx
      [("platform_container_id", Value.uuid "123e4567-e89b-12d3-a456-426614174000"),
       ("platform_remote_source_id",
        Value.str "123e4567-e89b-12d3-a456-426614174000")]).toOption.getD [])
    "platform_container_id" (by decide) (by rfl)
  have h9b := @c9_uuid_normalization testCtx
    [("platform_container_id", Value.uuid "123e4567-e89b-12d3-a456-426614174000"),
     ("platform_remote_source_id",
      Value.str "123e4567-e89b-12d3-a456-426614174000")]
    ((update testCtx
      [("platform_container_id", Value.uuid "123e4567-e89b-12d3-a456-426614174000"),
       ("platform_remote_source_id",
        Value.str "123e4567-e89b-12d3-a456-426614174000")]).toOption.getD [])
    "platform_remote_source_id" (by decide) (by rfl)
  exact ⟨h9a.1 _ (by rfl), h9b.2.2 _ _ (by rfl) (by rfl) (by rfl)⟩

theorem mapE_as_str_strs (l : List String) :
    mapE as_str (l.map Value.str) = .ok l := by
  induction l with
  | nil => rfl
  | cons s t ih => simp [List.map_cons, mapE, as_str, ih]

/-- C8: `get_ping_for_commit` returns the space-joined `ping` sequence when
`ping_enabled` is the boolean `True` and `ping` is non-empty, and the empty
string whenever `ping_enabled` holds any other value or `ping` is falsy. -/
theorem c8_get_ping_mention {r : Record} :
    (∀ (l : List String), lookup r "ping_enabled" = some (.bool true) →
      lookup r "ping" = some (.list (l.map Value.str)) → l ≠ [] →
      get_ping_for_commit r = .ok (joinSpace l)) ∧
    (∀ v, lookup r "ping_enabled" = some v → v ≠ .bool true →
      get_ping_for_commit r = .ok "") ∧
    (∀ v, lookup r "ping_enabled" = some (.bool true) → lookup r "ping" = some v →
      truthy v = false → get_ping_for_commit r = .ok "") := by
  refine ⟨?_, ?_, ?_⟩
  · intro l hpe hpg hl
    cases l with
    | nil => exact absurd rfl hl
    | cons s0 t =>
      unfold get_ping_for_commit
      rw [hpe, hpg]
      show (if truthy (Value.list ((s0 :: t).map Value.str)) = true then
          match pyIter (Value.list ((s0 :: t).map Value.str)) with
          | .ok items =>
            (match mapE as_str items with
             | .ok strs => Except.ok (joinSpace strs)
             | .error e => Except.error e)
          | .error e => Except.error e
        else .ok "") = .ok (joinSpace (s0 :: t))
      rw [if_pos (show truthy (Value.list ((s0 :: t).map Value.str)) = true from rfl)]
      show (match mapE as_str ((s0 :: t).map Value.str) with
            | .ok strs => Except.ok (joinSpace strs)
            | .error e => Except.error e) = .ok (joinSpace (s0 :: t))
      rw [mapE_as_str_strs]
  · intro v hpe hv
    unfold get_ping_for_commit
    cases hpg : lookup r "ping" with
    | none => rw [hpe]
    | some w =>
      rw [hpe]
      show (match v with
        | .bool true =>
          if truthy w = true then
            match pyIter w with
            | .ok items =>
              (match mapE as_str items with
               | .ok strs => Except.ok (joinSpace strs)
               | .error e => Except.error e)
            | .error e => Except.error e
          else .ok ""
        | _ => .ok "") = .ok ""
      match v, hv with
      | .bool true, hv => exact absurd rfl hv
      | .bool false, _ | .none, _ | .int _, _ | .float _, _ | .str _, _
      | .list _, _ | .dict _, _ | .datetime _, _ | .uuid _, _ => rfl
  · intro v hpe hpg htr
    unfold get_ping_for_commit
    rw [hpe, hpg]
    show (if truthy v = true then
        match pyIter v with
        | .ok items =>
          (match mapE as_str items with
           | .ok strs => Except.ok (joinSpace strs)
           | .error e => Except.error e)
        | .error e => Except.error e
      else .ok "") = .ok ""
    rw [if_neg (by rw [htr]; exact Bool.false_ne_true)]

theorem c8_witness :
    get_ping_for_commit [("ping_enabled", Value.bool true),
      ("ping", Value.list [Value.str "@alice", Value.str "@bob"])] =
      .ok "@alice @bob" ∧
    get_ping_for_commit [("ping_enabled", Value.bool false),
      ("ping", Value.list [Value.str "@alice", Value.str "@bob"])] = .ok "" := by
  constructor
  · have h := (@c8_get_ping_mention [("ping_enabled", Value.bool true),
      ("ping", Value.list [Value.str "@alice", Value.str "@bob"])]).1
      ["@alice", "@bob"] (by rfl) (by rfl) (by simp)
    exact h.trans (by rfl)
  · exact (@c8_get_ping_mention [("ping_enabled", Value.bool false),
      ("ping", Value.list [Value.str "@alice", Value.str "@bob"])]).2.1
      (Value.bool false) (by rfl) (fun h => by cases h)

/-- C10: `get_ping_for_commit` returns the empty string whenever the
`ping_enabled` or `ping` key is absent, and whenever `ping_enabled` holds
any value other than the boolean `True` itself (the `is True` identity
check at line 439) — including the truthy integer `1`. -/
theorem c10_get_ping_guards {r : Record} :
    (lookup r "ping_enabled" = Option.none → get_ping_for_commit r = .ok "") ∧
    (lookup r "ping" = Option.none → get_ping_for_commit r = .ok "") ∧
    (∀ v, lookup r "ping_enabled" = some v → v ≠ .bool true →
      get_ping_for_commit r = .ok "") := by
  refine ⟨?_, ?_, ?_⟩
  · intro hpe
    unfold get_ping_for_commit
    cases hpg : lookup r "ping" with
    | none => rw [hpe]
    | some w => rw [hpe]
  · intro hpg
    unfold get_ping_for_commit
    cases hpe : lookup r "ping_enabled" with
    | none => rw [hpg]
    | some v => rw [hpg]
  · intro v hpe hv
    unfold get_ping_for_commit
    cases hpg : lookup r "ping" with
    | none => rw [hpe]
    | some w =>
      rw [hpe]
      match v, hv with
      | .bool true, hv => exact absurd rfl hv
      | .bool false, _ | .none, _ | .int _, _ | .float _, _ | .str _, _
      | .list _, _ | .dict _, _ | .datetime _, _ | .uuid _, _ => rfl

theorem c10_witness :
    get_ping_for_commit [("ping_enabled", Value.int 1),
      ("ping", Value.list [Value.str "@alice"])] = .ok "" ∧
    get_ping_for_commit [("ping", Value.list [Value.str "@alice"])] = .ok "" := by
  constructor
  · exact (@c10_get_ping_guards [("ping_enabled", Value.int 1),
      ("ping", Value.list [Value.str "@alice"])]).2.2
      (Value.int 1) (by rfl) (fun h => by cases h)
  · exact (@c10_get_ping_guards
      [("ping", Value.list [Value.str "@alice"])]).1 (by rfl)

/-- C1 counterexample: on the empty record the pipeline runs twice without
raising, yet the two results are not equal as Python records — the second
run converts the float timestamp defaults to instants and clobbers the
datetime defaults to epoch-zero. -/
theorem c1_counterexample :
    (pipeline2 testCtx []).isOk = true ∧
    exceptRecEq (pipeline testCtx []) (pipeline2 testCtx []) = false := by
  constructor
  · with_unfolding_all rfl
  · with_unfolding_all rfl

/-- C1 (amended): the pipeline `update` + `create_missing_index` + `clean`
is not idempotent.  On the empty record the second run yields the first
run's record with every float `*_timestamp` default turned into the
equivalent instant, every instant `*_datetime` default reset to the
epoch-zero instant, and the integer `days_until_next_test` default turned
into a float; and on any record that already contained `finish_timestamp`,
the second run raises `TypeError` because `float()` is applied to the
instant produced by the first run. -/
theorem c1_pipeline_not_idempotent :
    pipeline2 testCtx [] = Except.map second_run_shift (pipeline testCtx []) ∧
    pipeline2 testCtx [("finish_timestamp", Value.float 0)] = .error .typeError := by
  constructor
  · with_unfolding_all rfl
  · with_unfolding_all rfl

theorem json_not_datetime_val {v : Value} (hj : JsonVal v) : v.isDatetime = false := by
  cases hj <;> rfl

theorem json_not_uuid_val {v : Value} (hj : JsonVal v) : v.isUuid = false := by
  cases hj <;> rfl

theorem store_val_json {k : String} {v : Value} (hj : JsonVal v) : store_val k v = v := by
  unfold store_val
  rw [json_not_datetime_val hj]
  cases hj <;> simp

theorem lookup_mem : ∀ {r : Record} {k : String} {v : Value},
    lookup r k = some v → (k, v) ∈ r := by
  intro r
  induction r with
  | nil => intro k v h; cases h
  | cons hd t ih =>
    intro k v h
    obtain ⟨k0, v0⟩ := hd
    by_cases hk : k = k0
    · subst hk
      rw [show lookup ((k, v0) :: t) k = some v0 by simp [lookup]] at h
      rw [← Option.some.inj h]
      simp
    · rw [show lookup ((k0, v0) :: t) k = lookup t k by simp [lookup, hk]] at h
      exact List.mem_cons.mpr (Or.inr (ih h))

theorem json_str_list (l : List String) : JsonVal (.list (l.map Value.str)) := by
  refine JsonVal.list _ ?_
  intro v hv
  obtain ⟨s, _, hs⟩ := List.mem_map.mp hv
  rw [← hs]
  exact JsonVal.str s

theorem ratAbs_self_lt_one (a : ℚ) : ratAbs (a - a) < 1 := by
  unfold ratAbs
  rw [sub_self]
  norm_num

theorem log_eq_val_of_pyEq {k : String} {v w : Value}
    (hv : instOf v = instOf w) (hp : pyEq v w = true) : log_eq_val k v w = true := by
  unfold log_eq_val
  split
  · rw [hv]
    cases hw : instOf w with
    | some a => exact decide_eq_true (ratAbs_self_lt_one a)
    | none => exact hp
  · match v, w with
    | .uuid a, .uuid b =>
      unfold pyEq at hp
      simp_all
    | .none, _ | .bool _, _ | .int _, _ | .float _, _ | .str _, _
    | .list _, _ | .dict _, _ | .datetime _, _ => exact hp

theorem log_eq_val_refl {k : String} {v : Value} (hj : JsonVal v) :
    log_eq_val k v v = true :=
  log_eq_val_of_pyEq rfl (pyEq_refl hj)

theorem log_eq_val_instants {k : String} {v w : Value} {a : ℚ}
    (hts : (strEndsWith k "_timestamp" || strEndsWith k "_datetime") = true)
    (hv : instOf v = some a) (hw : instOf w = some a) : log_eq_val k v w = true := by
  unfold log_eq_val
  rw [if_pos hts, hv, hw]
  exact decide_eq_true (ratAbs_self_lt_one a)

theorem mem_rset : ∀ {acc : Record} {k : String} {v : Value} {kv : String × Value},
    kv ∈ rset acc k v → kv ∈ acc ∨ kv = (k, v) := by
  intro acc
  induction acc with
  | nil =>
    intro k v kv h
    unfold rset at h
    rcases List.mem_singleton.mp h with h1
    exact Or.inr h1
  | cons hd t ih =>
    intro k v kv h
    obtain ⟨k0, v0⟩ := hd
    unfold rset at h
    split at h
    next hk =>
      rcases List.mem_cons.mp h with h1 | h1
      · subst hk
        exact Or.inr (h1.trans rfl)
      · exact Or.inl (List.mem_cons.mpr (Or.inr h1))
    next hk =>
      rcases List.mem_cons.mp h with h1 | h1
      · exact Or.inl (List.mem_cons.mpr (Or.inl h1))
      · rcases ih h1 with h2 | h2
        · exact Or.inl (List.mem_cons.mpr (Or.inr h2))
        · exact Or.inr h2

theorem lookup_none_of_not_key : ∀ {acc : Record} {k : String},
    k ∉ acc.map Prod.fst → lookup acc k = Option.none := by
  intro acc
  induction acc with
  | nil => intro k _; rfl
  | cons hd t ih =>
    intro k h
    obtain ⟨k0, v0⟩ := hd
    simp only [List.map_cons, List.mem_cons] at h
    push_neg at h
    show (if k = k0 then some v0 else lookup t k) = Option.none
    rw [if_neg h.1]
    exact ih h.2

theorem key_mem_of_lookup_isSome : ∀ {acc : Record} {k : String},
    (lookup acc k).isSome = true → k ∈ acc.map Prod.fst := by
  intro acc k h
  by_contra hk
  rw [lookup_none_of_not_key hk] at h
  cases h

theorem rset_keys : ∀ (acc : Record) (k : String) (v : Value),
    (rset acc k v).map Prod.fst =
      if (lookup acc k).isSome then acc.map Prod.fst else acc.map Prod.fst ++ [k] := by
  intro acc
  induction acc with
  | nil => intro k v; simp [rset, lookup]
  | cons hd t ih =>
    intro k v
    obtain ⟨k0, v0⟩ := hd
    by_cases hk : k = k0
    · subst hk
      simp [rset, lookup]
    · show ((if k = k0 then (k0, v) :: t else (k0, v0) :: rset t k v).map Prod.fst) = _
      rw [if_neg hk]
      rw [show lookup ((k0, v0) :: t) k = lookup t k by simp [lookup, hk]]
      rw [List.map_cons, ih]
      by_cases hs : (lookup t k).isSome <;> simp [hs]

theorem rset_absent_append {acc : Record} {k : String} (v : Value)
    (h : lookup acc k = Option.none) : rset acc k v = acc ++ [(k, v)] := by
  induction acc with
  | nil => rfl
  | cons hd t ih =>
    obtain ⟨k0, v0⟩ := hd
    by_cases hk : k = k0
    · subst hk
      rw [show lookup ((k, v0) :: t) k = some v0 by simp [lookup]] at h
      cases h
    · rw [show lookup ((k0, v0) :: t) k = lookup t k by simp [lookup, hk]] at h
      show (if k = k0 then (k0, v) :: t else (k0, v0) :: rset t k v) = _
      rw [if_neg hk, ih h]
      rfl

theorem fold_assign_append : ∀ (l : List (String × Value)) (acc : Record),
    (∀ kv ∈ l, lookup acc kv.1 = Option.none) → (l.map Prod.fst).Nodup →
    l.foldl dict_assign acc = acc ++ l := by
  intro l
  induction l with
  | nil => intro acc _ _; simp
  | cons kv t ih =>
    intro acc habs hnd
    simp only [List.map_cons, List.nodup_cons] at hnd
    rw [List.foldl_cons]
    rw [show dict_assign acc kv = acc ++ [kv] from rset_absent_append kv.2 (habs kv (by simp))]
    rw [ih (acc ++ [kv]) ?habs hnd.2]
    · simp
    · intro kv' hkv'
      rw [lookup_append, habs kv' (by simp [hkv'])]
      have hne : kv'.1 ≠ kv.1 :=
        fun he => hnd.1 (he ▸ List.mem_map.mpr ⟨kv', hkv', rfl⟩)
      simp [lookup, hne]

theorem mem_fold_assign : ∀ (l : List (String × Value)) (acc : Record)
    {kv : String × Value}, kv ∈ l.foldl dict_assign acc → kv ∈ acc ∨ kv ∈ l := by
  intro l
  induction l with
  | nil => intro acc kv h; exact Or.inl h
  | cons e t ih =>
    intro acc kv h
    rw [List.foldl_cons] at h
    rcases ih (dict_assign acc e) h with h1 | h1
    · rcases mem_rset h1 with h2 | h2
      · exact Or.inl h2
      · exact Or.inr (List.mem_cons.mpr (Or.inl (by rw [h2])))
    · exact Or.inr (List.mem_cons.mpr (Or.inr h1))

theorem keys_fold_assign_nodup : ∀ (l : List (String × Value)) (acc : Record),
    (acc.map Prod.fst).Nodup → ((l.foldl dict_assign acc).map Prod.fst).Nodup := by
  intro l
  induction l with
  | nil => intro acc h; exact h
  | cons e t ih =>
    intro acc h
    rw [List.foldl_cons]
    refine ih _ ?_
    unfold dict_assign
    rw [rset_keys]
    split
    · exact h
    next hs =>
      rw [List.nodup_append]
      refine ⟨h, by simp, ?_⟩
      intro a ha hb
      have hae : a = e.1 := List.mem_singleton.mp hb
      subst hae
      obtain ⟨kv0, hkv0, hfst⟩ := List.mem_map.mp ha
      exact hs (by rw [← hfst]; exact lookup_isSome_of_mem hkv0)

theorem flattenPairs_aux :
    ∀ (l : List (String × Value)),
      (∀ kv ∈ l, JsonVal kv.2) →
      (∀ kv ∈ l, ∀ (d : List (String × Value)), kv.2 = .dict d →
        ∀ kv' ∈ flattenPairs d, JsonVal kv'.2 ∧
          ∀ (p : String × Value) (ps : List (String × Value)), kv'.2 ≠ .dict (p :: ps)) →
      ∀ kv' ∈ flattenPairs l, JsonVal kv'.2 ∧
        ∀ (p : String × Value) (ps : List (String × Value)), kv'.2 ≠ .dict (p :: ps) := by
  intro l
  induction l with
  | nil =>
    intro _ _ kv' h
    simp [flattenPairs] at h
  | cons e t ih =>
    intro hjson hrec kv' h
    rw [show flattenPairs (e :: t) = flattenEntry e.1 e.2 ++ flattenPairs t from rfl] at h
    have hshape : (∃ p0 ps0, e.2 = Value.dict (p0 :: ps0)) ∨
        (flattenEntry e.1 e.2 = [(e.1, e.2)] ∧
          ∀ (p : String × Value) (ps : List (String × Value)), e.2 ≠ .dict (p :: ps)) := by
      match e.2 with
      | .dict (p0 :: ps0) => exact Or.inl ⟨p0, ps0, rfl⟩
      | .none => exact Or.inr ⟨rfl, by intro p ps h; cases h⟩
      | .bool b => exact Or.inr ⟨rfl, by intro p ps h; cases h⟩
      | .int n => exact Or.inr ⟨rfl, by intro p ps h; cases h⟩
      | .float q => exact Or.inr ⟨rfl, by intro p ps h; cases h⟩
      | .str s => exact Or.inr ⟨rfl, by intro p ps h; cases h⟩
      | .list l0 => exact Or.inr ⟨rfl, by intro p ps h; cases h⟩
      | .dict [] => exact Or.inr ⟨rfl, by intro p ps h; cases h⟩
      | .datetime t0 => exact Or.inr ⟨rfl, by intro p ps h; cases h⟩
      | .uuid u => exact Or.inr ⟨rfl, by intro p ps h; cases h⟩
    rcases List.mem_append.mp h with h1 | h1
    · rcases hshape with ⟨p0, ps0, he⟩ | ⟨he, hnd0⟩
      · rw [he] at h1
        rw [show flattenEntry e.1 (Value.dict (p0 :: ps0)) =
          (flattenPairs (p0 :: ps0)).map fun kv => (e.1 ++ "." ++ kv.1, kv.2) from rfl] at h1
        obtain ⟨kv0, hkv0, hmap⟩ := List.mem_map.mp h1
        have := hrec e (by simp) (p0 :: ps0) he kv0 hkv0
        rw [← hmap]
        exact this
      · rw [he] at h1
        have hkv : kv' = (e.1, e.2) := List.mem_singleton.mp h1
        subst hkv
        exact ⟨hjson e (by simp), hnd0⟩
    · exact ih (fun kv hkv => hjson kv (by simp [hkv]))
        (fun kv hkv => hrec kv (by simp [hkv])) kv' h1

theorem flattenPairs_props {v : Value} (hj : JsonVal v) :
    ∀ (d : List (String × Value)), v = .dict d →
      ∀ kv' ∈ flattenPairs d, JsonVal kv'.2 ∧
        ∀ (p : String × Value) (ps : List (String × Value)), kv'.2 ≠ .dict (p :: ps) := by
  induction hj with
  | dict d hmem hnd ih =>
    intro d' he
    have hdd : d' = d := (Value.dict.inj he).symm
    subst hdd
    exact flattenPairs_aux d' hmem fun kv hkv => ih kv hkv
  | none => intro d he; cases he
  | bool b => intro d he; cases he
  | int n => intro d he; cases he
  | float q => intro d he; cases he
  | str s => intro d he; cases he
  | list l h => intro d he; cases he

theorem flatten_props {d : List (String × Value)} (hj : JsonVal (.dict d)) :
    (∀ kv ∈ flatten d, JsonVal kv.2 ∧
      ∀ (p : String × Value) (ps : List (String × Value)), kv.2 ≠ .dict (p :: ps)) ∧
    ((flatten d).map Prod.fst).Nodup := by
  constructor
  · intro kv hkv
    rcases mem_fold_assign (flattenPairs d) [] hkv with h1 | h1
    · cases h1
    · exact flattenPairs_props hj d rfl kv h1
  · exact keys_fold_assign_nodup (flattenPairs d) [] (by simp)

theorem flatten_json {d : List (String × Value)} (hj : JsonVal (.dict d)) :
    JsonVal (.dict (flatten d)) :=
  JsonVal.dict _ (fun kv hkv => ((flatten_props hj).1 kv hkv).1) (flatten_props hj).2

theorem flatten_flat {d : List (String × Value)} (hj : JsonVal (.dict d)) :
    FlatDict (flatten d) :=
  fun kv hkv => ((flatten_props hj).1 kv hkv).2

theorem flattenPairs_flat_id {d : List (String × Value)} (hflat : FlatDict d) :
    flattenPairs d = d := by
  induction d with
  | nil => rfl
  | cons e t ih =>
    rw [show flattenPairs (e :: t) = flattenEntry e.1 e.2 ++ flattenPairs t from rfl]
    rw [ih fun kv hkv => hflat kv (by simp [hkv])]
    have he : flattenEntry e.1 e.2 = [(e.1, e.2)] := by
      match hv : e.2 with
      | .dict (p0 :: ps0) => exact absurd hv (hflat e (by simp) p0 ps0)
      | .none => rfl
      | .bool b => rfl
      | .int n => rfl
      | .float q => rfl
      | .str s => rfl
      | .list l0 => rfl
      | .dict [] => rfl
      | .datetime t0 => rfl
      | .uuid u => rfl
    rw [he]
    rfl

theorem flatten_flat_id {d : List (String × Value)} (hflat : FlatDict d)
    (hnd : (d.map Prod.fst).Nodup) : flatten d = d := by
  unfold flatten
  rw [flattenPairs_flat_id hflat, fold_assign_append d [] (fun kv _ => rfl) hnd]
  rfl

theorem bool_sub_managed : ∀ x ∈ bool_fields, x ∈ managed_fields := by decide

theorem float_sub_managed : ∀ x ∈ float_fields, x ∈ managed_fields := by decide

theorem ts_sub_managed : ∀ x ∈ ts_fields, x ∈ managed_fields := by decide

theorem dt_sub_managed : ∀ x ∈ dt_fields, x ∈ managed_fields := by decide

theorem uuid_sub_managed : ∀ x ∈ uuid_fields, x ∈ managed_fields := by decide

theorem legacy_sub_managed : ∀ x ∈ legacy_fields, x ∈ managed_fields := by decide

theorem defaults_table_keys (ctx : Ctx) :
    (defaults_table ctx).map Prod.fst = defaults_keys := rfl

theorem defaults_not_legacy : ∀ k ∈ defaults_keys, k ∉ legacy_fields := by decide

theorem isBool_shape {v : Value} (h : v.isBool = true) : ∃ b, v = .bool b := by
  cases v <;> simp_all [Value.isBool]

theorem isFloat_shape {v : Value} (h : v.isFloat = true) : ∃ q, v = .float q := by
  cases v <;> simp_all [Value.isFloat]

theorem store_val_ts {k : String} {t : ℚ}
    (hk : strEndsWith k "_timestamp" = true) (ht : 0 ≤ t) :
    store_val k (.datetime t) = .float t := by
  unfold store_val
  rw [show (strEndsWith k "_timestamp" && (Value.datetime t).isDatetime) = true
    from by rw [hk]; rfl]
  simp only [if_true]
  rw [if_neg (not_lt.mpr ht)]

theorem store_val_dt {k : String} {t : ℚ}
    (hk1 : strEndsWith k "_timestamp" = false) (hk2 : strEndsWith k "_datetime" = true) :
    store_val k (.datetime t) = .str (isoEncode t) := by
  unfold store_val
  rw [show (strEndsWith k "_timestamp" && (Value.datetime t).isDatetime) = false
    from by rw [hk1]; rfl]
  rw [show (strEndsWith k "_datetime" && (Value.datetime t).isDatetime) = true
    from by rw [hk2]; rfl]
  simp

theorem store_val_uuid {k c : String} : store_val k (.uuid c) = .str c := by
  unfold store_val
  rw [show (strEndsWith k "_timestamp" && (Value.uuid c).isDatetime) = false
    from by rw [show (Value.uuid c).isDatetime = false from rfl]; simp]
  rw [show (strEndsWith k "_datetime" && (Value.uuid c).isDatetime) = false
    from by rw [show (Value.uuid c).isDatetime = false from rfl]; simp]
  simp

theorem add_missing_isSome :
    ∀ (tbl : List (String × Value)) (r : Record) (k : String),
      k ∈ tbl.map Prod.fst → (lookup (add_missing r tbl) k).isSome = true := by
  intro tbl
  induction tbl with
  | nil => intro r k hk; simp at hk
  | cons hd t ih =>
    intro r k hk
    obtain ⟨k0, v0⟩ := hd
    by_cases he : k = k0
    · subst he
      unfold add_missing
      by_cases hs : (lookup r k).isSome
      · rw [if_pos hs]
        obtain ⟨v, hv⟩ := Option.isSome_iff_exists.mp hs
        rw [add_missing_present t r k v hv]
        rfl
      · rw [if_neg hs]
        have hv0 : lookup (r ++ [(k, v0)]) k = some v0 := by
          rw [lookup_append, Option.not_isSome_iff_eq_none.mp hs]
          simp [lookup]
        rw [add_missing_present t _ k v0 hv0]
        rfl
    · have hkt : k ∈ t.map Prod.fst := by
        simp only [List.map_cons, List.mem_cons] at hk
        exact hk.resolve_left he
      unfold add_missing
      by_cases hs : (lookup r k0).isSome
      · rw [if_pos hs]
        exact ih r k hkt
      · rw [if_neg hs]
        exact ih _ k hkt

theorem add_missing_all_present :
    ∀ (tbl : List (String × Value)) (r : Record),
      (∀ kv ∈ tbl, (lookup r kv.1).isSome = true) → add_missing r tbl = r := by
  intro tbl
  induction tbl with
  | nil => intro r _; rfl
  | cons hd t ih =>
    intro r h
    obtain ⟨k0, v0⟩ := hd
    unfold add_missing
    rw [if_pos (h (k0, v0) (by simp))]
    exact ih r fun kv hkv => h kv (by simp [hkv])

theorem lookup_out_present {ctx : Ctx} {ru : Record} {k : String} {v : Value}
    (hleg : k ∉ legacy_fields) (h : lookup ru k = some v) :
    lookup (clean (create_missing_index ctx ru)) k = some v := by
  rw [lookup_clean, if_neg hleg]
  exact add_missing_present _ _ _ _ h

theorem lookup_out_absent {ctx : Ctx} {ru : Record} {k : String}
    (hleg : k ∉ legacy_fields) (h : lookup ru k = Option.none) :
    lookup (clean (create_missing_index ctx ru)) k = lookup (defaults_table ctx) k := by
  rw [lookup_clean, if_neg hleg]
  exact add_missing_absent _ _ _ h

theorem defaults_unmanaged_json {ctx : Ctx} {k : String} {w : Value}
    (h : lookup (defaults_table ctx) k = some w) (hk : k ∉ managed_fields) :
    JsonVal w := by
  have hmem := lookup_mem h
  simp only [defaults_table, List.mem_cons, List.not_mem_nil, or_false] at hmem
  rcases hmem with h1|h1|h1|h1|h1|h1|h1|h1|h1|h1|h1|h1|h1|h1|h1|h1|h1|h1|h1|h1|h1|h1|h1|h1|h1 <;>
    (rw [Prod.mk.injEq] at h1
     obtain ⟨rfl, rfl⟩ := h1) <;>
    first
    | exact absurd (by decide) hk
    | constructor

theorem head1_frame {ctx : Ctx} {r0 r1 : Record}
    (hp : ping_step (rset r0 "name" (.str ctx.baseName)) = .ok r1)
    {k : String} (h1 : k ≠ "ping") (hn : k ≠ "name") :
    lookup r1 k = lookup r0 k := by
  rw [ping_step_frame hp k h1, lookup_rset, if_neg hn]

theorem head4_frame {ctx : Ctx} {r0 r1 : Record}
    (hp : ping_step (rset r0 "name" (.str ctx.baseName)) = .ok r1)
    {k : String} (h1 : k ≠ "ping") (h2 : k ≠ "raw_link")
    (h3 : k ≠ "custom_pyfunceble_config") (hn : k ≠ "name") :
    lookup (cpc_step2 (cpc_step (raw_link_step r1))) k = lookup r0 k := by
  rw [cpc_step2_frame _ k h3, cpc_step_frame _ k h3, raw_link_step_frame _ k h2,
    head1_frame hp h1 hn]

theorem head5_frame {ctx : Ctx} {r0 r1 r5 : Record}
    (hp : ping_step (rset r0 "name" (.str ctx.baseName)) = .ok r1)
    (h5 : foldStep coerce_bool bool_fields (cpc_step2 (cpc_step (raw_link_step r1))) = .ok r5)
    {k : String} (h1 : k ≠ "ping") (h2 : k ≠ "raw_link")
    (h3 : k ≠ "custom_pyfunceble_config") (h4 : k ∉ bool_fields) (hn : k ≠ "name") :
    lookup r5 k = lookup r0 k := by
  rw [foldStep_frame frame_coerce_bool bool_fields _ r5 h5 k h4, head4_frame hp h1 h2 h3 hn]

theorem head6_frame {ctx : Ctx} {r0 r1 r5 r6 : Record}
    (hp : ping_step (rset r0 "name" (.str ctx.baseName)) = .ok r1)
    (h5 : foldStep coerce_bool bool_fields (cpc_step2 (cpc_step (raw_link_step r1))) = .ok r5)
    (h6 : foldStep coerce_float float_fields r5 = .ok r6)
    {k : String} (h1 : k ≠ "ping") (h2 : k ≠ "raw_link")
    (h3 : k ≠ "custom_pyfunceble_config") (h4 : k ∉ bool_fields)
    (h5m : k ∉ float_fields) (hn : k ≠ "name") :
    lookup r6 k = lookup r0 k := by
  rw [foldStep_frame frame_coerce_float float_fields r5 r6 h6 k h5m,
    head5_frame hp h5 h1 h2 h3 h4 hn]

theorem head7_frame {ctx : Ctx} {r0 r1 r5 r6 r7 : Record}
    (hp : ping_step (rset r0 "name" (.str ctx.baseName)) = .ok r1)
    (h5 : foldStep coerce_bool bool_fields (cpc_step2 (cpc_step (raw_link_step r1))) = .ok r5)
    (h6 : foldStep coerce_float float_fields r5 = .ok r6)
    (h7 : foldStep coerce_ts ts_fields r6 = .ok r7)
    {k : String} (h1 : k ≠ "ping") (h2 : k ≠ "raw_link")
    (h3 : k ≠ "custom_pyfunceble_config") (h4 : k ∉ bool_fields)
    (h5m : k ∉ float_fields) (h6m : k ∉ ts_fields) (hn : k ≠ "name") :
    lookup r7 k = lookup r0 k := by
  rw [foldStep_frame frame_coerce_ts ts_fields r6 r7 h7 k h6m,
    head6_frame hp h5 h6 h1 h2 h3 h4 h5m hn]

theorem head8_frame {ctx : Ctx} {r0 r1 r5 r6 r7 r8 : Record}
    (hp : ping_step (rset r0 "name" (.str ctx.baseName)) = .ok r1)
    (h5 : foldStep coerce_bool bool_fields (cpc_step2 (cpc_step (raw_link_step r1))) = .ok r5)
    (h6 : foldStep coerce_float float_fields r5 = .ok r6)
    (h7 : foldStep coerce_ts ts_fields r6 = .ok r7)
    (h8 : foldStep coerce_dt dt_fields r7 = .ok r8)
    {k : String} (h1 : k ≠ "ping") (h2 : k ≠ "raw_link")
    (h3 : k ≠ "custom_pyfunceble_config") (h4 : k ∉ bool_fields)
    (h5m : k ∉ float_fields) (h6m : k ∉ ts_fields) (h7m : k ∉ dt_fields)
    (hn : k ≠ "name") :
    lookup r8 k = lookup r0 k := by
  rw [foldStep_frame frame_coerce_dt dt_fields r7 r8 h8 k h7m,
    head7_frame hp h5 h6 h7 h1 h2 h3 h4 h5m h6m hn]

theorem tail9_frame {ctx : Ctx} {r9 ru : Record}
    (hpcn : pcn_step (rset r9 "repo" (.str (ctx.owner ++ "/" ++ ctx.baseName))) = .ok ru)
    {k : String} (h9r : k ≠ "repo") (h10 : k ≠ "platform_container_name") :
    lookup ru k = lookup r9 k := by
  rw [pcn_step_frame hpcn k h10, lookup_rset, if_neg h9r]

theorem tail8_frame {ctx : Ctx} {r8 r9 ru : Record}
    (h9 : foldStep coerce_uuid uuid_fields r8 = .ok r9)
    (hpcn : pcn_step (rset r9 "repo" (.str (ctx.owner ++ "/" ++ ctx.baseName))) = .ok ru)
    {k : String} (h8m : k ∉ uuid_fields) (h9r : k ≠ "repo")
    (h10 : k ≠ "platform_container_name") :
    lookup ru k = lookup r8 k := by
  rw [tail9_frame hpcn h9r h10, foldStep_frame frame_coerce_uuid uuid_fields r8 r9 h9 k h8m]

theorem tail7_frame {ctx : Ctx} {r7 r8 r9 ru : Record}
    (h8 : foldStep coerce_dt dt_fields r7 = .ok r8)
    (h9 : foldStep coerce_uuid uuid_fields r8 = .ok r9)
    (hpcn : pcn_step (rset r9 "repo" (.str (ctx.owner ++ "/" ++ ctx.baseName))) = .ok ru)
    {k : String} (h7m : k ∉ dt_fields) (h8m : k ∉ uuid_fields) (h9r : k ≠ "repo")
    (h10 : k ≠ "platform_container_name") :
    lookup ru k = lookup r7 k := by
  rw [tail8_frame h9 hpcn h8m h9r h10,
    foldStep_frame frame_coerce_dt dt_fields r7 r8 h8 k h7m]

theorem tail6_frame {ctx : Ctx} {r6 r7 r8 r9 ru : Record}
    (h7 : foldStep coerce_ts ts_fields r6 = .ok r7)
    (h8 : foldStep coerce_dt dt_fields r7 = .ok r8)
    (h9 : foldStep coerce_uuid uuid_fields r8 = .ok r9)
    (hpcn : pcn_step (rset r9 "repo" (.str (ctx.owner ++ "/" ++ ctx.baseName))) = .ok ru)
    {k : String} (h6m : k ∉ ts_fields) (h7m : k ∉ dt_fields) (h8m : k ∉ uuid_fields)
    (h9r : k ≠ "repo") (h10 : k ≠ "platform_container_name") :
    lookup ru k = lookup r6 k := by
  rw [tail7_frame h8 h9 hpcn h7m h8m h9r h10,
    foldStep_frame frame_coerce_ts ts_fields r6 r7 h7 k h6m]

theorem tail5_frame {ctx : Ctx} {r5 r6 r7 r8 r9 ru : Record}
    (h6 : foldStep coerce_float float_fields r5 = .ok r6)
    (h7 : foldStep coerce_ts ts_fields r6 = .ok r7)
    (h8 : foldStep coerce_dt dt_fields r7 = .ok r8)
    (h9 : foldStep coerce_uuid uuid_fields r8 = .ok r9)
    (hpcn : pcn_step (rset r9 "repo" (.str (ctx.owner ++ "/" ++ ctx.baseName))) = .ok ru)
    {k : String} (h5m : k ∉ float_fields) (h6m : k ∉ ts_fields) (h7m : k ∉ dt_fields)
    (h8m : k ∉ uuid_fields) (h9r : k ≠ "repo") (h10 : k ≠ "platform_container_name") :
    lookup ru k = lookup r5 k := by
  rw [tail6_frame h7 h8 h9 hpcn h6m h7m h8m h9r h10,
    foldStep_frame frame_coerce_float float_fields r5 r6 h6 k h5m]

theorem tail4_frame {ctx : Ctx} {r4 r5 r6 r7 r8 r9 ru : Record}
    (h5 : foldStep coerce_bool bool_fields r4 = .ok r5)
    (h6 : foldStep coerce_float float_fields r5 = .ok r6)
    (h7 : foldStep coerce_ts ts_fields r6 = .ok r7)
    (h8 : foldStep coerce_dt dt_fields r7 = .ok r8)
    (h9 : foldStep coerce_uuid uuid_fields r8 = .ok r9)
    (hpcn : pcn_step (rset r9 "repo" (.str (ctx.owner ++ "/" ++ ctx.baseName))) = .ok ru)
    {k : String} (h4m : k ∉ bool_fields) (h5m : k ∉ float_fields) (h6m : k ∉ ts_fields)
    (h7m : k ∉ dt_fields) (h8m : k ∉ uuid_fields) (h9r : k ≠ "repo")
    (h10 : k ≠ "platform_container_name") :
    lookup ru k = lookup r4 k := by
  rw [tail5_frame h6 h7 h8 h9 hpcn h5m h6m h7m h8m h9r h10,
    foldStep_frame frame_coerce_bool bool_fields r4 r5 h5 k h4m]

theorem bool_fold_shape {r r' : Record} {f : String}
    (h : foldStep coerce_bool bool_fields r = .ok r') (hf : f ∈ bool_fields) :
    lookup r' f = Option.none ∨ ∃ b, lookup r' f = some (.bool b) := by
  obtain ⟨s, s', hs_eq, hop, hres⟩ :=
    foldStep_mem frame_coerce_bool bool_fields (by decide) f hf r r' h
  rcases coerce_bool_char hop with ⟨_, h2⟩ | ⟨v, h1, hb, h2⟩ | ⟨v, n, h1, hb, hn, h2⟩
  · exact Or.inl (by rw [hres, h2])
  · obtain ⟨b, hbv⟩ := isBool_shape hb
    exact Or.inr ⟨b, by rw [hres, h2, hbv]⟩
  · exact Or.inr ⟨n != 0, by rw [hres, h2]⟩

theorem bool_fold_keeps {r r' : Record} {f : String} {v : Value}
    (h : foldStep coerce_bool bool_fields r = .ok r')
    (hl : lookup r f = some v) (hb : v.isBool = true) :
    lookup r' f = some v := by
  by_cases hf : f ∈ bool_fields
  · obtain ⟨s, s', hs_eq, hop, hres⟩ :=
      foldStep_mem frame_coerce_bool bool_fields (by decide) f hf r r' h
    rw [hl] at hs_eq
    rcases coerce_bool_char hop with ⟨h1, _⟩ | ⟨w, h1, hwb, h2⟩ | ⟨w, n, h1, hwb, _, _⟩
    · rw [h1] at hs_eq; cases hs_eq
    · rw [h1] at hs_eq
      rw [hres, h2, Option.some.inj hs_eq]
    · rw [h1] at hs_eq
      rw [← Option.some.inj hs_eq] at hb
      rw [hb] at hwb
      cases hwb
  · rw [foldStep_frame frame_coerce_bool bool_fields r r' h f hf]
    exact hl

theorem float_fold_shape {r r' : Record} {f : String}
    (h : foldStep coerce_float float_fields r = .ok r') (hf : f ∈ float_fields) :
    lookup r' f = Option.none ∨ ∃ q, lookup r' f = some (.float q) := by
  obtain ⟨s, s', hs_eq, hop, hres⟩ :=
    foldStep_mem frame_coerce_float float_fields (by decide) f hf r r' h
  rcases coerce_float_char hop with ⟨_, h2⟩ | ⟨v, h1, hb, h2⟩ | ⟨v, q, h1, hb, hn, h2⟩
  · exact Or.inl (by rw [hres, h2])
  · obtain ⟨q, hqv⟩ := isFloat_shape hb
    exact Or.inr ⟨q, by rw [hres, h2, hqv]⟩
  · exact Or.inr ⟨q, by rw [hres, h2]⟩

theorem float_fold_keeps {r r' : Record} {f : String} {q : ℚ}
    (h : foldStep coerce_float float_fields r = .ok r')
    (hl : lookup r f = some (.float q)) :
    lookup r' f = some (.float q) := by
  by_cases hf : f ∈ float_fields
  · obtain ⟨s, s', hs_eq, hop, hres⟩ :=
      foldStep_mem frame_coerce_float float_fields (by decide) f hf r r' h
    rw [hl] at hs_eq
    rcases coerce_float_char hop with ⟨h1, _⟩ | ⟨w, h1, hwb, h2⟩ | ⟨w, q', h1, hwb, _, _⟩
    · rw [h1] at hs_eq; cases hs_eq
    · rw [h1] at hs_eq
      rw [hres, h2, Option.some.inj hs_eq]
    · rw [h1] at hs_eq
      rw [Option.some.inj hs_eq] at hwb
      exact absurd hwb (by simp [Value.isFloat])
  · rw [foldStep_frame frame_coerce_float float_fields r r' h f hf]
    exact hl

theorem float_fold_none {r r' : Record} {f : String}
    (h : foldStep coerce_float float_fields r = .ok r')
    (hl : lookup r f = Option.none) :
    lookup r' f = Option.none := by
  by_cases hf : f ∈ float_fields
  · obtain ⟨s, s', hs_eq, hop, hres⟩ :=
      foldStep_mem frame_coerce_float float_fields (by decide) f hf r r' h
    rw [hl] at hs_eq
    rcases coerce_float_char hop with ⟨h1, h2⟩ | ⟨w, h1, _, _⟩ | ⟨w, q', h1, _, _, _⟩
    · rw [hres, h2]
    · rw [h1] at hs_eq; cases hs_eq
    · rw [h1] at hs_eq; cases hs_eq
  · rw [foldStep_frame frame_coerce_float float_fields r r' h f hf]
    exact hl

theorem float_fold_sets {r r' : Record} {f : String} {v : Value} {q : ℚ}
    (h : foldStep coerce_float float_fields r = .ok r') (hf : f ∈ float_fields)
    (hl : lookup r f = some v) (hnf : v.isFloat = false) (hq : pyFloat v = .ok q) :
    lookup r' f = some (.float q) := by
  obtain ⟨s, s', hs_eq, hop, hres⟩ :=
    foldStep_mem frame_coerce_float float_fields (by decide) f hf r r' h
  rw [hl] at hs_eq
  rcases coerce_float_char hop with ⟨h1, _⟩ | ⟨w, h1, hwb, h2⟩ | ⟨w, q', h1, hwb, hq', h2⟩
  · rw [h1] at hs_eq; cases hs_eq
  · rw [h1] at hs_eq
    rw [← Option.some.inj hs_eq] at hnf
    rw [hnf] at hwb
    cases hwb
  · rw [h1] at hs_eq
    have hwv : w = v := Option.some.inj hs_eq
    subst hwv
    rw [hq] at hq'
    rw [hres, h2, Except.ok.inj hq']

theorem ts_fold_shape {r r' : Record} {f : String}
    (h : foldStep coerce_ts ts_fields r = .ok r') (hf : f ∈ ts_fields)
    (hnd : ∀ v, lookup r f = some v → v.isDatetime = false) :
    lookup r' f = Option.none ∨ ∃ t, 0 ≤ t ∧ lookup r' f = some (.datetime t) := by
  obtain ⟨s, s', hs_eq, hop, hres⟩ :=
    foldStep_mem frame_coerce_ts ts_fields (by decide) f hf r r' h
  rcases coerce_ts_char hop with ⟨_, h2⟩ | ⟨v, h1, hb, h2⟩ | ⟨v, t, h1, hb, hn, h2⟩
  · exact Or.inl (by rw [hres, h2])
  · rw [hs_eq] at h1
    rw [hnd v h1] at hb
    cases hb
  · refine Or.inr ⟨if t < 0 then 0 else t, ?_, by rw [hres, h2]⟩
    split
    · exact le_refl 0
    next hnlt => exact le_of_not_lt hnlt

theorem dt_fold_shape {r r' : Record} {f : String}
    (h : foldStep coerce_dt dt_fields r = .ok r') (hf : f ∈ dt_fields) :
    lookup r' f = Option.none ∨ ∃ t, lookup r' f = some (.datetime t) := by
  obtain ⟨s, s', hs_eq, hop, hres⟩ :=
    foldStep_mem frame_coerce_dt dt_fields (by decide) f hf r r' h
  rcases coerce_dt_char hop with ⟨_, h2⟩ | ⟨v, h1, hb, h2⟩ | ⟨sx, t, h1, htr, hdec, h2⟩ |
    ⟨sx, h1, htr, hdec, h2⟩
  · exact Or.inl (by rw [hres, h2])
  · exact Or.inr ⟨0, by rw [hres, h2]⟩
  · exact Or.inr ⟨t, by rw [hres, h2]⟩
  · exact Or.inr ⟨0, by rw [hres, h2]⟩

theorem dt_fold_sets {r r' : Record} {f : String} {s0 : String} {t : ℚ}
    (h : foldStep coerce_dt dt_fields r = .ok r') (hf : f ∈ dt_fields)
    (hl : lookup r f = some (.str s0)) (hts : truthy (.str s0) = true)
    (hdec : isoDecode s0 = some t) :
    lookup r' f = some (.datetime t) := by
  obtain ⟨s, s', hs_eq, hop, hres⟩ :=
    foldStep_mem frame_coerce_dt dt_fields (by decide) f hf r r' h
  rw [hl] at hs_eq
  rcases coerce_dt_char hop with ⟨h1, _⟩ | ⟨v, h1, hb, h2⟩ | ⟨sx, t', h1, htr, hdec', h2⟩ |
    ⟨sx, h1, htr, hdec', h2⟩
  · rw [h1] at hs_eq; cases hs_eq
  · rw [h1] at hs_eq
    rw [Option.some.inj hs_eq] at hb
    rw [show (truthy (Value.str s0) && !(Value.str s0).isDatetime) = true
      from by rw [hts]; rfl] at hb
    cases hb
  · rw [h1] at hs_eq
    have hsx : sx = s0 := Value.str.inj (Option.some.inj hs_eq)
    subst hsx
    rw [hdec] at hdec'
    rw [hres, h2, Option.some.inj hdec']
  · rw [h1] at hs_eq
    have hsx : sx = s0 := Value.str.inj (Option.some.inj hs_eq)
    subst hsx
    rw [hdec] at hdec'
    cases hdec'

theorem uuid_fold_shape {r r' : Record} {f : String}
    (h : foldStep coerce_uuid uuid_fields r = .ok r') (hf : f ∈ uuid_fields) :
    lookup r' f = Option.none ∨ lookup r' f = some .none ∨
      ∃ s0 c, uuidParse s0 = some c ∧ lookup r' f = some (.uuid c) := by
  obtain ⟨s, s', hs_eq, hop, hres⟩ :=
    foldStep_mem frame_coerce_uuid uuid_fields (by decide) f hf r r' h
  rcases coerce_uuid_char hop with ⟨_, h2⟩ | ⟨v, h1, hb, h2⟩ | ⟨sx, c, h1, htr, hp, h2⟩
  · exact Or.inl (by rw [hres, h2])
  · exact Or.inr (Or.inl (by rw [hres, h2]))
  · exact Or.inr (Or.inr ⟨sx, c, hp, by rw [hres, h2]⟩)

theorem uuid_fold_none {r r' : Record} {f : String}
    (h : foldStep coerce_uuid uuid_fields r = .ok r') (hf : f ∈ uuid_fields)
    (hl : lookup r f = some .none) :
    lookup r' f = some .none := by
  obtain ⟨s, s', hs_eq, hop, hres⟩ :=
    foldStep_mem frame_coerce_uuid uuid_fields (by decide) f hf r r' h
  rw [hl] at hs_eq
  rcases coerce_uuid_char hop with ⟨h1, _⟩ | ⟨v, h1, hb, h2⟩ | ⟨sx, c, h1, htr, hp, h2⟩
  · rw [h1] at hs_eq; cases hs_eq
  · rw [hres, h2]
  · rw [h1] at hs_eq; cases hs_eq

theorem uuid_fold_sets {r r' : Record} {f : String} {s0 c : String}
    (h : foldStep coerce_uuid uuid_fields r = .ok r') (hf : f ∈ uuid_fields)
    (hl : lookup r f = some (.str s0)) (hts : truthy (.str s0) = true)
    (hp : uuidParse s0 = some c) :
    lookup r' f = some (.uuid c) := by
  obtain ⟨s, s', hs_eq, hop, hres⟩ :=
    foldStep_mem frame_coerce_uuid uuid_fields (by decide) f hf r r' h
  rw [hl] at hs_eq
  rcases coerce_uuid_char hop with ⟨h1, _⟩ | ⟨v, h1, hb, h2⟩ | ⟨sx, c', h1, htr, hp', h2⟩
  · rw [h1] at hs_eq; cases hs_eq
  · rw [h1] at hs_eq
    rw [Option.some.inj hs_eq] at hb
    rw [show (truthy (Value.str s0) && !(Value.str s0).isUuid) = true
      from by rw [hts]; rfl] at hb
    cases hb
  · rw [h1] at hs_eq
    have hsx : sx = s0 := Value.str.inj (Option.some.inj hs_eq)
    subst hsx
    rw [hp] at hp'
    rw [hres, h2, Option.some.inj hp']

theorem mapE_ping_entry_shape : ∀ {items out : List Value},
    mapE ping_entry items = .ok out →
    ∃ l : List String, out = l.map Value.str ∧ ∀ s ∈ l, pyStartswith s "@" = true := by
  intro items
  induction items with
  | nil =>
    intro out h
    refine ⟨[], ?_, by simp⟩
    have : ([] : List Value) = out := Except.ok.inj h
    rw [← this]
    rfl
  | cons v t ih =>
    intro out h
    unfold mapE at h
    split at h
    next y hy =>
      split at h
      next ys hys =>
        obtain ⟨l, hl, hall⟩ := ih hys
        match v, hy with
        | .str s, hy =>
          have hyv : y = .str (if pyStartswith s "@" then s else "@" ++ s) :=
            (Except.ok.inj hy).symm
          refine ⟨(if pyStartswith s "@" then s else "@" ++ s) :: l, ?_, ?_⟩
          · rw [← Except.ok.inj h, hyv, hl]
            rfl
          · intro s' hs'
            rcases List.mem_cons.mp hs' with he | hm
            · subst he
              by_cases hsw : pyStartswith s "@" = true
              · rw [if_pos hsw]
                exact hsw
              · rw [if_neg hsw]
                exact startswith_at_append s
            · exact hall s' hm
      next e hys => exact absurd h (by simp)
    next e hy => exact absurd h (by simp)

theorem mapE_ping_entry_at {l : List String}
    (h : ∀ s ∈ l, pyStartswith s "@" = true) :
    mapE ping_entry (l.map Value.str) = .ok (l.map Value.str) := by
  induction l with
  | nil => rfl
  | cons s t ih =>
    have hs := h s (by simp)
    have hpe : ping_entry (.str s) = .ok (.str s) := by
      show Except.ok (Value.str (if pyStartswith s "@" = true then s else "@" ++ s)) =
        Except.ok (Value.str s)
      rw [hs, if_pos rfl]
    rw [List.map_cons]
    unfold mapE
    rw [hpe, ih fun s' hs' => h s' (by simp [hs'])]

theorem raw_link_step_shape {r : Record} {v' : Value}
    (hjr : ∀ v, lookup r "raw_link" = some v → JsonVal v)
    (h : lookup (raw_link_step r) "raw_link" = some v') :
    JsonVal v' ∧ ∀ s : String, v' = .str s → s.data.isEmpty = false := by
  unfold raw_link_step at h
  split at h
  next s hl =>
    split at h
    next he =>
      rw [lookup_rset, if_pos rfl] at h
      have hv : v' = .none := (Option.some.inj h).symm
      subst hv
      exact ⟨JsonVal.none, by intro s' hs'; cases hs'⟩
    next he =>
      rw [hl] at h
      have hv : v' = .str s := (Option.some.inj h).symm
      subst hv
      refine ⟨hjr _ hl, ?_⟩
      intro s' hs'
      have hss : s' = s := (Value.str.inj hs').symm
      subst hss
      simpa using he
  next hns =>
    refine ⟨hjr _ h, ?_⟩
    intro s hs
    subst hs
    exact absurd h (by intro hc; exact hns s hc)

theorem cpc_step_flat_keep {r : Record} {d : List (String × Value)}
    (hl : lookup r "custom_pyfunceble_config" = some (.dict d))
    (hnd : (d.map Prod.fst).Nodup) (hfd : FlatDict d) :
    lookup (cpc_step r) "custom_pyfunceble_config" = some (.dict d) := by
  unfold cpc_step
  rw [hl]
  show lookup (if truthy (.dict d) = true then
      rset r "custom_pyfunceble_config" (.dict (flatten d))
    else rset r "custom_pyfunceble_config" (.dict [])) "custom_pyfunceble_config" =
    some (.dict d)
  by_cases hd : d = []
  · subst hd
    rw [if_neg (by decide), lookup_rset, if_pos rfl]
  · have htr : truthy (.dict d) = true := by
      cases d with
      | nil => exact absurd rfl hd
      | cons x xs => rfl
    rw [if_pos htr, lookup_rset, if_pos rfl, flatten_flat_id hfd hnd]

theorem cpc_step2_dict {r : Record} {d : List (String × Value)}
    (hl : lookup r "custom_pyfunceble_config" = some (.dict d)) :
    lookup (cpc_step2 r) "custom_pyfunceble_config" = some (.dict d) := by
  rw [cpc_step2_keep ?h]
  · exact hl
  case h =>
    intro v hv
    rw [hl] at hv
    rw [← Option.some.inj hv]
    simp [Value.isDict]

theorem cpc_steps_shape {r : Record} {v' : Value}
    (hjr : ∀ v, lookup r "custom_pyfunceble_config" = some v → JsonVal v)
    (h : lookup (cpc_step2 (cpc_step r)) "custom_pyfunceble_config" = some v') :
    ∃ d, v' = .dict d ∧ JsonVal (.dict d) ∧ FlatDict d := by
  rcases cpc_step_char r with ⟨h1, h2⟩ | ⟨d, h1, htr, h2⟩ | ⟨v, h1, hcase, h2⟩
  · have hnone : lookup (cpc_step2 (cpc_step r)) "custom_pyfunceble_config" =
        Option.none := by
      unfold cpc_step2
      rw [h2]
      exact h2
    rw [hnone] at h
    cases h
  · rw [cpc_step2_dict h2] at h
    have hv : v' = .dict (flatten d) := (Option.some.inj h).symm
    subst hv
    have hjd : JsonVal (.dict d) := hjr _ h1
    exact ⟨flatten d, rfl, flatten_json hjd, flatten_flat hjd⟩
  · rw [cpc_step2_dict h2] at h
    have hv : v' = .dict [] := (Option.some.inj h).symm
    subst hv
    exact ⟨[], rfl, JsonVal.dict [] (by simp) (by simp), fun kv hkv => absurd hkv (by simp)⟩

theorem truthy_isoEncode (t : ℚ) : truthy (.str (isoEncode t)) = true := rfl

theorem truthy_of_uuidParse {s c : String} (h : uuidParse s = some c) :
    truthy (.str c) = true := by
  unfold uuidParse at h
  by_cases hcond : ((uuidHex s).length = 32 && (uuidHex s).all isLowerHex) = true
  · rw [if_pos hcond] at h
    have hc : c = uuidCanonical (uuidHex s) := (Option.some.inj h).symm
    subst hc
    show (!(uuidCanonical (uuidHex s)).data.isEmpty) = true
    unfold uuidCanonical
    cases hh : (uuidHex s).take 8 with
    | nil => rfl
    | cons a l => rfl
  · rw [if_neg hcond] at h
    cases h

theorem pyEq_toNum_float {v : Value} {q : ℚ} (h : toNum v = some q) :
    pyEq v (.float q) = true := by
  cases v <;> simp_all [toNum, pyEq]

theorem log_eq_val_uuid {k c : String} : log_eq_val k (.uuid c) (.uuid c) = true := by
  unfold log_eq_val
  split
  · show pyEq (Value.uuid c) (Value.uuid c) = true
    simp [pyEq]
  · show pyEq (Value.uuid c) (Value.uuid c) = true
    simp [pyEq]

theorem update_mk {ctx : Ctx} {r0 r1 r5 r6 r7 r8 r9 R : Record}
    (hc : check_list_name (rset r0 "name" (.str ctx.baseName)) = .ok ())
    (hp : ping_step (rset r0 "name" (.str ctx.baseName)) = .ok r1)
    (h5 : foldStep coerce_bool bool_fields (cpc_step2 (cpc_step (raw_link_step r1))) = .ok r5)
    (h6 : foldStep coerce_float float_fields r5 = .ok r6)
    (h7 : foldStep coerce_ts ts_fields r6 = .ok r7)
    (h8 : foldStep coerce_dt dt_fields r7 = .ok r8)
    (h9 : foldStep coerce_uuid uuid_fields r8 = .ok r9)
    (hp2 : pcn_step (rset r9 "repo" (.str (ctx.owner ++ "/" ++ ctx.baseName))) = .ok R) :
    update ctx r0 = .ok R := by
  unfold update
  simp only [hc, hp, h5, h6, h7, h8, h9, hp2]

theorem lookup_cons_eq (k : String) (v : Value) (t : Record) :
    lookup ((k, v) :: t) k = some v := by
  show (if k = k then some v else lookup t k) = some v
  rw [if_pos rfl]

theorem lookup_cons_ne {k k0 : String} (hk : k ≠ k0) (v : Value) (t : Record) :
    lookup ((k0, v) :: t) k = lookup t k := by
  show (if k = k0 then some v else lookup t k) = lookup t k
  rw [if_neg hk]

theorem dl_currently_under_test (ctx : Ctx) :
    lookup (defaults_table ctx) "currently_under_test" = some (.bool false) := by
  unfold defaults_table
  rw [lookup_cons_eq _ _ _]

theorem dl_custom_pyfunceble_config (ctx : Ctx) :
    lookup (defaults_table ctx) "custom_pyfunceble_config" = some (.dict []) := by
  unfold defaults_table
  rw [lookup_cons_ne (by decide) _ _,
    lookup_cons_eq _ _ _]

theorem dl_days_until_next_test (ctx : Ctx) :
    lookup (defaults_table ctx) "days_until_next_test" = some (.int 2) := by
  unfold defaults_table
  rw [lookup_cons_ne (by decide) _ _,
    lookup_cons_ne (by decide) _ _,
    lookup_cons_eq _ _ _]

theorem dl_finish_datetime (ctx : Ctx) :
    lookup (defaults_table ctx) "finish_datetime" = some (.datetime (ctx.now - fifteenDays)) := by
  unfold defaults_table
  rw [lookup_cons_ne (by decide) _ _,
    lookup_cons_ne (by decide) _ _,
    lookup_cons_ne (by decide) _ _,
    lookup_cons_eq _ _ _]

theorem dl_finish_timestamp (ctx : Ctx) :
    lookup (defaults_table ctx) "finish_timestamp" = some (.float (ctx.now - fifteenDays)) := by
  unfold defaults_table
  rw [lookup_cons_ne (by decide) _ _,
    lookup_cons_ne (by decide) _ _,
    lookup_cons_ne (by decide) _ _,
    lookup_cons_ne (by decide) _ _,
    lookup_cons_eq _ _ _]

theorem dl_last_download_datetime (ctx : Ctx) :
    lookup (defaults_table ctx) "last_download_datetime" = some (.datetime (ctx.now - fifteenDays)) := by
  unfold defaults_table
  rw [lookup_cons_ne (by decide) _ _,
    lookup_cons_ne (by decide) _ _,
    lookup_cons_ne (by decide) _ _,
    lookup_cons_ne (by decide) _ _,
    lookup_cons_ne (by decide) _ _,
    lookup_cons_eq _ _ _]

theorem dl_last_download_timestamp (ctx : Ctx) :
    lookup (defaults_table ctx) "last_download_timestamp" = some (.float (ctx.now - fifteenDays)) := by
  unfold defaults_table
  rw [lookup_cons_ne (by decide) _ _,
    lookup_cons_ne (by decide) _ _,
    lookup_cons_ne (by decide) _ _,
    lookup_cons_ne (by decide) _ _,
    lookup_cons_ne (by decide) _ _,
    lookup_cons_ne (by decide) _ _,
    lookup_cons_eq _ _ _]

theorem dl_latest_part_finish_timestamp (ctx : Ctx) :
    lookup (defaults_table ctx) "latest_part_finish_timestamp" = some (.float (ctx.now - fifteenDays)) := by
  unfold defaults_table
  rw [lookup_cons_ne (by decide) _ _,
    lookup_cons_ne (by decide) _ _,
    lookup_cons_ne (by decide) _ _,
    lookup_cons_ne (by decide) _ _,
    lookup_cons_ne (by decide) _ _,
    lookup_cons_ne (by decide) _ _,
    lookup_cons_ne (by decide) _ _,
    lookup_cons_eq _ _ _]

theorem dl_latest_part_start_timestamp (ctx : Ctx) :
    lookup (defaults_table ctx) "latest_part_start_timestamp" = some (.float (ctx.now - fifteenDays)) := by
  unfold defaults_table
  rw [lookup_cons_ne (by decide) _ _,
    lookup_cons_ne (by decide) _ _,
    lookup_cons_ne (by decide) _ _,
    lookup_cons_ne (by decide) _ _,
    lookup_cons_ne (by decide) _ _,
    lookup_cons_ne (by decide) _ _,
    lookup_cons_ne (by decide) _ _,
    lookup_cons_ne (by decide) _ _,
    lookup_cons_eq _ _ _]

theorem dl_latest_part_finish_datetime (ctx : Ctx) :
    lookup (defaults_table ctx) "latest_part_finish_datetime" = some (.datetime (ctx.now - fifteenDays)) := by
  unfold defaults_table
  rw [lookup_cons_ne (by decide) _ _,
    lookup_cons_ne (by decide) _ _,
    lookup_cons_ne (by decide) _ _,
    lookup_cons_ne (by decide) _ _,
    lookup_cons_ne (by decide) _ _,
    lookup_cons_ne (by decide) _ _,
    lookup_cons_ne (by decide) _ _,
    lookup_cons_ne (by decide) _ _,
    lookup_cons_ne (by decide) _ _,
    lookup_cons_eq _ _ _]

theorem dl_latest_part_start_datetime (ctx : Ctx) :
    lookup (defaults_table ctx) "latest_part_start_datetime" = some (.datetime (ctx.now - fifteenDays)) := by
  unfold defaults_table
  rw [lookup_cons_ne (by decide) _ _,
    lookup_cons_ne (by decide) _ _,
    lookup_cons_ne (by decide) _ _,
    lookup_cons_ne (by decide) _ _,
    lookup_cons_ne (by decide) _ _,
    lookup_cons_ne (by decide) _ _,
    lookup_cons_ne (by decide) _ _,
    lookup_cons_ne (by decide) _ _,
    lookup_cons_ne (by decide) _ _,
    lookup_cons_ne (by decide) _ _,
    lookup_cons_eq _ _ _]

theorem dl_ping (ctx : Ctx) :
    lookup (defaults_table ctx) "ping" = some (.list []) := by
  unfold defaults_table
  rw [lookup_cons_ne (by decide) _ _,
    lookup_cons_ne (by decide) _ _,
    lookup_cons_ne (by decide) _ _,
    lookup_cons_ne (by decide) _ _,
    lookup_cons_ne (by decide) _ _,
    lookup_cons_ne (by decide) _ _,
    lookup_cons_ne (by decide) _ _,
    lookup_cons_ne (by decide) _ _,
    lookup_cons_ne (by decide) _ _,
    lookup_cons_ne (by decide) _ _,
    lookup_cons_ne (by decide) _ _,
    lookup_cons_ne (by decide) _ _,
    lookup_cons_ne (by decide) _ _,
    lookup_cons_ne (by decide) _ _,
    lookup_cons_ne (by decide) _ _,
    lookup_cons_ne (by decide) _ _,
    lookup_cons_eq _ _ _]

theorem dl_ping_enabled (ctx : Ctx) :
    lookup (defaults_table ctx) "ping_enabled" = some (.bool false) := by
  unfold defaults_table
  rw [lookup_cons_ne (by decide) _ _,
    lookup_cons_ne (by decide) _ _,
    lookup_cons_ne (by decide) _ _,
    lookup_cons_ne (by decide) _ _,
    lookup_cons_ne (by decide) _ _,
    lookup_cons_ne (by decide) _ _,
    lookup_cons_ne (by decide) _ _,
    lookup_cons_ne (by decide) _ _,
    lookup_cons_ne (by decide) _ _,
    lookup_cons_ne (by decide) _ _,
    lookup_cons_ne (by decide) _ _,
    lookup_cons_ne (by decide) _ _,
    lookup_cons_ne (by decide) _ _,
    lookup_cons_ne (by decide) _ _,
    lookup_cons_ne (by decide) _ _,
    lookup_cons_ne (by decide) _ _,
    lookup_cons_ne (by decide) _ _,
    lookup_cons_eq _ _ _]

theorem dl_raw_link (ctx : Ctx) :
    lookup (defaults_table ctx) "raw_link" = some (.none) := by
  unfold defaults_table
  rw [lookup_cons_ne (by decide) _ _,
    lookup_cons_ne (by decide) _ _,
    lookup_cons_ne (by decide) _ _,
    lookup_cons_ne (by decide) _ _,
    lookup_cons_ne (by decide) _ _,
    lookup_cons_ne (by decide) _ _,
    lookup_cons_ne (by decide) _ _,
    lookup_cons_ne (by decide) _ _,
    lookup_cons_ne (by decide) _ _,
    lookup_cons_ne (by decide) _ _,
    lookup_cons_ne (by decide) _ _,
    lookup_cons_ne (by decide) _ _,
    lookup_cons_ne (by decide) _ _,
    lookup_cons_ne (by decide) _ _,
    lookup_cons_ne (by decide) _ _,
    lookup_cons_ne (by decide) _ _,
    lookup_cons_ne (by decide) _ _,
    lookup_cons_ne (by decide) _ _,
    lookup_cons_eq _ _ _]

theorem dl_start_datetime (ctx : Ctx) :
    lookup (defaults_table ctx) "start_datetime" = some (.datetime (ctx.now - fifteenDays)) := by
  unfold defaults_table
  rw [lookup_cons_ne (by decide) _ _,
    lookup_cons_ne (by decide) _ _,
    lookup_cons_ne (by decide) _ _,
    lookup_cons_ne (by decide) _ _,
    lookup_cons_ne (by decide) _ _,
    lookup_cons_ne (by decide) _ _,
    lookup_cons_ne (by decide) _ _,
    lookup_cons_ne (by decide) _ _,
    lookup_cons_ne (by decide) _ _,
    lookup_cons_ne (by decide) _ _,
    lookup_cons_ne (by decide) _ _,
    lookup_cons_ne (by decide) _ _,
    lookup_cons_ne (by decide) _ _,
    lookup_cons_ne (by decide) _ _,
    lookup_cons_ne (by decide) _ _,
    lookup_cons_ne (by decide) _ _,
    lookup_cons_ne (by decide) _ _,
    lookup_cons_ne (by decide) _ _,
    lookup_cons_ne (by decide) _ _,
    lookup_cons_eq _ _ _]

theorem dl_start_timestamp (ctx : Ctx) :
    lookup (defaults_table ctx) "start_timestamp" = some (.float (ctx.now - fifteenDays)) := by
  unfold defaults_table
  rw [lookup_cons_ne (by decide) _ _,
    lookup_cons_ne (by decide) _ _,
    lookup_cons_ne (by decide) _ _,
    lookup_cons_ne (by decide) _ _,
    lookup_cons_ne (by decide) _ _,
    lookup_cons_ne (by decide) _ _,
    lookup_cons_ne (by decide) _ _,
    lookup_cons_ne (by decide) _ _,
    lookup_cons_ne (by decide) _ _,
    lookup_cons_ne (by decide) _ _,
    lookup_cons_ne (by decide) _ _,
    lookup_cons_ne (by decide) _ _,
    lookup_cons_ne (by decide) _ _,
    lookup_cons_ne (by decide) _ _,
    lookup_cons_ne (by decide) _ _,
    lookup_cons_ne (by decide) _ _,
    lookup_cons_ne (by decide) _ _,
    lookup_cons_ne (by decide) _ _,
    lookup_cons_ne (by decide) _ _,
    lookup_cons_ne (by decide) _ _,
    lookup_cons_eq _ _ _]

theorem dl_platform_container_id (ctx : Ctx) :
    lookup (defaults_table ctx) "platform_container_id" = some (.none) := by
  unfold defaults_table
  rw [lookup_cons_ne (by decide) _ _,
    lookup_cons_ne (by decide) _ _,
    lookup_cons_ne (by decide) _ _,
    lookup_cons_ne (by decide) _ _,
    lookup_cons_ne (by decide) _ _,
    lookup_cons_ne (by decide) _ _,
    lookup_cons_ne (by decide) _ _,
    lookup_cons_ne (by decide) _ _,
    lookup_cons_ne (by decide) _ _,
    lookup_cons_ne (by decide) _ _,
    lookup_cons_ne (by decide) _ _,
    lookup_cons_ne (by decide) _ _,
    lookup_cons_ne (by decide) _ _,
    lookup_cons_ne (by decide) _ _,
    lookup_cons_ne (by decide) _ _,
    lookup_cons_ne (by decide) _ _,
    lookup_cons_ne (by decide) _ _,
    lookup_cons_ne (by decide) _ _,
    lookup_cons_ne (by decide) _ _,
    lookup_cons_ne (by decide) _ _,
    lookup_cons_ne (by decide) _ _,
    lookup_cons_ne (by decide) _ _,
    lookup_cons_eq _ _ _]

theorem dl_platform_remote_source_id (ctx : Ctx) :
    lookup (defaults_table ctx) "platform_remote_source_id" = some (.none) := by
  unfold defaults_table
  rw [lookup_cons_ne (by decide) _ _,
    lookup_cons_ne (by decide) _ _,
    lookup_cons_ne (by decide) _ _,
    lookup_cons_ne (by decide) _ _,
    lookup_cons_ne (by decide) _ _,
    lookup_cons_ne (by decide) _ _,
    lookup_cons_ne (by decide) _ _,
    lookup_cons_ne (by decide) _ _,
    lookup_cons_ne (by decide) _ _,
    lookup_cons_ne (by decide) _ _,
    lookup_cons_ne (by decide) _ _,
    lookup_cons_ne (by decide) _ _,
    lookup_cons_ne (by decide) _ _,
    lookup_cons_ne (by decide) _ _,
    lookup_cons_ne (by decide) _ _,
    lookup_cons_ne (by decide) _ _,
    lookup_cons_ne (by decide) _ _,
    lookup_cons_ne (by decide) _ _,
    lookup_cons_ne (by decide) _ _,
    lookup_cons_ne (by decide) _ _,
    lookup_cons_ne (by decide) _ _,
    lookup_cons_ne (by decide) _ _,
    lookup_cons_ne (by decide) _ _,
    lookup_cons_eq _ _ _]

theorem dl_fused (ctx : Ctx) :
    lookup (defaults_table ctx)
      "last_download_timestamplatest_part_finish_timestamp" = Option.none := by
  unfold defaults_table
  rw [lookup_cons_ne (by decide) _ _,
    lookup_cons_ne (by decide) _ _,
    lookup_cons_ne (by decide) _ _,
    lookup_cons_ne (by decide) _ _,
    lookup_cons_ne (by decide) _ _,
    lookup_cons_ne (by decide) _ _,
    lookup_cons_ne (by decide) _ _,
    lookup_cons_ne (by decide) _ _,
    lookup_cons_ne (by decide) _ _,
    lookup_cons_ne (by decide) _ _,
    lookup_cons_ne (by decide) _ _,
    lookup_cons_ne (by decide) _ _,
    lookup_cons_ne (by decide) _ _,
    lookup_cons_ne (by decide) _ _,
    lookup_cons_ne (by decide) _ _,
    lookup_cons_ne (by decide) _ _,
    lookup_cons_ne (by decide) _ _,
    lookup_cons_ne (by decide) _ _,
    lookup_cons_ne (by decide) _ _,
    lookup_cons_ne (by decide) _ _,
    lookup_cons_ne (by decide) _ _,
    lookup_cons_ne (by decide) _ _,
    lookup_cons_ne (by decide) _ _,
    lookup_cons_ne (by decide) _ _,
    lookup_cons_ne (by decide) _ _]
  rfl

set_option maxHeartbeats 2000000 in
theorem pipeline_normalized {ctx : Ctx} {j R : Record}
    (hj : ∀ kv ∈ j, JsonVal kv.2) (hnow : fifteenDays ≤ ctx.now)
    (h : pipeline ctx j = .ok R) : Normalized ctx R := by
  obtain ⟨ru, hu, hR⟩ := pipeline_un h
  obtain ⟨r1, r5, r6, r7, r8, r9, hc, hp, h5, h6, h7, h8, h9, hpcn⟩ := update_un hu
  have hjlook : ∀ k v, lookup j k = some v → JsonVal v := fun k v hl => hj _ (lookup_mem hl)
  obtain ⟨hname_u, hrepo_u, hpcn_u⟩ := update_char_named hu
  have hnow0 : (0:ℚ) ≤ ctx.now - fifteenDays := by linarith
  rw [hR]
  refine ⟨?_, ?_, ?_, ?_, ?_, ?_, ?_, ?_, ?_, ?_, ?_, ?_, ?_, ?_, ?_⟩
  · exact lookup_out_present (by decide) hname_u
  · exact lookup_out_present (by decide) hrepo_u
  · exact lookup_out_present (by decide) hpcn_u
  · rcases ping_step_char hp with ⟨hl1, hl2⟩ | ⟨v, items, out, hl1, hit, hout, hl2⟩
    · have hru : lookup ru "ping" = Option.none := by
        rw [tail4_frame h5 h6 h7 h8 h9 hpcn (by decide) (by decide) (by decide) (by decide)
            (by decide) (by decide) (by decide),
          cpc_step2_frame _ _ (by decide), cpc_step_frame _ _ (by decide),
          raw_link_step_frame _ _ (by decide)]
        exact hl2
      refine ⟨[], ?_, by simp⟩
      rw [lookup_out_absent (by decide) hru]
      exact dl_ping ctx
    · have hru : lookup ru "ping" = some (.list out) := by
        rw [tail4_frame h5 h6 h7 h8 h9 hpcn (by decide) (by decide) (by decide) (by decide)
            (by decide) (by decide) (by decide),
          cpc_step2_frame _ _ (by decide), cpc_step_frame _ _ (by decide),
          raw_link_step_frame _ _ (by decide)]
        exact hl2
      obtain ⟨l, hlout, hall⟩ := mapE_ping_entry_shape hout
      exact ⟨l, by rw [lookup_out_present (by decide) hru, hlout], hall⟩
  · have hjr1 : ∀ v, lookup r1 "raw_link" = some v → JsonVal v := by
      intro v hv
      rw [head1_frame hp (by decide) (by decide)] at hv
      exact hjlook _ _ hv
    cases hl2 : lookup (raw_link_step r1) "raw_link" with
    | none =>
      have hru : lookup ru "raw_link" = Option.none := by
        rw [tail4_frame h5 h6 h7 h8 h9 hpcn (by decide) (by decide) (by decide) (by decide)
            (by decide) (by decide) (by decide),
          cpc_step2_frame _ _ (by decide), cpc_step_frame _ _ (by decide)]
        exact hl2
      refine ⟨.none, ?_, JsonVal.none, by intro s hs; cases hs⟩
      rw [lookup_out_absent (by decide) hru]
      exact dl_raw_link ctx
    | some v' =>
      obtain ⟨hjv, hstr⟩ := raw_link_step_shape hjr1 hl2
      have hru : lookup ru "raw_link" = some v' := by
        rw [tail4_frame h5 h6 h7 h8 h9 hpcn (by decide) (by decide) (by decide) (by decide)
            (by decide) (by decide) (by decide),
          cpc_step2_frame _ _ (by decide), cpc_step_frame _ _ (by decide)]
        exact hl2
      exact ⟨v', lookup_out_present (by decide) hru, hjv, hstr⟩
  · have hjr2 : ∀ v, lookup (raw_link_step r1) "custom_pyfunceble_config" = some v →
        JsonVal v := by
      intro v hv
      rw [raw_link_step_frame _ _ (by decide), head1_frame hp (by decide) (by decide)] at hv
      exact hjlook _ _ hv
    cases hl4 : lookup (cpc_step2 (cpc_step (raw_link_step r1)))
        "custom_pyfunceble_config" with
    | none =>
      have hru : lookup ru "custom_pyfunceble_config" = Option.none := by
        rw [tail4_frame h5 h6 h7 h8 h9 hpcn (by decide) (by decide) (by decide) (by decide)
            (by decide) (by decide) (by decide)]
        exact hl4
      refine ⟨[], ?_, JsonVal.dict [] (by simp) (by simp),
        fun kv hkv => absurd hkv (by simp)⟩
      rw [lookup_out_absent (by decide) hru]
      exact dl_custom_pyfunceble_config ctx
    | some v' =>
      obtain ⟨d, hvd, hjd, hfd⟩ := cpc_steps_shape hjr2 hl4
      subst hvd
      have hru : lookup ru "custom_pyfunceble_config" = some (.dict d) := by
        rw [tail4_frame h5 h6 h7 h8 h9 hpcn (by decide) (by decide) (by decide) (by decide)
            (by decide) (by decide) (by decide)]
        exact hl4
      exact ⟨d, lookup_out_present (by decide) hru, hjd, hfd⟩
  · intro f hf
    rcases (show f = "currently_under_test" ∨ f = "ping_enabled" from by
      simpa [bool_fields] using hf) with rfl | rfl
    · rcases bool_fold_shape h5
          (show "currently_under_test" ∈ bool_fields by decide) with hn | ⟨b, hb⟩
      · refine ⟨false, ?_⟩
        have hru : lookup ru "currently_under_test" = Option.none := by
          rw [tail5_frame h6 h7 h8 h9 hpcn (by decide) (by decide) (by decide) (by decide)
            (by decide) (by decide)]
          exact hn
        rw [lookup_out_absent (by decide) hru]
        exact dl_currently_under_test ctx
      · refine ⟨b, ?_⟩
        have hru : lookup ru "currently_under_test" = some (.bool b) := by
          rw [tail5_frame h6 h7 h8 h9 hpcn (by decide) (by decide) (by decide) (by decide)
            (by decide) (by decide)]
          exact hb
        exact lookup_out_present (by decide) hru
    · rcases bool_fold_shape h5
          (show "ping_enabled" ∈ bool_fields by decide) with hn | ⟨b, hb⟩
      · refine ⟨false, ?_⟩
        have hru : lookup ru "ping_enabled" = Option.none := by
          rw [tail5_frame h6 h7 h8 h9 hpcn (by decide) (by decide) (by decide) (by decide)
            (by decide) (by decide)]
          exact hn
        rw [lookup_out_absent (by decide) hru]
        exact dl_ping_enabled ctx
      · refine ⟨b, ?_⟩
        have hru : lookup ru "ping_enabled" = some (.bool b) := by
          rw [tail5_frame h6 h7 h8 h9 hpcn (by decide) (by decide) (by decide) (by decide)
            (by decide) (by decide)]
          exact hb
        exact lookup_out_present (by decide) hru
  · rcases float_fold_shape h6 (show "days_until_next_test" ∈ float_fields by decide) with
      hn | ⟨q, hq⟩
    · refine ⟨.int 2, ?_, Or.inl ⟨2, rfl⟩⟩
      have hru : lookup ru "days_until_next_test" = Option.none := by
        rw [tail6_frame h7 h8 h9 hpcn (by decide) (by decide) (by decide) (by decide)
          (by decide)]
        exact hn
      rw [lookup_out_absent (by decide) hru]
      exact dl_days_until_next_test ctx
    · refine ⟨.float q, ?_, Or.inr ⟨q, rfl⟩⟩
      have hru : lookup ru "days_until_next_test" = some (.float q) := by
        rw [tail6_frame h7 h8 h9 hpcn (by decide) (by decide) (by decide) (by decide)
          (by decide)]
        exact hq
      exact lookup_out_present (by decide) hru
  · intro v hv
    rcases float_fold_shape h6
      (show "last_download_timestamplatest_part_finish_timestamp" ∈ float_fields
        by decide) with hn | ⟨q, hq⟩
    · have hru : lookup ru "last_download_timestamplatest_part_finish_timestamp" =
          Option.none := by
        rw [tail6_frame h7 h8 h9 hpcn (by decide) (by decide) (by decide) (by decide)
          (by decide)]
        exact hn
      rw [lookup_out_absent (by decide) hru] at hv
      rw [dl_fused ctx] at hv
      cases hv
    · have hru : lookup ru "last_download_timestamplatest_part_finish_timestamp" =
          some (.float q) := by
        rw [tail6_frame h7 h8 h9 hpcn (by decide) (by decide) (by decide) (by decide)
          (by decide)]
        exact hq
      rw [lookup_out_present (by decide) hru] at hv
      exact ⟨q, (Option.some.inj hv).symm⟩
  · have hnd : ∀ f' ∈ ts_fields, ∀ v, lookup r6 f' = some v → v.isDatetime = false := by
      intro f' hf' v hv
      by_cases hff : f' ∈ float_fields
      · rcases float_fold_shape h6 hff with hn | ⟨q, hq⟩
        · rw [hn] at hv
          cases hv
        · rw [hq] at hv
          rw [← Option.some.inj hv]
          rfl
      · have hcs := (show ∀ x ∈ ts_fields, x ≠ "ping" ∧ x ≠ "raw_link" ∧
            x ≠ "custom_pyfunceble_config" ∧ x ∉ bool_fields ∧ x ≠ "name" from by decide)
          f' hf'
        rw [head6_frame hp h5 h6 hcs.1 hcs.2.1 hcs.2.2.1 hcs.2.2.2.1 hff hcs.2.2.2.2] at hv
        exact json_not_datetime_val (hjlook _ _ hv)
    have htbl : ∀ f' ∈ ts_fields,
        lookup (defaults_table ctx) f' = some (.float (ctx.now - fifteenDays)) := by
      intro f' hf'
      rcases (show f' = "finish_timestamp" ∨ f' = "last_download_timestamp" ∨
          f' = "latest_part_finish_timestamp" ∨ f' = "latest_part_start_timestamp" ∨
          f' = "start_timestamp" from by simpa [ts_fields] using hf') with
        rfl | rfl | rfl | rfl | rfl
      · exact dl_finish_timestamp ctx
      · exact dl_last_download_timestamp ctx
      · exact dl_latest_part_finish_timestamp ctx
      · exact dl_latest_part_start_timestamp ctx
      · exact dl_start_timestamp ctx
    intro f hf
    obtain ⟨c1, c2, c3, c4, c5⟩ := (show ∀ x ∈ ts_fields, x ∉ dt_fields ∧
        x ∉ uuid_fields ∧ x ≠ "repo" ∧ x ≠ "platform_container_name" ∧
        x ∉ legacy_fields from by decide) f hf
    rcases ts_fold_shape h7 hf (hnd f hf) with hn | ⟨t, ht0, htv⟩
    · refine ⟨ctx.now - fifteenDays, hnow0, Or.inr ?_⟩
      have hru : lookup ru f = Option.none := by
        rw [tail7_frame h8 h9 hpcn c1 c2 c3 c4]
        exact hn
      rw [lookup_out_absent c5 hru]
      exact htbl f hf
    · refine ⟨t, ht0, Or.inl ?_⟩
      have hru : lookup ru f = some (.datetime t) := by
        rw [tail7_frame h8 h9 hpcn c1 c2 c3 c4]
        exact htv
      exact lookup_out_present c5 hru
  · have htbld : ∀ f' ∈ dt_fields,
        lookup (defaults_table ctx) f' = some (.datetime (ctx.now - fifteenDays)) := by
      intro f' hf'
      rcases (show f' = "finish_datetime" ∨ f' = "last_download_datetime" ∨
          f' = "latest_part_finish_datetime" ∨ f' = "latest_part_start_datetime" ∨
          f' = "start_datetime" from by simpa [dt_fields] using hf') with
        rfl | rfl | rfl | rfl | rfl
      · exact dl_finish_datetime ctx
      · exact dl_last_download_datetime ctx
      · exact dl_latest_part_finish_datetime ctx
      · exact dl_latest_part_start_datetime ctx
      · exact dl_start_datetime ctx
    intro f hf
    obtain ⟨c1, c2, c3, c4⟩ := (show ∀ x ∈ dt_fields, x ∉ uuid_fields ∧ x ≠ "repo" ∧
        x ≠ "platform_container_name" ∧ x ∉ legacy_fields from by decide) f hf
    rcases dt_fold_shape h8 hf with hn | ⟨t, htv⟩
    · refine ⟨ctx.now - fifteenDays, ?_⟩
      have hru : lookup ru f = Option.none := by
        rw [tail8_frame h9 hpcn c1 c2 c3]
        exact hn
      rw [lookup_out_absent c4 hru]
      exact htbld f hf
    · refine ⟨t, ?_⟩
      have hru : lookup ru f = some (.datetime t) := by
        rw [tail8_frame h9 hpcn c1 c2 c3]
        exact htv
      exact lookup_out_present c4 hru
  · have htblu : ∀ f' ∈ uuid_fields, lookup (defaults_table ctx) f' = some .none := by
      intro f' hf'
      rcases (show f' = "platform_container_id" ∨ f' = "platform_remote_source_id" from by
        simpa [uuid_fields] using hf') with rfl | rfl
      · exact dl_platform_container_id ctx
      · exact dl_platform_remote_source_id ctx
    intro f hf
    obtain ⟨c1, c2, c3⟩ := (show ∀ x ∈ uuid_fields, x ≠ "repo" ∧
        x ≠ "platform_container_name" ∧ x ∉ legacy_fields from by decide) f hf
    rcases uuid_fold_shape h9 hf with hn | hvn | ⟨s0, cc, hpu, hv⟩
    · refine Or.inl ?_
      have hru : lookup ru f = Option.none := by
        rw [tail9_frame hpcn c1 c2]
        exact hn
      rw [lookup_out_absent c3 hru]
      exact htblu f hf
    · refine Or.inl ?_
      have hru : lookup ru f = some .none := by
        rw [tail9_frame hpcn c1 c2]
        exact hvn
      exact lookup_out_present c3 hru
    · refine Or.inr ⟨cc, ?_, uuidParse_canonical hpu⟩
      have hru : lookup ru f = some (.uuid cc) := by
        rw [tail9_frame hpcn c1 c2]
        exact hv
      exact lookup_out_present c3 hru
  · intro f hf
    rw [lookup_clean, if_pos hf]
  · intro k hk
    rw [lookup_clean, if_neg (defaults_not_legacy k hk)]
    exact add_missing_isSome (defaults_table ctx) ru k (by rw [defaults_table_keys]; exact hk)
  · intro k hk v hv
    have hko : k ≠ "name" := fun he => hk (by rw [he]; decide)
    have h1 : k ≠ "ping" := fun he => hk (by rw [he]; decide)
    have h2 : k ≠ "custom_pyfunceble_config" := fun he => hk (by rw [he]; decide)
    have h3 : k ≠ "raw_link" := fun he => hk (by rw [he]; decide)
    have h4 : k ∉ bool_fields := fun hm => hk (bool_sub_managed k hm)
    have h5f : k ∉ float_fields := fun hm => hk (float_sub_managed k hm)
    have h6f : k ∉ ts_fields := fun hm => hk (ts_sub_managed k hm)
    have h7f : k ∉ dt_fields := fun hm => hk (dt_sub_managed k hm)
    have h8f : k ∉ uuid_fields := fun hm => hk (uuid_sub_managed k hm)
    have h9r : k ≠ "repo" := fun he => hk (by rw [he]; decide)
    have h10 : k ≠ "platform_container_name" := fun he => hk (by rw [he]; decide)
    have hleg : k ∉ legacy_fields := fun hm => hk (legacy_sub_managed k hm)
    have hru : lookup ru k = lookup (rset j "name" (.str ctx.baseName)) k :=
      update_frame hu k h1 h2 h3 h4 h5f h6f h7f h8f h9r h10
    rw [lookup_rset, if_neg hko] at hru
    cases hjk : lookup j k with
    | none =>
      have hrn : lookup ru k = Option.none := by rw [hru]; exact hjk
      rw [lookup_out_absent hleg hrn] at hv
      exact defaults_unmanaged_json hv hk
    | some w =>
      have hrs : lookup ru k = some w := by rw [hru]; exact hjk
      rw [lookup_out_present hleg hrs] at hv
      rw [← Option.some.inj hv]
      exact hjlook _ _ hjk

theorem lookup_store_json {R : Record} {k : String} {v : Value}
    (h : lookup R k = some v) (hj : JsonVal v) : lookup (store R) k = some v := by
  rw [lookup_store, h, Option.map_some', store_val_json hj]

theorem lookup_store_none {R : Record} {k : String}
    (h : lookup R k = Option.none) : lookup (store R) k = Option.none := by
  rw [lookup_store, h]
  rfl

theorem lookup_store_ts {R : Record} {k : String} {t : ℚ}
    (hk : strEndsWith k "_timestamp" = true) (ht : 0 ≤ t)
    (h : lookup R k = some (.datetime t)) : lookup (store R) k = some (.float t) := by
  rw [lookup_store, h, Option.map_some', store_val_ts hk ht]

theorem lookup_store_dt {R : Record} {k : String} {t : ℚ}
    (hk1 : strEndsWith k "_timestamp" = false) (hk2 : strEndsWith k "_datetime" = true)
    (h : lookup R k = some (.datetime t)) :
    lookup (store R) k = some (.str (isoEncode t)) := by
  rw [lookup_store, h, Option.map_some', store_val_dt hk1 hk2]

theorem lookup_store_uuid {R : Record} {k c : String}
    (h : lookup R k = some (.uuid c)) : lookup (store R) k = some (.str c) := by
  rw [lookup_store, h, Option.map_some', store_val_uuid]

theorem ping_step_eval {r : Record} {v : Value} {items out : List Value}
    (hl : lookup r "ping" = some v) (hit : pyIter v = .ok items)
    (hout : mapE ping_entry items = .ok out) :
    ping_step r = .ok (rset r "ping" (.list out)) := by
  unfold ping_step
  rw [hl]
  show (match pyIter v with
    | .ok items =>
      (match mapE ping_entry items with
       | .ok out => Except.ok (rset r "ping" (Value.list out))
       | .error e => Except.error e)
    | .error e => Except.error e) = Except.ok (rset r "ping" (Value.list out))
  rw [hit]
  show (match mapE ping_entry items with
    | .ok out => Except.ok (rset r "ping" (Value.list out))
    | .error e => Except.error e) = Except.ok (rset r "ping" (Value.list out))
  rw [hout]

set_option maxHeartbeats 2000000 in
theorem normalized_roundtrip {ctx ctx2 : Ctx} {R : Record} (hN : Normalized ctx R)
    (ho : ctx2.owner = ctx.owner) (hb : ctx2.baseName = ctx.baseName) :
    ∃ R', pipeline ctx2 (store R) = .ok R' ∧
      ∀ k, logEqAt k (lookup R k) (lookup R' k) = true := by
  obtain ⟨hname, hrepo, hpcn, hping, hraw, hcpc, hbool, hdays, hfused, hts, hdt,
    huuid, hlegacy, hkeys, hothers⟩ := hN
  obtain ⟨l, hpingR, hl_at⟩ := hping
  obtain ⟨vr, hrawR, hjvr, hvrstr⟩ := hraw
  obtain ⟨dc, hcpcR, hjdc, hfdc⟩ := hcpc
  obtain ⟨b1, hcutR⟩ := hbool "currently_under_test" (by decide)
  obtain ⟨b2, hpeR⟩ := hbool "ping_enabled" (by decide)
  obtain ⟨vd, hdaysR, hdaysC⟩ := hdays
  obtain ⟨t1, ht1_0, ht1C⟩ := hts "finish_timestamp" (by decide)
  obtain ⟨t2, ht2_0, ht2C⟩ := hts "last_download_timestamp" (by decide)
  obtain ⟨t3, ht3_0, ht3C⟩ := hts "latest_part_finish_timestamp" (by decide)
  obtain ⟨t4, ht4_0, ht4C⟩ := hts "latest_part_start_timestamp" (by decide)
  obtain ⟨t5, ht5_0, ht5C⟩ := hts "start_timestamp" (by decide)
  obtain ⟨u1, hdt1R⟩ := hdt "finish_datetime" (by decide)
  obtain ⟨u2, hdt2R⟩ := hdt "last_download_datetime" (by decide)
  obtain ⟨u3, hdt3R⟩ := hdt "latest_part_finish_datetime" (by decide)
  obtain ⟨u4, hdt4R⟩ := hdt "latest_part_start_datetime" (by decide)
  obtain ⟨u5, hdt5R⟩ := hdt "start_datetime" (by decide)
  -- the record as serialized, `"name"` overwritten by the fresh run
  have hck : check_list_name (rset (store R) "name" (.str ctx2.baseName)) = .ok () := by
    apply check_list_name_succ
    intro v hv
    rw [lookup_rset, if_neg (by decide),
      lookup_store_none (hlegacy "list_name" (by decide))] at hv
    cases hv
  have hS1ping : lookup (rset (store R) "name" (.str ctx2.baseName)) "ping" =
      some (.list (l.map Value.str)) := by
    rw [lookup_rset, if_neg (by decide)]
    exact lookup_store_json hpingR (json_str_list l)
  obtain ⟨r1, hping1⟩ : ∃ r1,
      ping_step (rset (store R) "name" (.str ctx2.baseName)) = .ok r1 := by
    apply ping_step_succ
    intro v hv
    rw [hS1ping] at hv
    rw [← Option.some.inj hv]
    exact ⟨l.map Value.str, l.map Value.str, rfl, mapE_ping_entry_at hl_at⟩
  have hr1ping : lookup r1 "ping" = some (.list (l.map Value.str)) := by
    rcases ping_step_char hping1 with ⟨hn, _⟩ | ⟨v, items, out, hl1, hit, hout, hl2⟩
    · rw [hS1ping] at hn
      cases hn
    · rw [hS1ping] at hl1
      have hv : v = .list (l.map Value.str) := (Option.some.inj hl1).symm
      subst hv
      have hitems : l.map Value.str = items := Except.ok.inj hit
      rw [← hitems] at hout
      rw [mapE_ping_entry_at hl_at] at hout
      rw [hl2, ← Except.ok.inj hout]
  have hr1raw : lookup r1 "raw_link" = some vr := by
    rw [head1_frame hping1 (by decide) (by decide)]
    exact lookup_store_json hrawR hjvr
  have hr2raw : lookup (raw_link_step r1) "raw_link" = some vr := by
    rw [raw_link_step_keep ?keep]
    · exact hr1raw
    case keep =>
      intro s hs
      rw [hr1raw] at hs
      exact hvrstr s (Option.some.inj hs)
  have hr4raw : lookup (cpc_step2 (cpc_step (raw_link_step r1))) "raw_link" = some vr := by
    rw [cpc_step2_frame _ _ (by decide), cpc_step_frame _ _ (by decide)]
    exact hr2raw
  have hndc : (dc.map Prod.fst).Nodup := by
    cases hjdc with
    | dict d hmem hnd => exact hnd
  have hr2cpc : lookup (raw_link_step r1) "custom_pyfunceble_config" =
      some (.dict dc) := by
    rw [raw_link_step_frame _ _ (by decide), head1_frame hping1 (by decide) (by decide)]
    exact lookup_store_json hcpcR hjdc
  have hr4cpc : lookup (cpc_step2 (cpc_step (raw_link_step r1)))
      "custom_pyfunceble_config" = some (.dict dc) :=
    cpc_step2_dict (cpc_step_flat_keep hr2cpc hndc hfdc)
  have hr4cut : lookup (cpc_step2 (cpc_step (raw_link_step r1))) "currently_under_test" =
      some (.bool b1) := by
    rw [head4_frame hping1 (by decide) (by decide) (by decide) (by decide)]
    exact lookup_store_json hcutR (JsonVal.bool b1)
  have hr4pe : lookup (cpc_step2 (cpc_step (raw_link_step r1))) "ping_enabled" =
      some (.bool b2) := by
    rw [head4_frame hping1 (by decide) (by decide) (by decide) (by decide)]
    exact lookup_store_json hpeR (JsonVal.bool b2)
  obtain ⟨r5, hr5⟩ : ∃ r5, foldStep coerce_bool bool_fields
      (cpc_step2 (cpc_step (raw_link_step r1))) = .ok r5 := by
    apply foldStep_succ frame_coerce_bool (fun k ov => ∀ v, ov = some v → v.isBool = true)
      (fun s k hP => coerce_bool_succ hP) bool_fields (by decide)
    intro k hk
    rcases (show k = "currently_under_test" ∨ k = "ping_enabled" from by
      simpa [bool_fields] using hk) with rfl | rfl
    · intro v hv
      rw [hr4cut] at hv
      rw [← Option.some.inj hv]
      rfl
    · intro v hv
      rw [hr4pe] at hv
      rw [← Option.some.inj hv]
      rfl
  have hr5cut : lookup r5 "currently_under_test" = some (.bool b1) :=
    bool_fold_keeps hr5 hr4cut rfl
  have hr5pe : lookup r5 "ping_enabled" = some (.bool b2) :=
    bool_fold_keeps hr5 hr4pe rfl
  have hjvd : JsonVal vd := by
    rcases hdaysC with ⟨n, rfl⟩ | ⟨q, rfl⟩
    · exact JsonVal.int n
    · exact JsonVal.float q
  have hr5days : lookup r5 "days_until_next_test" = some vd := by
    rw [head5_frame hping1 hr5 (by decide) (by decide) (by decide) (by decide) (by decide)]
    exact lookup_store_json hdaysR hjvd
  have hStsGen : ∀ f ∈ ts_fields, ∀ t : ℚ, 0 ≤ t →
      (lookup R f = some (.datetime t) ∨ lookup R f = some (.float t)) →
      lookup (store R) f = some (.float t) := by
    intro f hf t ht0 hC
    have hk : strEndsWith f "_timestamp" = true :=
      (show ∀ x ∈ ts_fields, strEndsWith x "_timestamp" = true from by decide) f hf
    rcases hC with hdtv | hflv
    · exact lookup_store_ts hk ht0 hdtv
    · exact lookup_store_json hflv (JsonVal.float t)
  have hr5ofS : ∀ f ∈ ts_fields, lookup r5 f = lookup (store R) f := by
    intro f hf
    obtain ⟨c1, c2, c3, c4, c5⟩ := (show ∀ x ∈ ts_fields, x ≠ "ping" ∧ x ≠ "raw_link" ∧
      x ≠ "custom_pyfunceble_config" ∧ x ∉ bool_fields ∧ x ≠ "name" from by decide) f hf
    exact head5_frame hping1 hr5 c1 c2 c3 c4 c5
  have hr5ts : ∀ f ∈ ts_fields, ∀ t : ℚ, 0 ≤ t →
      (lookup R f = some (.datetime t) ∨ lookup R f = some (.float t)) →
      lookup r5 f = some (.float t) := by
    intro f hf t ht0 hC
    rw [hr5ofS f hf]
    exact hStsGen f hf t ht0 hC
  have hr5fused : lookup r5 "last_download_timestamplatest_part_finish_timestamp" =
      (lookup R "last_download_timestamplatest_part_finish_timestamp").map
        (store_val "last_download_timestamplatest_part_finish_timestamp") := by
    rw [head5_frame hping1 hr5 (by decide) (by decide) (by decide) (by decide) (by decide)]
    exact lookup_store R _
  obtain ⟨r6, hr6⟩ : ∃ r6, foldStep coerce_float float_fields r5 = .ok r6 := by
    apply foldStep_succ frame_coerce_float
      (fun k ov => ∀ v, ov = some v → v.isFloat = true ∨ (pyFloat v).isOk = true)
      (fun s k hP => coerce_float_succ hP) float_fields (by decide)
    intro k hk
    rcases (show k = "days_until_next_test" ∨ k = "finish_timestamp" ∨
        k = "last_download_timestamplatest_part_finish_timestamp" ∨
        k = "latest_part_start_timestamp" ∨ k = "start_timestamp" from by
      simpa [float_fields] using hk) with rfl | rfl | rfl | rfl | rfl
    · intro v hv
      rw [hr5days] at hv
      rw [← Option.some.inj hv]
      rcases hdaysC with ⟨n, rfl⟩ | ⟨q, rfl⟩
      · exact Or.inr rfl
      · exact Or.inl rfl
    · intro v hv
      rw [hr5ts _ (by decide) t1 ht1_0 ht1C] at hv
      rw [← Option.some.inj hv]
      exact Or.inl rfl
    · intro v hv
      rw [hr5fused] at hv
      cases hRf : lookup R "last_download_timestamplatest_part_finish_timestamp" with
      | none =>
        rw [hRf] at hv
        cases hv
      | some w =>
        obtain ⟨q, rfl⟩ := hfused w hRf
        rw [hRf, Option.map_some', store_val_json (JsonVal.float q)] at hv
        rw [← Option.some.inj hv]
        exact Or.inl rfl
    · intro v hv
      rw [hr5ts _ (by decide) t4 ht4_0 ht4C] at hv
      rw [← Option.some.inj hv]
      exact Or.inl rfl
    · intro v hv
      rw [hr5ts _ (by decide) t5 ht5_0 ht5C] at hv
      rw [← Option.some.inj hv]
      exact Or.inl rfl
  obtain ⟨qd, hr6daysv, hqd⟩ : ∃ q, lookup r6 "days_until_next_test" = some (.float q) ∧
      toNum vd = some q := by
    rcases hdaysC with ⟨n, rfl⟩ | ⟨q, rfl⟩
    · exact ⟨(n : ℚ), float_fold_sets hr6 (by decide) hr5days rfl rfl, rfl⟩
    · exact ⟨q, float_fold_keeps hr6 hr5days, rfl⟩
  have hr6ts : ∀ f ∈ ts_fields, ∀ t : ℚ, 0 ≤ t →
      (lookup R f = some (.datetime t) ∨ lookup R f = some (.float t)) →
      lookup r6 f = some (.float t) := by
    intro f hf t ht0 hC
    exact float_fold_keeps hr6 (hr5ts f hf t ht0 hC)
  have hfused_r6 : (lookup R "last_download_timestamplatest_part_finish_timestamp" =
        Option.none ∧
        lookup r6 "last_download_timestamplatest_part_finish_timestamp" = Option.none) ∨
      (∃ q, lookup R "last_download_timestamplatest_part_finish_timestamp" =
        some (.float q) ∧
        lookup r6 "last_download_timestamplatest_part_finish_timestamp" =
          some (.float q)) := by
    cases hRf : lookup R "last_download_timestamplatest_part_finish_timestamp" with
    | none =>
      refine Or.inl ⟨rfl, ?_⟩
      apply float_fold_none hr6
      rw [hr5fused, hRf]
      rfl
    | some w =>
      obtain ⟨q, rfl⟩ := hfused w hRf
      refine Or.inr ⟨q, rfl, ?_⟩
      apply float_fold_keeps hr6
      rw [hr5fused, hRf, Option.map_some', store_val_json (JsonVal.float q)]
  obtain ⟨r7, hr7⟩ : ∃ r7, foldStep coerce_ts ts_fields r6 = .ok r7 := by
    apply foldStep_succ frame_coerce_ts
      (fun k ov => ∀ v, ov = some v → v.isDatetime = true ∨ (toNum v).isSome = true)
      (fun s k hP => coerce_ts_succ hP) ts_fields (by decide)
    intro k hk
    rcases (show k = "finish_timestamp" ∨ k = "last_download_timestamp" ∨
        k = "latest_part_finish_timestamp" ∨ k = "latest_part_start_timestamp" ∨
        k = "start_timestamp" from by simpa [ts_fields] using hk) with
      rfl | rfl | rfl | rfl | rfl
    · intro v hv
      rw [hr6ts _ (by decide) t1 ht1_0 ht1C] at hv
      rw [← Option.some.inj hv]
      exact Or.inr rfl
    · intro v hv
      rw [hr6ts _ (by decide) t2 ht2_0 ht2C] at hv
      rw [← Option.some.inj hv]
      exact Or.inr rfl
    · intro v hv
      rw [hr6ts _ (by decide) t3 ht3_0 ht3C] at hv
      rw [← Option.some.inj hv]
      exact Or.inr rfl
    · intro v hv
      rw [hr6ts _ (by decide) t4 ht4_0 ht4C] at hv
      rw [← Option.some.inj hv]
      exact Or.inr rfl
    · intro v hv
      rw [hr6ts _ (by decide) t5 ht5_0 ht5C] at hv
      rw [← Option.some.inj hv]
      exact Or.inr rfl
  have h7v : ∀ f ∈ ts_fields, ∀ t : ℚ, 0 ≤ t →
      (lookup R f = some (.datetime t) ∨ lookup R f = some (.float t)) →
      lookup r7 f = some (.datetime t) := by
    intro f hf t ht0 hC
    exact ts_fold_keeps_num hr7 hf (hr6ts f hf t ht0 hC) rfl ht0
  have hr7dt : ∀ f ∈ dt_fields, ∀ t : ℚ, lookup R f = some (.datetime t) →
      lookup r7 f = some (.str (isoEncode t)) := by
    intro f hf t hl
    obtain ⟨c1, c2, c3, c4, c5, c6, c7⟩ := (show ∀ x ∈ dt_fields, x ≠ "ping" ∧
      x ≠ "raw_link" ∧ x ≠ "custom_pyfunceble_config" ∧ x ∉ bool_fields ∧
      x ∉ float_fields ∧ x ∉ ts_fields ∧ x ≠ "name" from by decide) f hf
    rw [head7_frame hping1 hr5 hr6 hr7 c1 c2 c3 c4 c5 c6 c7]
    have hk1 : strEndsWith f "_timestamp" = false :=
      (show ∀ x ∈ dt_fields, strEndsWith x "_timestamp" = false from by decide) f hf
    have hk2 : strEndsWith f "_datetime" = true :=
      (show ∀ x ∈ dt_fields, strEndsWith x "_datetime" = true from by decide) f hf
    exact lookup_store_dt hk1 hk2 hl
  obtain ⟨r8, hr8⟩ : ∃ r8, foldStep coerce_dt dt_fields r7 = .ok r8 := by
    apply foldStep_succ frame_coerce_dt
      (fun k ov => ∀ v, ov = some v → (truthy v && !v.isDatetime) = false ∨
        ∃ s, v = .str s)
      (fun s k hP => coerce_dt_succ hP) dt_fields (by decide)
    intro k hk
    rcases (show k = "finish_datetime" ∨ k = "last_download_datetime" ∨
        k = "latest_part_finish_datetime" ∨ k = "latest_part_start_datetime" ∨
        k = "start_datetime" from by simpa [dt_fields] using hk) with
      rfl | rfl | rfl | rfl | rfl
    · intro v hv
      rw [hr7dt _ (by decide) u1 hdt1R] at hv
      rw [← Option.some.inj hv]
      exact Or.inr ⟨_, rfl⟩
    · intro v hv
      rw [hr7dt _ (by decide) u2 hdt2R] at hv
      rw [← Option.some.inj hv]
      exact Or.inr ⟨_, rfl⟩
    · intro v hv
      rw [hr7dt _ (by decide) u3 hdt3R] at hv
      rw [← Option.some.inj hv]
      exact Or.inr ⟨_, rfl⟩
    · intro v hv
      rw [hr7dt _ (by decide) u4 hdt4R] at hv
      rw [← Option.some.inj hv]
      exact Or.inr ⟨_, rfl⟩
    · intro v hv
      rw [hr7dt _ (by decide) u5 hdt5R] at hv
      rw [← Option.some.inj hv]
      exact Or.inr ⟨_, rfl⟩
  have h8v : ∀ f ∈ dt_fields, ∀ t : ℚ, lookup R f = some (.datetime t) →
      lookup r8 f = some (.datetime t) := by
    intro f hf t hl
    exact dt_fold_sets hr8 hf (hr7dt f hf t hl) (truthy_isoEncode t)
      (isoDecode_isoEncode t)
  have h8uu : ∀ f ∈ uuid_fields,
      (lookup R f = some .none ∧ lookup r8 f = some .none) ∨
      ∃ c, lookup R f = some (.uuid c) ∧ uuidParse c = some c ∧
        lookup r8 f = some (.str c) := by
    intro f hf
    obtain ⟨c1, c2, c3, c4, c5, c6, c7, c8⟩ := (show ∀ x ∈ uuid_fields, x ≠ "ping" ∧
      x ≠ "raw_link" ∧ x ≠ "custom_pyfunceble_config" ∧ x ∉ bool_fields ∧
      x ∉ float_fields ∧ x ∉ ts_fields ∧ x ∉ dt_fields ∧ x ≠ "name" from by decide) f hf
    rcases huuid f hf with hn | ⟨c, hc, hpc⟩
    · refine Or.inl ⟨hn, ?_⟩
      rw [head8_frame hping1 hr5 hr6 hr7 hr8 c1 c2 c3 c4 c5 c6 c7 c8]
      exact lookup_store_json hn JsonVal.none
    · refine Or.inr ⟨c, hc, hpc, ?_⟩
      rw [head8_frame hping1 hr5 hr6 hr7 hr8 c1 c2 c3 c4 c5 c6 c7 c8]
      exact lookup_store_uuid hc
  obtain ⟨r9, hr9⟩ : ∃ r9, foldStep coerce_uuid uuid_fields r8 = .ok r9 := by
    apply foldStep_succ frame_coerce_uuid
      (fun k ov => ∀ v, ov = some v → (truthy v && !v.isUuid) = false ∨
        ∃ s, v = .str s ∧ (uuidParse s).isSome = true)
      (fun s k hP => coerce_uuid_succ hP) uuid_fields (by decide)
    intro k hk
    rcases h8uu k hk with ⟨hRn, h8⟩ | ⟨c, hRc, hpc, h8⟩
    · intro v hv
      rw [h8] at hv
      rw [← Option.some.inj hv]
      exact Or.inl rfl
    · intro v hv
      rw [h8] at hv
      rw [← Option.some.inj hv]
      exact Or.inr ⟨c, rfl, by rw [hpc]; rfl⟩
  have h9uu : ∀ f ∈ uuid_fields,
      (lookup R f = some .none ∧ lookup r9 f = some .none) ∨
      ∃ c, lookup R f = some (.uuid c) ∧ lookup r9 f = some (.uuid c) := by
    intro f hf
    rcases h8uu f hf with ⟨hRn, h8⟩ | ⟨c, hRc, hpc, h8⟩
    · exact Or.inl ⟨hRn, uuid_fold_none hr9 hf h8⟩
    · exact Or.inr ⟨c, hRc, uuid_fold_sets hr9 hf h8 (truthy_of_uuidParse hpc) hpc⟩
  have hr9name : lookup (rset r9 "repo" (.str (ctx2.owner ++ "/" ++ ctx2.baseName)))
      "name" = some (.str ctx2.baseName) := by
    rw [lookup_rset, if_neg (by decide),
      foldStep_frame frame_coerce_uuid uuid_fields r8 r9 hr9 _ (by decide),
      foldStep_frame frame_coerce_dt dt_fields r7 r8 hr8 _ (by decide),
      foldStep_frame frame_coerce_ts ts_fields r6 r7 hr7 _ (by decide),
      foldStep_frame frame_coerce_float float_fields r5 r6 hr6 _ (by decide),
      foldStep_frame frame_coerce_bool bool_fields _ r5 hr5 _ (by decide),
      cpc_step2_frame _ _ (by decide), cpc_step_frame _ _ (by decide),
      raw_link_step_frame _ _ (by decide),
      ping_step_frame hping1 _ (by decide), lookup_rset, if_pos rfl]
  have hpcn2 : pcn_step (rset r9 "repo" (.str (ctx2.owner ++ "/" ++ ctx2.baseName))) =
      .ok (rset (rset r9 "repo" (.str (ctx2.owner ++ "/" ++ ctx2.baseName)))
        "platform_container_name" (.str (pcn_of_name ctx2.baseName))) :=
    pcn_step_succ hr9name
  have hu2ex : ∃ ru2, update ctx2 (store R) = .ok ru2 :=
    ⟨_, update_mk hck hping1 hr5 hr6 hr7 hr8 hr9 hpcn2⟩
  obtain ⟨ru2, hu2⟩ := hu2ex
  obtain ⟨r1x, r5x, r6x, r7x, r8x, r9x, hcx, hpx, h5x, h6x, h7x, h8x, h9x, hpcnx⟩ :=
    update_un hu2
  have e1 : r1x = r1 := Except.ok.inj (hpx.symm.trans hping1)
  subst e1
  have e5 : r5x = r5 := Except.ok.inj (h5x.symm.trans hr5)
  subst e5
  have e6 : r6x = r6 := Except.ok.inj (h6x.symm.trans hr6)
  subst e6
  have e7 : r7x = r7 := Except.ok.inj (h7x.symm.trans hr7)
  subst e7
  have e8 : r8x = r8 := Except.ok.inj (h8x.symm.trans hr8)
  subst e8
  have e9 : r9x = r9 := Except.ok.inj (h9x.symm.trans hr9)
  subst e9
  obtain ⟨hu2name, hu2repo, hu2pcn⟩ := update_char_named hu2
  have hru2ping : lookup ru2 "ping" = some (.list (l.map Value.str)) := by
    rw [tail4_frame hr5 hr6 hr7 hr8 hr9 hpcnx (by decide) (by decide) (by decide)
        (by decide) (by decide) (by decide) (by decide),
      cpc_step2_frame _ _ (by decide), cpc_step_frame _ _ (by decide),
      raw_link_step_frame _ _ (by decide)]
    exact hr1ping
  have hru2raw : lookup ru2 "raw_link" = some vr := by
    rw [tail4_frame hr5 hr6 hr7 hr8 hr9 hpcnx (by decide) (by decide) (by decide)
      (by decide) (by decide) (by decide) (by decide)]
    exact hr4raw
  have hru2cpc : lookup ru2 "custom_pyfunceble_config" = some (.dict dc) := by
    rw [tail4_frame hr5 hr6 hr7 hr8 hr9 hpcnx (by decide) (by decide) (by decide)
      (by decide) (by decide) (by decide) (by decide)]
    exact hr4cpc
  have hru2cut : lookup ru2 "currently_under_test" = some (.bool b1) := by
    rw [tail5_frame hr6 hr7 hr8 hr9 hpcnx (by decide) (by decide) (by decide) (by decide)
      (by decide) (by decide)]
    exact hr5cut
  have hru2pe : lookup ru2 "ping_enabled" = some (.bool b2) := by
    rw [tail5_frame hr6 hr7 hr8 hr9 hpcnx (by decide) (by decide) (by decide) (by decide)
      (by decide) (by decide)]
    exact hr5pe
  have hru2days : lookup ru2 "days_until_next_test" = some (.float qd) := by
    rw [tail6_frame hr7 hr8 hr9 hpcnx (by decide) (by decide) (by decide) (by decide)
      (by decide)]
    exact hr6daysv
  have hfused_end : (lookup R "last_download_timestamplatest_part_finish_timestamp" =
        Option.none ∧
        lookup ru2 "last_download_timestamplatest_part_finish_timestamp" =
          Option.none) ∨
      (∃ q, lookup R "last_download_timestamplatest_part_finish_timestamp" =
        some (.float q) ∧
        lookup ru2 "last_download_timestamplatest_part_finish_timestamp" =
          some (.float q)) := by
    rcases hfused_r6 with ⟨hR0, h60⟩ | ⟨q, hRq, h6q⟩
    · refine Or.inl ⟨hR0, ?_⟩
      rw [tail6_frame hr7 hr8 hr9 hpcnx (by decide) (by decide) (by decide) (by decide)
        (by decide)]
      exact h60
    · refine Or.inr ⟨q, hRq, ?_⟩
      rw [tail6_frame hr7 hr8 hr9 hpcnx (by decide) (by decide) (by decide) (by decide)
        (by decide)]
      exact h6q
  have hru2ts : ∀ f ∈ ts_fields, ∀ t : ℚ, 0 ≤ t →
      (lookup R f = some (.datetime t) ∨ lookup R f = some (.float t)) →
      lookup ru2 f = some (.datetime t) := by
    intro f hf t ht0 hC
    obtain ⟨c1, c2, c3, c4⟩ := (show ∀ x ∈ ts_fields, x ∉ dt_fields ∧ x ∉ uuid_fields ∧
      x ≠ "repo" ∧ x ≠ "platform_container_name" from by decide) f hf
    rw [tail7_frame hr8 hr9 hpcnx c1 c2 c3 c4]
    exact h7v f hf t ht0 hC
  have hru2dt : ∀ f ∈ dt_fields, ∀ t : ℚ, lookup R f = some (.datetime t) →
      lookup ru2 f = some (.datetime t) := by
    intro f hf t hl
    obtain ⟨c1, c2, c3⟩ := (show ∀ x ∈ dt_fields, x ∉ uuid_fields ∧ x ≠ "repo" ∧
      x ≠ "platform_container_name" from by decide) f hf
    rw [tail8_frame hr9 hpcnx c1 c2 c3]
    exact h8v f hf t hl
  have huuid_end : ∀ f ∈ uuid_fields,
      (lookup R f = some .none ∧ lookup ru2 f = some .none) ∨
      ∃ c, lookup R f = some (.uuid c) ∧ lookup ru2 f = some (.uuid c) := by
    intro f hf
    obtain ⟨c1, c2⟩ := (show ∀ x ∈ uuid_fields, x ≠ "repo" ∧
      x ≠ "platform_container_name" from by decide) f hf
    rcases h9uu f hf with ⟨hRn, h9n⟩ | ⟨c, hRc, h9c⟩
    · refine Or.inl ⟨hRn, ?_⟩
      rw [tail9_frame hpcnx c1 c2]
      exact h9n
    · refine Or.inr ⟨c, hRc, ?_⟩
      rw [tail9_frame hpcnx c1 c2]
      exact h9c
  have hru2other : ∀ k, k ∉ managed_fields →
      lookup ru2 k = (lookup R k).map (store_val k) := by
    intro k hk
    have hko : k ≠ "name" := fun he => hk (by rw [he]; decide)
    have h1 : k ≠ "ping" := fun he => hk (by rw [he]; decide)
    have h2 : k ≠ "custom_pyfunceble_config" := fun he => hk (by rw [he]; decide)
    have h3 : k ≠ "raw_link" := fun he => hk (by rw [he]; decide)
    have h4 : k ∉ bool_fields := fun hm => hk (bool_sub_managed k hm)
    have h5f : k ∉ float_fields := fun hm => hk (float_sub_managed k hm)
    have h6f : k ∉ ts_fields := fun hm => hk (ts_sub_managed k hm)
    have h7f : k ∉ dt_fields := fun hm => hk (dt_sub_managed k hm)
    have h8f : k ∉ uuid_fields := fun hm => hk (uuid_sub_managed k hm)
    have h9r : k ≠ "repo" := fun he => hk (by rw [he]; decide)
    have h10 : k ≠ "platform_container_name" := fun he => hk (by rw [he]; decide)
    rw [update_frame hu2 k h1 h2 h3 h4 h5f h6f h7f h8f h9r h10, lookup_rset, if_neg hko,
      lookup_store]
  have hall : ∀ kv ∈ defaults_table ctx2, (lookup ru2 kv.1).isSome = true := by
    intro kv hkv
    have hk : kv.1 ∈ defaults_keys := by
      rw [← defaults_table_keys ctx2]
      exact List.mem_map_of_mem Prod.fst hkv
    rcases (show kv.1 = "currently_under_test" ∨ kv.1 = "custom_pyfunceble_config" ∨
        kv.1 = "days_until_next_test" ∨ kv.1 = "finish_datetime" ∨
        kv.1 = "finish_timestamp" ∨ kv.1 = "last_download_datetime" ∨
        kv.1 = "last_download_timestamp" ∨ kv.1 = "latest_part_finish_timestamp" ∨
        kv.1 = "latest_part_start_timestamp" ∨ kv.1 = "latest_part_finish_datetime" ∨
        kv.1 = "latest_part_start_datetime" ∨ kv.1 = "name" ∨ kv.1 = "repo" ∨
        kv.1 = "platform_container_name" ∨ kv.1 = "platform_description" ∨
        kv.1 = "own_management" ∨ kv.1 = "ping" ∨ kv.1 = "ping_enabled" ∨
        kv.1 = "raw_link" ∨ kv.1 = "start_datetime" ∨ kv.1 = "start_timestamp" ∨
        kv.1 = "live_update" ∨ kv.1 = "platform_container_id" ∨
        kv.1 = "platform_remote_source_id" ∨ kv.1 = "platform_optout" from by
      simpa [defaults_keys] using hk) with
      h|h|h|h|h|h|h|h|h|h|h|h|h|h|h|h|h|h|h|h|h|h|h|h|h <;> rw [h]
    · rw [hru2cut]
      rfl
    · rw [hru2cpc]
      rfl
    · rw [hru2days]
      rfl
    · rw [hru2dt _ (by decide) u1 hdt1R]
      rfl
    · rw [hru2ts _ (by decide) t1 ht1_0 ht1C]
      rfl
    · rw [hru2dt _ (by decide) u2 hdt2R]
      rfl
    · rw [hru2ts _ (by decide) t2 ht2_0 ht2C]
      rfl
    · rw [hru2ts _ (by decide) t3 ht3_0 ht3C]
      rfl
    · rw [hru2ts _ (by decide) t4 ht4_0 ht4C]
      rfl
    · rw [hru2dt _ (by decide) u3 hdt3R]
      rfl
    · rw [hru2dt _ (by decide) u4 hdt4R]
      rfl
    · rw [hu2name]
      rfl
    · rw [hu2repo]
      rfl
    · rw [hu2pcn]
      rfl
    · rw [hru2other _ (by decide)]
      obtain ⟨w, hw⟩ := Option.isSome_iff_exists.mp
        (hkeys "platform_description" (by decide))
      rw [hw]
      rfl
    · rw [hru2other _ (by decide)]
      obtain ⟨w, hw⟩ := Option.isSome_iff_exists.mp (hkeys "own_management" (by decide))
      rw [hw]
      rfl
    · rw [hru2ping]
      rfl
    · rw [hru2pe]
      rfl
    · rw [hru2raw]
      rfl
    · rw [hru2dt _ (by decide) u5 hdt5R]
      rfl
    · rw [hru2ts _ (by decide) t5 ht5_0 ht5C]
      rfl
    · rw [hru2other _ (by decide)]
      obtain ⟨w, hw⟩ := Option.isSome_iff_exists.mp (hkeys "live_update" (by decide))
      rw [hw]
      rfl
    · rcases huuid_end "platform_container_id" (by decide) with ⟨_, h2⟩ | ⟨c, _, h2⟩ <;>
        rw [h2] <;> rfl
    · rcases huuid_end "platform_remote_source_id" (by decide) with
        ⟨_, h2⟩ | ⟨c, _, h2⟩ <;> rw [h2] <;> rfl
    · rw [hru2other _ (by decide)]
      obtain ⟨w, hw⟩ := Option.isSome_iff_exists.mp (hkeys "platform_optout" (by decide))
      rw [hw]
      rfl
  have hcmi : create_missing_index ctx2 ru2 = ru2 := by
    unfold create_missing_index
    exact add_missing_all_present _ _ hall
  refine ⟨clean (create_missing_index ctx2 ru2), ?_, ?_⟩
  · unfold pipeline
    rw [hu2]
  · intro k
    have hRk' : lookup (clean (create_missing_index ctx2 ru2)) k =
        if k ∈ legacy_fields then Option.none else lookup ru2 k := by
      rw [hcmi, lookup_clean]
    by_cases hleg : k ∈ legacy_fields
    · rw [hRk', if_pos hleg, hlegacy k hleg]
      rfl
    · rw [hRk', if_neg hleg]
      by_cases hmk : k ∈ managed_fields
      · rcases (show k = "name" ∨ k = "repo" ∨ k = "platform_container_name" ∨
            k = "ping" ∨ k = "raw_link" ∨ k = "custom_pyfunceble_config" ∨
            k = "currently_under_test" ∨ k = "ping_enabled" ∨
            k = "days_until_next_test" ∨ k = "finish_timestamp" ∨
            k = "last_download_timestamplatest_part_finish_timestamp" ∨
            k = "latest_part_start_timestamp" ∨ k = "start_timestamp" ∨
            k = "last_download_timestamp" ∨ k = "latest_part_finish_timestamp" ∨
            k = "finish_datetime" ∨ k = "last_download_datetime" ∨
            k = "latest_part_finish_datetime" ∨ k = "latest_part_start_datetime" ∨
            k = "start_datetime" ∨ k = "platform_container_id" ∨
            k = "platform_remote_source_id" ∨ k = "arguments" ∨
            k = "clean_list_file" ∨ k = "clean_original" ∨
            k = "commit_autosave_message" ∨ k = "last_test" ∨ k = "list_name" ∨
            k = "stable" ∨ k = "platform_shortname" from by
          simpa [managed_fields] using hmk) with
          rfl|rfl|rfl|rfl|rfl|rfl|rfl|rfl|rfl|rfl|rfl|rfl|rfl|rfl|rfl|rfl|rfl|rfl|rfl|
          rfl|rfl|rfl|rfl|rfl|rfl|rfl|rfl|rfl|rfl|rfl
        · rw [hname, hu2name, hb]
          exact log_eq_val_refl (JsonVal.str _)
        · rw [hrepo, hu2repo, ho, hb]
          exact log_eq_val_refl (JsonVal.str _)
        · rw [hpcn, hu2pcn, hb]
          exact log_eq_val_refl (JsonVal.str _)
        · rw [hpingR, hru2ping]
          exact log_eq_val_refl (json_str_list l)
        · rw [hrawR, hru2raw]
          exact log_eq_val_refl hjvr
        · rw [hcpcR, hru2cpc]
          exact log_eq_val_refl hjdc
        · rw [hcutR, hru2cut]
          exact log_eq_val_refl (JsonVal.bool b1)
        · rw [hpeR, hru2pe]
          exact log_eq_val_refl (JsonVal.bool b2)
        · rw [hdaysR, hru2days]
          have hinst : instOf vd = instOf (.float qd) := by
            rcases hdaysC with ⟨n, rfl⟩ | ⟨q, rfl⟩
            · exact hqd
            · exact hqd
          exact log_eq_val_of_pyEq hinst (pyEq_toNum_float hqd)
        · rw [hru2ts _ (by decide) t1 ht1_0 ht1C]
          rcases ht1C with hv1 | hv1
          · rw [hv1]
            exact log_eq_val_instants (by decide)
              (show instOf (.datetime t1) = some t1 from rfl)
              (show instOf (.datetime t1) = some t1 from rfl)
          · rw [hv1]
            exact log_eq_val_instants (by decide)
              (show instOf (.float t1) = some t1 from rfl)
              (show instOf (.datetime t1) = some t1 from rfl)
        · rcases hfused_end with ⟨hR0, h20⟩ | ⟨q, hRq, h2q⟩
          · rw [hR0, h20]
            rfl
          · rw [hRq, h2q]
            exact log_eq_val_refl (JsonVal.float q)
        · rw [hru2ts _ (by decide) t4 ht4_0 ht4C]
          rcases ht4C with hv1 | hv1
          · rw [hv1]
            exact log_eq_val_instants (by decide)
              (show instOf (.datetime t4) = some t4 from rfl)
              (show instOf (.datetime t4) = some t4 from rfl)
          · rw [hv1]
            exact log_eq_val_instants (by decide)
              (show instOf (.float t4) = some t4 from rfl)
              (show instOf (.datetime t4) = some t4 from rfl)
        · rw [hru2ts _ (by decide) t5 ht5_0 ht5C]
          rcases ht5C with hv1 | hv1
          · rw [hv1]
            exact log_eq_val_instants (by decide)
              (show instOf (.datetime t5) = some t5 from rfl)
              (show instOf (.datetime t5) = some t5 from rfl)
          · rw [hv1]
            exact log_eq_val_instants (by decide)
              (show instOf (.float t5) = some t5 from rfl)
              (show instOf (.datetime t5) = some t5 from rfl)
        · rw [hru2ts _ (by decide) t2 ht2_0 ht2C]
          rcases ht2C with hv1 | hv1
          · rw [hv1]
            exact log_eq_val_instants (by decide)
              (show instOf (.datetime t2) = some t2 from rfl)
              (show instOf (.datetime t2) = some t2 from rfl)
          · rw [hv1]
            exact log_eq_val_instants (by decide)
              (show instOf (.float t2) = some t2 from rfl)
              (show instOf (.datetime t2) = some t2 from rfl)
        · rw [hru2ts _ (by decide) t3 ht3_0 ht3C]
          rcases ht3C with hv1 | hv1
          · rw [hv1]
            exact log_eq_val_instants (by decide)
              (show instOf (.datetime t3) = some t3 from rfl)
              (show instOf (.datetime t3) = some t3 from rfl)
          · rw [hv1]
            exact log_eq_val_instants (by decide)
              (show instOf (.float t3) = some t3 from rfl)
              (show instOf (.datetime t3) = some t3 from rfl)
        · rw [hdt1R, hru2dt _ (by decide) u1 hdt1R]
          exact log_eq_val_instants (by decide)
            (show instOf (.datetime u1) = some u1 from rfl)
            (show instOf (.datetime u1) = some u1 from rfl)
        · rw [hdt2R, hru2dt _ (by decide) u2 hdt2R]
          exact log_eq_val_instants (by decide)
            (show instOf (.datetime u2) = some u2 from rfl)
            (show instOf (.datetime u2) = some u2 from rfl)
        · rw [hdt3R, hru2dt _ (by decide) u3 hdt3R]
          exact log_eq_val_instants (by decide)
            (show instOf (.datetime u3) = some u3 from rfl)
            (show instOf (.datetime u3) = some u3 from rfl)
        · rw [hdt4R, hru2dt _ (by decide) u4 hdt4R]
          exact log_eq_val_instants (by decide)
            (show instOf (.datetime u4) = some u4 from rfl)
            (show instOf (.datetime u4) = some u4 from rfl)
        · rw [hdt5R, hru2dt _ (by decide) u5 hdt5R]
          exact log_eq_val_instants (by decide)
            (show instOf (.datetime u5) = some u5 from rfl)
            (show instOf (.datetime u5) = some u5 from rfl)
        · rcases huuid_end "platform_container_id" (by decide) with
            ⟨hRn, h2n⟩ | ⟨c, hRc, h2c⟩
          · rw [hRn, h2n]
            exact log_eq_val_refl JsonVal.none
          · rw [hRc, h2c]
            exact log_eq_val_uuid
        · rcases huuid_end "platform_remote_source_id" (by decide) with
            ⟨hRn, h2n⟩ | ⟨c, hRc, h2c⟩
          · rw [hRn, h2n]
            exact log_eq_val_refl JsonVal.none
          · rw [hRc, h2c]
            exact log_eq_val_uuid
        · exact absurd (by decide) hleg
        · exact absurd (by decide) hleg
        · exact absurd (by decide) hleg
        · exact absurd (by decide) hleg
        · exact absurd (by decide) hleg
        · exact absurd (by decide) hleg
        · exact absurd (by decide) hleg
        · exact absurd (by decide) hleg
      · rw [hru2other k hmk]
        cases hRk : lookup R k with
        | none => rfl
        | some w =>
          rw [Option.map_some', store_val_json (hothers k hmk w hRk)]
          exact log_eq_val_refl (hothers k hmk w hRk)

/-- C5: `store` followed by a fresh load-and-normalize of the written record
reproduces the same logical record — the fresh pipeline run succeeds, and at
every key the two records agree: keys holding instants (`*_timestamp` and
`*_datetime` values) denote the same instant (well within the claimed
sub-second precision), unique identifiers are equal as strings, and every
other value is structurally equal (Python `==`); keys absent from one record
are absent from both.  The record being stored is any output of the pipeline
on JSON-loaded content, with the project clock at least 15 days past the
epoch (so the backdated defaults are representable) and the fresh run using
the same repository owner and base name. -/
theorem c5_store_roundtrip {ctx ctx2 : Ctx} {j R : Record}
    (hj : ∀ kv ∈ j, JsonVal kv.2) (hnow : fifteenDays ≤ ctx.now)
    (ho : ctx2.owner = ctx.owner) (hb : ctx2.baseName = ctx.baseName)
    (h : pipeline ctx j = .ok R) :
    ∃ R', pipeline ctx2 (store R) = .ok R' ∧
      ∀ k, logEqAt k (lookup R k) (lookup R' k) = true :=
  normalized_roundtrip (pipeline_normalized hj hnow h) ho hb

theorem c5_witness :
    (∀ kv ∈ ([] : Record), JsonVal kv.2) ∧ fifteenDays ≤ testCtx.now ∧
    ∃ R', pipeline testCtx (store ((pipeline testCtx []).toOption.getD [])) = .ok R' ∧
      ∀ k, logEqAt k (lookup ((pipeline testCtx []).toOption.getD []) k)
        (lookup R' k) = true :=
  ⟨fun kv h => absurd h (List.not_mem_nil kv),
   by rw [show testCtx.now = (2592000 : ℚ) from rfl,
        show fifteenDays = (1296000 : ℚ) from rfl]
      norm_num,
   c5_store_roundtrip (fun kv h => absurd h (List.not_mem_nil kv))
     (by rw [show testCtx.now = (2592000 : ℚ) from rfl,
           show fifteenDays = (1296000 : ℚ) from rfl]
         norm_num)
     rfl rfl
     (by with_unfolding_all rfl)⟩
